import Mathlib

/-!
# Hot-Potato: a shallow embedding of the ring game

The development follows the C++ sources: `potato.cpp` (the relayed record),
`ringmaster.cpp` (the Coordinator) and `player.cpp` / `player_main.cpp`
(the players).  Machine `int`s are modelled by `Int`, `uint16_t` by `Nat`
reduced modulo `65536`, `std::string` by `List Char`, and a socket by the
list of messages written to it.
-/

namespace HotPotato

set_option maxRecDepth 100000

/-! ## potato.hpp / potato.cpp -/

/-- The capacity of the `trace` array of a potato (`int trace[512]`). -/
def traceCapacity : Nat := 512

/-- The record `class Potato`: `int hops`, `int trace[512]`, `int traceLength`.
The array is a list of slots; the constructors below always build it with
`512` slots. -/
structure Potato where
  hops : Int
  trace : List Int
  traceLength : Int
deriving DecidableEq, Repr

namespace Potato

/-- The constructor `Potato::Potato(int hops)`: the trace array is cleared by
`memset` and the trace length is set to zero. -/
def new (hops : Int) : Potato :=
  { hops := hops, trace := List.replicate traceCapacity 0, traceLength := 0 }

/-- The defaulted constructor `Potato() = default` with the member
initialisers `hops = 0`, `trace = {}`, `traceLength = 0`. -/
def default : Potato :=
  { hops := 0, trace := List.replicate traceCapacity 0, traceLength := 0 }

/-- The accessor `Potato::getHops`. -/
def getHops (p : Potato) : Int := p.hops

/-- The method `Potato::decrementHops`: `if (hops > 0) hops--`. -/
def decrementHops (p : Potato) : Potato :=
  if p.hops > 0 then { p with hops := p.hops - 1 } else p

/-- The method `Potato::addTrace`:
`if (traceLength < 512) trace[traceLength++] = playerId`.
A negative `traceLength` would index in front of the array in C++; the
statements about the stored entries below all assume `0 ≤ traceLength`. -/
def addTrace (p : Potato) (playerId : Int) : Potato :=
  if p.traceLength < 512 then
    { p with trace := p.trace.set p.traceLength.toNat playerId,
             traceLength := p.traceLength + 1 }
  else p

/-- The accessor `Potato::getTrace`: the whole array of slots. -/
def getTrace (p : Potato) : List Int := p.trace

/-- The accessor `Potato::getTraceLength`. -/
def getTraceLength (p : Potato) : Int := p.traceLength

/-- The entries of the trace that are in use: the first `traceLength` slots,
which is what `Ringmaster::printTrace` walks over. -/
def visited (p : Potato) : List Int := p.trace.take p.traceLength.toNat

end Potato

/-- A call made on a potato by its holder: one of the two mutating methods. -/
inductive PotatoCall where
  | addTrace (playerId : Int)
  | decrementHops
deriving DecidableEq, Repr

/-- Run one mutating call. -/
def PotatoCall.run (p : Potato) : PotatoCall → Potato
  | .addTrace playerId => p.addTrace playerId
  | .decrementHops => p.decrementHops

/-- Run a sequence of calls, first call first. -/
def runCalls (p : Potato) (calls : List PotatoCall) : Potato :=
  calls.foldl PotatoCall.run p

/-- The number of `addTrace` calls in a sequence of calls. -/
def countAddTrace : List PotatoCall → Nat
  | [] => 0
  | .addTrace _ :: cs => countAddTrace cs + 1
  | .decrementHops :: cs => countAddTrace cs

/-! ## player.hpp / player.cpp: the relay operations of a player -/

/-- The struct `Player::PlayerInfo` with its member initialisers
`id = -1`, `address = ""`, `port = 0`. -/
structure PlayerInfo where
  id : Int := -1
  address : List Char := []
  port : Nat := 0
deriving DecidableEq, Repr

/-- The three connections a player owns, in the order of the `pollfd` array of
`Player::receivePotato`: `ringmaster`, `leftPlayer`, `rightPlayer`. -/
inductive Conn where
  | ringmaster
  | leftPlayer
  | rightPlayer
deriving DecidableEq, Repr

/-- What a player writes to its console during the relay. -/
inductive Printed where
  | invalidPotato
  | imIt
  | sendingPotatoTo (id : Int)
deriving DecidableEq, Repr

/-- The fields of `class Player` that the relay reads: `my_id`, `numPlayers`
(both `uint16_t`) and `neighborInfos` (right neighbour first). -/
structure Player where
  my_id : Nat
  numPlayers : Nat
  neighborInfos : List PlayerInfo
deriving DecidableEq, Repr

/-- The outcome of one `poll` over three descriptors together with what
`recvAll` would then read: `status` is the return value of `poll`, `pollin i`
says whether `pfds[i].revents & POLLIN` is set, and `incoming i` is the record
waiting on connection `i` (`none` when the peer has closed it). -/
structure Readiness where
  status : Int
  pollin : Nat → Bool
  incoming : Nat → Option Potato

/-- The scan `for (int i = 0; i < 3; i++)` inside `Player::receivePotato`,
started at index `i` with `n` descriptors left.  The first descriptor with
`POLLIN` set is read with `recvAll`, which throws when the peer has closed. -/
def scanReady (r : Readiness) : Nat → Nat → Option (Except String Potato)
  | _, 0 => none
  | i, n + 1 =>
    if r.pollin i then
      match r.incoming i with
      | some potato => some (.ok potato)
      | none => some (.error "Peer closed connection before all data was received")
    else scanReady r (i + 1) n

/-- The method `Player::receivePotato`: the record read from the first ready
connection is returned as it is; `Potato(-1)` when `poll` fails or no
descriptor is readable. -/
def receivePotato (r : Readiness) : Except String Potato :=
  if r.status > 0 then
    match scanReady r 0 3 with
    | some res => res
    | none => .ok (Potato.new (-1))
  else .ok (Potato.new (-1))

/-- The result of `Player::passPotato`: the returned `int`, the potato after
the call (it is passed by reference), the records written with `sendAll` and
the console output. -/
structure PassResult where
  code : Int
  potato : Potato
  sent : List (Conn × Potato)
  printed : List Printed
deriving DecidableEq, Repr

/-- The expression `neighborInfos[k].id`. -/
def Player.neighborId (pl : Player) (k : Nat) : Int :=
  (pl.neighborInfos.getD k {}).id

/-- The method `Player::passPotato`; `rnd` is the value `rand()` returns when
the method calls it. -/
def passPotato (pl : Player) (potato : Potato) (rnd : Nat) : PassResult :=
  if potato.getHops = -2 then
    { code := -2, potato := potato, sent := [], printed := [] }
  else if potato.getHops < 0 then
    { code := -1, potato := potato, sent := [], printed := [.invalidPotato] }
  else if potato.getHops = 0 then
    let potato := potato.addTrace pl.my_id
    { code := 0, potato := potato, sent := [(.ringmaster, potato)], printed := [.imIt] }
  else
    let potato := potato.decrementHops.addTrace pl.my_id
    if pl.numPlayers = 2 then
      { code := 1, potato := potato, sent := [(.rightPlayer, potato)],
        printed := [.sendingPotatoTo (pl.neighborId 0)] }
    else
      let randomChoice := rnd % 2
      { code := 1, potato := potato,
        sent := [(if randomChoice = 0 then Conn.rightPlayer else Conn.leftPlayer, potato)],
        printed := [.sendingPotatoTo
          (if randomChoice = 0 then pl.neighborId 0 else pl.neighborId 1)] }

/-- The method `Player::middleGame`: `receivePotato` followed by `passPotato`. -/
def middleGame (pl : Player) (r : Readiness) (rnd : Nat) : Except String PassResult :=
  match receivePotato r with
  | .ok potato => .ok (passPotato pl potato rnd)
  | .error e => .error e

/-- How the `while (true)` loop of `player_main.cpp` ended on a finite list
of poll outcomes. -/
inductive LoopEnd where
  | shutdown (unread : Nat)
  | stillWaiting
  | failed (what : String)
deriving DecidableEq, Repr

/-- The `while (true)` loop of `player_main.cpp`, run on the poll outcomes and
`rand()` values the player meets, in order.  It returns the records the player
sent and how the loop ended: by `break` (with the number of outcomes not
consumed), by an exception, or still waiting when the outcomes run out. -/
def playerLoop (pl : Player) : List (Readiness × Nat) → List (Conn × Potato) × LoopEnd
  | [] => ([], .stillWaiting)
  | (r, rnd) :: rest =>
    match middleGame pl r rnd with
    | .error e => ([], .failed e)
    | .ok res =>
      if res.code = -1 then
        (res.sent ++ (playerLoop pl rest).1, (playerLoop pl rest).2)
      else if res.code = -2 then
        (res.sent, .shutdown rest.length)
      else
        (res.sent ++ (playerLoop pl rest).1, (playerLoop pl rest).2)

/-- A poll outcome in which exactly the connection with index `via` is
readable and carries `record`. -/
def arrival (via : Nat) (record : Potato) : Readiness :=
  { status := 1, pollin := fun i => i == via, incoming := fun i => if i = via then some record else none }

/-! ## ringmaster.hpp / ringmaster.cpp: the game operations of the Coordinator -/

/-- The struct `Ringmaster::PlayerInfo`: the 0-based index of a player in
arrival order, its address and its listening port. -/
structure RingInfo where
  id : Int
  address : List Char
  port : Nat
deriving DecidableEq, Repr

/-- The fields of `class Ringmaster` that the protocol reads: `numPlayers`
(a `uint16_t`) and `playerInfos`.  The vector `playerSockets` grows in step
with `playerInfos`; the socket with index `i` is the connection to the player
that arrived `i`-th, so a socket is named by that index. -/
structure Ringmaster where
  port_ : Nat
  numPlayers : Nat
  playerInfos : List RingInfo
deriving DecidableEq, Repr

/-- The constructor `Ringmaster(int port, int numPlayers)`: both arguments
are converted to `uint16_t`. -/
def Ringmaster.new (port numPlayers : Int) : Ringmaster :=
  { port_ := (port % 65536).toNat, numPlayers := (numPlayers % 65536).toNat, playerInfos := [] }

/-- The method `Ringmaster::createPotato`. -/
def createPotato (numHops : Int) : Potato := Potato.new numHops

/-- The result of `Ringmaster::sendPotato`: the returned `int`, the potato
after the call and the records written, each with the index of its socket. -/
structure SendResult where
  code : Int
  potato : Potato
  sent : List (Nat × Potato)
deriving DecidableEq, Repr

/-- The method `Ringmaster::sendPotato`; `rnd` is the value of `rand()`. -/
def sendPotato (rm : Ringmaster) (potato : Potato) (rnd : Nat) : SendResult :=
  let potato := potato.decrementHops
  if rm.playerInfos.isEmpty then
    { code := -1, potato := potato, sent := [] }
  else
    let randomIndex := rnd % rm.numPlayers
    { code := randomIndex, potato := potato, sent := [(randomIndex, potato)] }

/-- The part of `Ringmaster::startGame` after the ring has been set up:
nothing is sent when `numHops <= 0`, otherwise a potato is created and
released. -/
def startGame (rm : Ringmaster) (numHops : Int) (rnd : Nat) : Int × List (Nat × Potato) :=
  if numHops ≤ 0 then (0, [])
  else (1, (sendPotato rm (createPotato numHops) rnd).sent)

/-- The method `Ringmaster::waitForPotato`: the record of the first readable
player socket, `Potato(-1)` when `poll` fails or nothing is readable. -/
def waitForPotato (rm : Ringmaster) (r : Readiness) : Except String Potato :=
  if r.status > 0 then
    match scanReady r 0 rm.numPlayers with
    | some res => res
    | none => .ok (Potato.new (-1))
  else .ok (Potato.new (-1))

/-- The method `Ringmaster::sendShutdownSignal`: the record `Potato(-2)` is
written to every player socket. -/
def sendShutdownSignal (rm : Ringmaster) : List (Nat × Potato) :=
  (List.range rm.numPlayers).map fun i => (i, Potato.new (-2))

/-! ## Strings and 16-bit fields on the wire -/

/-- The call `std::to_string(n)` for `n ≥ 0`, least significant digit first
into the accumulator; `fuel` bounds the number of digits. -/
def decimalCore : Nat → Nat → List Char → List Char
  | 0, _, acc => acc
  | fuel + 1, n, acc =>
    if n / 10 = 0 then Char.ofNat (48 + n % 10) :: acc
    else decimalCore fuel (n / 10) (Char.ofNat (48 + n % 10) :: acc)

/-- The call `std::to_string(int)`: a minus sign for negative values, then
the decimal digits. -/
def to_string (n : Int) : List Char :=
  if n < 0 then '-' :: decimalCore (n.natAbs + 1) n.natAbs []
  else decimalCore (n.natAbs + 1) n.natAbs []

/-- The test `isspace` of the C locale. -/
def isSpace (c : Char) : Bool :=
  c.toNat = 32 || (9 ≤ c.toNat && c.toNat ≤ 13)

/-- The value of the longest prefix of decimal digits, continued from `acc`. -/
def digitsValue : List Char → Nat → Nat
  | [], acc => acc
  | c :: cs, acc =>
    if c.isDigit then digitsValue cs (acc * 10 + (c.toNat - 48)) else acc

/-- The call `std::stoi(s)` in base 10: leading white space is skipped, an
optional sign is read, then the longest run of digits; `none` stands for the
exceptions `invalid_argument` (no digit) and `out_of_range`. -/
def stoi (s : List Char) : Option Int :=
  let body := s.dropWhile isSpace
  let negative := body.head? = some '-'
  let digits := if body.head? = some '-' ∨ body.head? = some '+' then body.tail else body
  match digits with
  | [] => none
  | c :: _ =>
    if c.isDigit then
      let value : Int := if negative then -(digitsValue digits 0 : Int) else digitsValue digits 0
      if -2147483648 ≤ value ∧ value ≤ 2147483647 then some value else none
    else none

/-- The call `s.find(c)`: the position of the first `c` in `s`. -/
def findChar (c : Char) : List Char → Option Nat
  | [] => none
  | d :: ds => if d = c then some 0 else (findChar c ds).map (· + 1)

/-- The call `s.find(c, pos)`: the position of the first `c` at or after `pos`. -/
def findCharFrom (c : Char) (s : List Char) (pos : Nat) : Option Nat :=
  (findChar c (s.drop pos)).map (· + pos)

/-- The call `s.substr(pos, len)`. -/
def substr (s : List Char) (pos len : Nat) : List Char := (s.drop pos).take len

/-- The two bytes that `htons(x)` puts on the wire for a `uint16_t` value. -/
def htons (x : Nat) : List Nat := [x % 65536 / 256, x % 256]

/-- The `uint16_t` value `ntohs` reads back from two bytes of the wire. -/
def ntohs (bytes : List Nat) : Nat :=
  (bytes.getD 0 0 % 256) * 256 + bytes.getD 1 0 % 256

/-- The call `recvAll(buf, len)` on a connection whose remaining input is
`stream`: the first `len` bytes and the rest; it throws when the peer closes
before `len` bytes have arrived. -/
def recvAll (stream : List Nat) (len : Nat) : Except String (List Nat × List Nat) :=
  if len ≤ stream.length then .ok (stream.take len, stream.drop len)
  else .error "Peer closed connection before all data was received"

/-! ## ringmaster.cpp: setting up the ring -/

/-- What `acceptPlayer` returns for one inbound connection, with the bytes
the player then writes to it: the observed address and the input stream. -/
structure Accepted where
  address : List Char
  sent : List Nat
deriving DecidableEq, Repr

/-- The loop of `Ringmaster::initializePlayers` from index `i` on, with
`remaining = numPlayers - i` iterations to go: accept a connection, read the
16-bit port, record `{i, address, port}`.  Without a further connection
`accept` never returns. -/
def acceptLoop : Nat → Nat → List Accepted → List RingInfo → Except String (List RingInfo)
  | 0, _, _, infos => .ok infos
  | _ + 1, _, [], _ => .error "accept does not return"
  | remaining + 1, i, a :: rest, infos =>
    match recvAll a.sent 2 with
    | .error e => .error e
    | .ok (bytes, _) =>
      acceptLoop remaining (i + 1) rest
        (infos ++ [{ id := (i : Int), address := a.address, port := ntohs bytes }])

/-- The method `Ringmaster::initializePlayers`. -/
def initializePlayers (rm : Ringmaster) (arrivals : List Accepted) : Except String Ringmaster :=
  match acceptLoop rm.numPlayers 0 arrivals rm.playerInfos with
  | .ok infos => .ok { rm with playerInfos := infos }
  | .error e => .error e

/-- The method `Ringmaster::getNeighborInfo`: the text `id:address:port`. -/
def getNeighborInfo (neighbor : RingInfo) : List Char :=
  to_string neighbor.id ++ [':'] ++ neighbor.address ++ [':'] ++ to_string neighbor.port

/-- The method `Ringmaster::sendPlayerOwnInfo`: `htons` of the id converted
to `uint16_t`. -/
def sendPlayerOwnInfo (playerInfo : RingInfo) : List Nat :=
  htons (playerInfo.id % 65536).toNat

/-- The method `Ringmaster::sendTotalNumberOfPlayers`. -/
def sendTotalNumberOfPlayers (rm : Ringmaster) : List Nat := htons rm.numPlayers

/-- The expression `(i + 1) % numPlayers` of `sendInfoToPlayers`, evaluated
in `size_t` (64-bit unsigned) arithmetic. -/
def rightIndex (numPlayers i : Nat) : Nat :=
  ((i + 1) % 18446744073709551616) % numPlayers

/-- The expression `(i - 1 + numPlayers) % numPlayers` of `sendInfoToPlayers`,
evaluated in `size_t` arithmetic: `i - 1` wraps around for `i = 0`. -/
def leftIndex (numPlayers i : Nat) : Nat :=
  (((i + 18446744073709551615) % 18446744073709551616 + numPlayers)
    % 18446744073709551616) % numPlayers

/-- The expression `playerInfos[k]`. -/
def Ringmaster.infoAt (rm : Ringmaster) (k : Nat) : RingInfo :=
  rm.playerInfos.getD k { id := 0, address := [], port := 0 }

/-- The text `info` that `sendInfoToPlayers` builds in iteration `i`: the
right neighbour, then the left neighbour when there are more than two
players, each line closed by a newline. -/
def neighborText (rm : Ringmaster) (i : Nat) : List Char :=
  let info := getNeighborInfo (rm.infoAt (rightIndex rm.numPlayers i))
  let info :=
    if rm.numPlayers > 2 then
      info ++ ['\n'] ++ getNeighborInfo (rm.infoAt (leftIndex rm.numPlayers i))
    else info
  info ++ ['\n']

/-- The bytes `sendInfoToPlayers` writes to the socket with index `i` in the
loop: own id, player count, length of the text, the text. -/
def bytesForPlayer (rm : Ringmaster) (i : Nat) : List Nat :=
  sendPlayerOwnInfo (rm.infoAt i) ++ sendTotalNumberOfPlayers rm
    ++ htons (neighborText rm i).length ++ (neighborText rm i).map Char.toNat

/-- The method `Ringmaster::sendInfoToPlayers`: the bytes written to each
player socket, by socket index. -/
def sendInfoToPlayers (rm : Ringmaster) : List (List Nat) :=
  if rm.numPlayers = 1 then
    [sendPlayerOwnInfo (rm.infoAt 0) ++ sendTotalNumberOfPlayers rm]
  else
    (List.range rm.playerInfos.length).map (bytesForPlayer rm)

/-! ## player.cpp: joining the ring -/

/-- The method `Player::receiveMyId`: the 16-bit index plus one, as a
`uint16_t`, and the rest of the input. -/
def receiveMyId (stream : List Nat) : Except String (Nat × List Nat) :=
  match recvAll stream 2 with
  | .ok (bytes, rest) => .ok ((ntohs bytes + 1) % 65536, rest)
  | .error e => .error e

/-- The method `Player::receiveTotalNumberOfPlayers`. -/
def receiveTotalNumberOfPlayers (stream : List Nat) : Except String (Nat × List Nat) :=
  match recvAll stream 2 with
  | .ok (bytes, rest) => .ok (ntohs bytes, rest)
  | .error e => .error e

/-- The method `Player::receiveInfoString`: a 16-bit length, then that many
bytes of text. -/
def receiveInfoString (stream : List Nat) : Except String (List Char × List Nat) :=
  match recvAll stream 2 with
  | .error e => .error e
  | .ok (bytes, rest) =>
    match recvAll rest (ntohs bytes) with
    | .ok (text, rest) => .ok (text.map Char.ofNat, rest)
    | .error e => .error e

/-- A value of 32-bit `int` arithmetic: the result is taken modulo `2^32`
into the range `-2147483648 .. 2147483647`, which is what the compiled program
yields when an `int` sum passes 2147483647. -/
def wrapInt32 (x : Int) : Int :=
  (x + 2147483648) % 4294967296 - 2147483648

/-- The method `Player::parseString` on a line `id:address:port`; the id is
`std::stoi(id_str) + 1` in 32-bit `int` arithmetic. -/
def parseString (playerInfo : List Char) : Except String PlayerInfo :=
  match findChar ':' playerInfo with
  | none => .ok {}
  | some first_colon_pos =>
    match stoi (substr playerInfo 0 first_colon_pos) with
    | none => .error "Invalid player ID in neighbor information"
    | some id =>
      match findCharFrom ':' playerInfo (first_colon_pos + 1) with
      | none => .ok { id := wrapInt32 (id + 1) }
      | some second_colon_pos =>
        match stoi (playerInfo.drop (second_colon_pos + 1)) with
        | none => .error "Invalid port number in neighbor information"
        | some port =>
          if port < 0 ∨ port > 65535 then
            .error "Invalid port number in neighbor information"
          else
            .ok { id := wrapInt32 (id + 1),
                  address := substr playerInfo (first_colon_pos + 1)
                    (second_colon_pos - first_colon_pos - 1),
                  port := port.toNat }

/-- The method `Player::receiveInfoFromRingmaster`: own id, player count and
the neighbour descriptors, right neighbour first. -/
def receiveInfoFromRingmaster (stream : List Nat) : Except String Player :=
  match receiveMyId stream with
  | .error e => .error e
  | .ok (my_id, stream) =>
    match receiveTotalNumberOfPlayers stream with
    | .error e => .error e
    | .ok (numPlayers, stream) =>
      match receiveInfoString stream with
      | .error e => .error e
      | .ok (info, _) =>
        match findChar '\n' info with
        | none => .error "Invalid neighbor information format"
        | some newline_pos =>
          match parseString (substr info 0 newline_pos) with
          | .error e => .error e
          | .ok right =>
            if numPlayers > 2 then
              match parseString (info.drop (newline_pos + 1)) with
              | .error e => .error e
              | .ok left =>
                .ok { my_id := my_id, numPlayers := numPlayers, neighborInfos := [right, left] }
            else
              .ok { my_id := my_id, numPlayers := numPlayers, neighborInfos := [right] }

/-- The player that the `k`-th connection becomes once it has read what
`sendInfoToPlayers` wrote to its socket. -/
def playerAt (rm : Ringmaster) (k : Nat) : Except String Player :=
  receiveInfoFromRingmaster ((sendInfoToPlayers rm).getD k [])

/-! ## The ring at play: Coordinator and players together -/

/-- The ring position of the player at the far end of the `rightPlayer`
socket of position `i`: `connectToNeighbors` connects it to the descriptor
`neighborInfos[0]`, which `sendInfoToPlayers` took from
`playerInfos[rightIndex]`. -/
def rightPeer (numPlayers i : Nat) : Nat := rightIndex numPlayers i

/-- The ring position of the player at the far end of the `leftPlayer`
socket of position `i`: the socket is the one inbound connection the player
accepts, and the player that connects to position `i` is the one whose right
peer is `i`. -/
def leftPeer (numPlayers i : Nat) : Nat :=
  ((List.range numPlayers).find? fun j => rightPeer numPlayers j == i).getD i

/-- The relay among the players, one `middleGame` call per step: the record
`record` is readable on connection `via` (index in the `pollfd` array) of the
player at ring position `holder`; `rnd step` is what `rand()` gives in that
call.  A record sent on `rightPlayer` becomes readable on the `leftPlayer`
socket of the right peer, and conversely.  The result lists every record
written (ring position of the sender, connection, record) and gives the
record that reached the Coordinator with the position of its sender; `fuel`
bounds the number of calls. -/
def relay (ring : Nat → Player) (numPlayers : Nat) (rnd : Nat → Nat) :
    Nat → Nat → Nat → Nat → Potato → List (Nat × Conn × Potato) × Option (Nat × Potato)
  | 0, _, _, _, _ => ([], none)
  | fuel + 1, step, holder, via, record =>
    match middleGame (ring holder) (arrival via record) (rnd step) with
    | .error _ => ([], none)
    | .ok res =>
      match res.sent with
      | [(Conn.ringmaster, q)] => ([(holder, Conn.ringmaster, q)], some (holder, q))
      | [(Conn.rightPlayer, q)] =>
        ((holder, Conn.rightPlayer, q)
            :: (relay ring numPlayers rnd fuel (step + 1) (rightPeer numPlayers holder) 1 q).1,
          (relay ring numPlayers rnd fuel (step + 1) (rightPeer numPlayers holder) 1 q).2)
      | [(Conn.leftPlayer, q)] =>
        ((holder, Conn.leftPlayer, q)
            :: (relay ring numPlayers rnd fuel (step + 1) (leftPeer numPlayers holder) 2 q).1,
          (relay ring numPlayers rnd fuel (step + 1) (leftPeer numPlayers holder) 2 q).2)
      | _ => ([], none)

/-- The relay as `sendPotato` starts it: the Coordinator decrements and
writes the potato to a random player socket (`rnd 0`), the players pass it on
(`rnd 1`, `rnd 2`, ...).  The result lists the hop counts of the records
written, the Coordinator's first, and gives the record that came back. -/
def relayFrom (rm : Ringmaster) (ring : Nat → Player) (potato : Potato) (rnd : Nat → Nat)
    (fuel : Nat) : List Int × Option (Nat × Potato) :=
  match (sendPotato rm potato (rnd 0)).sent with
  | [(index, record)] =>
    (record.getHops :: ((relay ring rm.numPlayers rnd fuel 1 index 0 record).1.map
        fun m => m.2.2.getHops),
      (relay ring rm.numPlayers rnd fuel 1 index 0 record).2)
  | _ => ([], none)

/-- The number of steps of a sequence of hop counts at which the count went
down by one. -/
def countDecrements : List Int → Nat
  | a :: b :: rest => (if b = a - 1 then 1 else 0) + countDecrements (b :: rest)
  | _ => 0

/-- The game as `ringmaster_main.cpp` runs it once the ring is set up, up to
the call of `endGame`: the result is the potato handed to `endGame`.  The
program exits before the game when `numPlayers <= 1`, `numHops < 0` or
`numHops > 512` (a player count that the `uint16_t` field stores as 0 or 1
leaves no ring to play on either); with `startGame` returning 0 the potato is
`Potato(0)`, otherwise it is what `waitForPotato` reads from the socket of the
player that sent the record back. -/
def playGame (rm : Ringmaster) (ring : Nat → Player) (numHops : Int) (rnd : Nat → Nat)
    (fuel : Nat) : Option Potato :=
  if rm.numPlayers ≤ 1 ∨ numHops < 0 ∨ numHops > 512 then none
  else if (startGame rm numHops (rnd 0)).1 = 0 then some (Potato.new 0)
  else
    match (startGame rm numHops (rnd 0)).2 with
    | [(index, record)] =>
      match (relay ring rm.numPlayers rnd fuel 1 index 0 record).2 with
      | some (sender, final) =>
        match waitForPotato rm (arrival sender final) with
        | .ok potato => some potato
        | .error _ => none
      | none => none
    | _ => none

/-- The player at ring position `i` once `Player::start` has read what the
Coordinator sent; a player whose start-up threw has left the game and is
shown as the all-zero player. -/
def setUpRing (rm : Ringmaster) (i : Nat) : Player :=
  match playerAt rm i with
  | .ok pl => pl
  | .error _ => { my_id := 0, numPlayers := 0, neighborInfos := [] }

/-- The hop counts `h - 1, ..., 1, 0` followed by a last `0`: what the records
written by the players show when a record with hop count `h` enters the ring. -/
def countdown : Nat → List Int
  | 0 => [0]
  | h + 1 => (h : Int) :: countdown h

/-- A dotted-decimal address as `inet_ntop` writes it for `AF_INET`, the only
family `Socket::listen` opens: at most 15 characters, digits and dots. -/
def dottedAddress (address : List Char) : Bool :=
  decide (address.length ≤ 15) && address.all fun x => x.isDigit || x == '.'

/-- The state of the Coordinator after `initializePlayers`: one descriptor per
player, the descriptor with index `k` carries id `k`, a 16-bit port and a
dotted-decimal address; the player count is a `uint16_t`. -/
structure RingReady (rm : Ringmaster) : Prop where
  size : rm.playerInfos.length = rm.numPlayers
  bound : rm.numPlayers < 65536
  ids : ∀ k, k < rm.numPlayers → (rm.infoAt k).id = (k : Int)
  ports : ∀ k, k < rm.numPlayers → (rm.infoAt k).port < 65536
  addresses : ∀ k, k < rm.numPlayers → dottedAddress (rm.infoAt k).address = true

/-- The descriptor a player decodes from the line written for `info`: the
id is shifted to the 1-based identity. -/
def decoded (info : RingInfo) : PlayerInfo :=
  { id := info.id + 1, address := info.address, port := info.port }

/-- The descriptors `initializePlayers` records for the connections
`arrivals`, the first of which gets index `i`. -/
def recorded : Nat → List Accepted → List RingInfo
  | _, [] => []
  | i, a :: rest =>
    { id := (i : Int), address := a.address, port := ntohs (a.sent.take 2) } :: recorded (i + 1) rest

/-- The identity the player on socket `k` decodes in `receiveMyId` from what
`sendInfoToPlayers` wrote to that socket. -/
def identityOf (rm : Ringmaster) (k : Nat) : Option Nat :=
  match receiveMyId ((sendInfoToPlayers rm).getD k []) with
  | .ok (my_id, _) => some my_id
  | .error _ => none

/-- Example data: three inbound connections, each followed by the two bytes of
the player's listening port (5001, 5002, 5003). -/
def threeArrivals : List Accepted :=
  [⟨"10.0.0.1".toList, htons 5001⟩, ⟨"10.0.0.2".toList, htons 5002⟩,
    ⟨"10.0.0.3".toList, htons 5003⟩]

/-- Example data: a Coordinator on port 4000 that has accepted three players,
from 10.0.0.1, 10.0.0.2 and 10.0.0.3, listening on ports 5001, 5002, 5003. -/
def threePlayers : Ringmaster :=
  { port_ := 4000, numPlayers := 3,
    playerInfos := [⟨0, "10.0.0.1".toList, 5001⟩, ⟨1, "10.0.0.2".toList, 5002⟩,
      ⟨2, "10.0.0.3".toList, 5003⟩] }

/-- Example data: a Coordinator on port 4000 that has accepted two players. -/
def twoPlayers : Ringmaster :=
  { port_ := 4000, numPlayers := 2,
    playerInfos := [⟨0, "10.0.0.1".toList, 5001⟩, ⟨1, "10.0.0.2".toList, 5002⟩] }

/-! ## ringmaster.cpp: ending the game -/

/-- What the Coordinator does at the end of the game, in order: a potato
record or raw bytes written to the player socket with the given index, the
trace printed on the console, the error line of `endGame`, and the call of
`waitForPlayersToAcknowledgeShutdown`. -/
inductive CoordAction where
  | sendRecord (socket : Nat) (record : Potato)
  | sendBytes (socket : Nat) (bytes : List Nat)
  | print (text : List Char)
  | reportFailure
  | waitForAcknowledgements
deriving DecidableEq, Repr

/-- The loop of `Ringmaster::printTrace` from index `i` on, with `n` entries
to go: the entries in decimal, separated by commas. -/
def traceText (potato : Potato) : Nat → Nat → List Char
  | _, 0 => []
  | i, n + 1 =>
    to_string (potato.getTrace.getD i 0)
      ++ (if (i : Int) < potato.getTraceLength - 1 then [','] else [])
      ++ traceText potato (i + 1) n

/-- The method `Ringmaster::printTrace`: the text written to the console. -/
def printTrace (potato : Potato) : List Char :=
  "Trace of potato:\n".toList ++ traceText potato 0 potato.getTraceLength.toNat

/-- The method `Ringmaster::sendFinalMessage`: to every player socket the
16-bit length of the message, then the message. -/
def sendFinalMessage (rm : Ringmaster) (finalMessage : List Char) : List CoordAction :=
  (List.range rm.numPlayers).flatMap fun i =>
    [CoordAction.sendBytes i (htons finalMessage.length),
     CoordAction.sendBytes i (finalMessage.map Char.toNat)]

/-- The method `Ringmaster::tidyUp`: the shutdown handshake. -/
def tidyUp (rm : Ringmaster) (finalMessage : List Char) : List CoordAction :=
  (sendShutdownSignal rm).map (fun m => CoordAction.sendRecord m.1 m.2)
    ++ sendFinalMessage rm finalMessage
    ++ [CoordAction.waitForAcknowledgements]

/-- The method `Ringmaster::endGame`. -/
def endGame (rm : Ringmaster) (potato : Potato) (gameInfo : Int) : List CoordAction :=
  if gameInfo = 0 then
    tidyUp rm "Game over. Shutting down...".toList
  else if potato.getHops < 0 then
    [CoordAction.reportFailure]
  else
    CoordAction.print (printTrace potato) :: tidyUp rm "Game over. Shutting down...".toList

/-- The program `ringmaster_main.cpp` once the ring is set up: what the
Coordinator writes to the player sockets in `startGame`, followed by what
`endGame` does with the potato it is handed.  `none` stands for the exit
before the game and for a wait that never ends. -/
def ringmasterMain (rm : Ringmaster) (ring : Nat → Player) (numHops : Int) (rnd : Nat → Nat)
    (fuel : Nat) : Option (List CoordAction) :=
  if rm.numPlayers ≤ 1 ∨ numHops < 0 ∨ numHops > 512 then none
  else if (startGame rm numHops (rnd 0)).1 = 0 then
    some (endGame rm (Potato.new 0) (startGame rm numHops (rnd 0)).1)
  else
    match playGame rm ring numHops rnd fuel with
    | some potato =>
      some ((startGame rm numHops (rnd 0)).2.map (fun m => CoordAction.sendRecord m.1 m.2)
        ++ endGame rm potato (startGame rm numHops (rnd 0)).1)
    | none => none

/-- One pass of the `while` loop of `waitForPlayersToAcknowledgeShutdown` as
the environment decides it: the return value of `poll`, whether `errno` is
`EINTR` when that is negative, for each socket whether `POLLIN` is reported
(when its descriptor is still polled) and what `recvSome` then returns
(`none` when `recv` fails and `recvSome` throws). -/
structure AckPoll where
  returned : Int
  eintr : Bool
  pollin : Nat → Bool
  bytesRead : Nat → Option Nat

/-- The local state of `waitForPlayersToAcknowledgeShutdown`: the `fd` fields
of `pfds` (the socket with index `i` has descriptor `i`, and -1 once it is
marked closed) and the counter `closedPlayers`. -/
structure AckState where
  fds : List Int
  closedPlayers : Nat
deriving DecidableEq, Repr

/-- The `for` loop over the sockets inside the `while` loop, from index `i`
on with `n` sockets to go.  `poll` reports nothing for an entry whose
descriptor is negative. -/
def ackScan (p : AckPoll) : Nat → Nat → AckState → Except String AckState
  | _, 0, st => .ok st
  | i, n + 1, st =>
    if 0 ≤ st.fds.getD i (-1) ∧ p.pollin i = true then
      match p.bytesRead i with
      | none => .error "recv failed"
      | some bytes =>
        if bytes ≤ 0 then
          ackScan p (i + 1) n
            { fds := st.fds.set i (-1), closedPlayers := st.closedPlayers + 1 }
        else ackScan p (i + 1) n st
    else ackScan p (i + 1) n st

/-- How `waitForPlayersToAcknowledgeShutdown` ended on a finite list of poll
outcomes: it returned because the counter reached `numPlayers` (with the
number of outcomes not consumed), it gave up after a `poll` error, it is still
blocked in `poll`, or `recvSome` threw. -/
inductive AckEnd where
  | returned (unread : Nat)
  | pollFailed (unread : Nat)
  | stillWaiting
  | threw (what : String)
deriving DecidableEq, Repr

/-- The `while (closedPlayers < numPlayers)` loop of
`waitForPlayersToAcknowledgeShutdown`, run on the poll outcomes it meets. -/
def ackLoop (numPlayers : Nat) : List AckPoll → AckState → AckState × AckEnd
  | [], st =>
    if st.closedPlayers < numPlayers then (st, .stillWaiting) else (st, .returned 0)
  | p :: rest, st =>
    if st.closedPlayers < numPlayers then
      if p.returned < 0 then
        if p.eintr then ackLoop numPlayers rest st else (st, .pollFailed rest.length)
      else
        match ackScan p 0 numPlayers st with
        | .error e => (st, .threw e)
        | .ok st2 => ackLoop numPlayers rest st2
    else (st, .returned (rest.length + 1))

/-- The method `Ringmaster::waitForPlayersToAcknowledgeShutdown`: every
player socket is polled and the counter starts at 0. -/
def waitForPlayersToAcknowledgeShutdown (rm : Ringmaster) (rounds : List AckPoll) :
    AckState × AckEnd :=
  ackLoop rm.numPlayers rounds
    { fds := (List.range rm.numPlayers).map Int.ofNat, closedPlayers := 0 }

/-- A poll outcome in which exactly the socket with index `i` is readable and
`recvSome` returns `bytes` on it. -/
def ackEvent (i bytes : Nat) : AckPoll :=
  { returned := 1, eintr := false, pollin := fun j => j == i, bytesRead := fun _ => some bytes }

/-- Whether the poll outcome `p` brings a zero-length read on socket `i`:
`poll` succeeded, reports `POLLIN` for the socket, and `recvSome` returns 0. -/
def zeroRead (p : AckPoll) (i : Nat) : Bool :=
  decide (0 ≤ p.returned) && p.pollin i && (p.bytesRead i == some 0)

/-- Whether one of the poll outcomes `rounds` brings a zero-length read on
socket `i`. -/
def closedBy (rounds : List AckPoll) (i : Nat) : Bool :=
  rounds.any fun p => zeroRead p i

/-- Whether every socket `0 .. numPlayers - 1` has had a zero-length read in
the poll outcomes `rounds`. -/
def allClosed (numPlayers : Nat) (rounds : List AckPoll) : Bool :=
  (List.range numPlayers).all (closedBy rounds)

/-- The state of `waitForPlayersToAcknowledgeShutdown` in which exactly the
sockets in `closed` are marked closed: their descriptor is -1, the others keep
theirs, and the counter is the number of marked sockets. -/
def ackStateOf (numPlayers : Nat) (closed : Nat → Bool) : AckState :=
  { fds := (List.range numPlayers).map fun i => if closed i then (-1 : Int) else (i : Int),
    closedPlayers := ((List.range numPlayers).filter closed).length }

/-- The state of the Coordinator as far as `sendInfoToPlayers` reads it, for
any addresses that `acceptPlayer` can store: one descriptor per player, the
descriptor with index `k` carries id `k` and a 16-bit port, its address fits
the buffer `ip_str[INET6_ADDRSTRLEN]` (at most 45 characters) and contains no
colon and no newline; the player count is a `uint16_t`. -/
structure RingListed (rm : Ringmaster) : Prop where
  size : rm.playerInfos.length = rm.numPlayers
  bound : rm.numPlayers < 65536
  ids : ∀ k, k < rm.numPlayers → (rm.infoAt k).id = (k : Int)
  ports : ∀ k, k < rm.numPlayers → (rm.infoAt k).port < 65536
  addresses : ∀ k, k < rm.numPlayers →
    (rm.infoAt k).address.length ≤ 45 ∧ ∀ x ∈ (rm.infoAt k).address, x ≠ ':' ∧ x ≠ '\n'

/-! ## player.cpp: connecting to the neighbours -/

/-- A step of `Player::connectToNeighbors`: `acceptNeighborConnection` with
the descriptor of the neighbour that is expected, or `connectToNeighbor` to a
descriptor; `into` is the member (`leftPlayer` or `rightPlayer`) that receives
the socket. -/
inductive NeighborAction where
  | accept (into : Conn) (expected : PlayerInfo)
  | connect (into : Conn) (target : PlayerInfo)
deriving DecidableEq, Repr

/-- The method `Player::connectToNeighbors`, called on the player's own
`neighborInfos`: the steps it takes, in order. -/
def connectToNeighbors (pl : Player) : List NeighborAction :=
  if pl.numPlayers = 2 then
    if pl.my_id = 1 then
      [.accept .leftPlayer (pl.neighborInfos.getD 0 {}),
       .connect .rightPlayer (pl.neighborInfos.getD 0 {})]
    else
      [.connect .rightPlayer (pl.neighborInfos.getD 0 {}),
       .accept .leftPlayer (pl.neighborInfos.getD 0 {})]
  else if pl.numPlayers > 2 then
    [.connect .rightPlayer (pl.neighborInfos.getD 0 {}),
     .accept .leftPlayer (pl.neighborInfos.getD 1 {})]
  else []

/-- Whether a step is an outbound connection. -/
def NeighborAction.isConnect : NeighborAction → Bool
  | .connect _ _ => true
  | .accept _ _ => false

/-! ## Facts about the potato -/

theorem Potato.decrementHops_traceLength (p : Potato) :
    p.decrementHops.traceLength = p.traceLength := by
  unfold Potato.decrementHops
  split <;> rfl

theorem Potato.decrementHops_trace (p : Potato) :
    p.decrementHops.trace = p.trace := by
  unfold Potato.decrementHops
  split <;> rfl

theorem Potato.addTrace_hops (p : Potato) (playerId : Int) :
    (p.addTrace playerId).hops = p.hops := by
  unfold Potato.addTrace
  split <;> rfl

theorem Potato.addTrace_traceLength_lt (p : Potato) (playerId : Int)
    (h : p.traceLength < 512) :
    (p.addTrace playerId).traceLength = p.traceLength + 1 := by
  unfold Potato.addTrace
  rw [if_pos h]

theorem Potato.addTrace_full (p : Potato) (playerId : Int)
    (h : ¬ p.traceLength < 512) : p.addTrace playerId = p := by
  unfold Potato.addTrace
  rw [if_neg h]

theorem Potato.addTrace_trace_length (p : Potato) (playerId : Int) :
    (p.addTrace playerId).trace.length = p.trace.length := by
  unfold Potato.addTrace
  split
  · simp
  · rfl

/-- Running calls from a potato whose trace length is a natural number `n`
below the capacity leaves the trace length at `min (n + adds) 512`. -/
theorem runCalls_traceLength (calls : List PotatoCall) :
    ∀ (p : Potato) (n : Nat), p.traceLength = (n : Int) → n ≤ 512 →
      (runCalls p calls).traceLength = ((min (n + countAddTrace calls) 512 : Nat) : Int) := by
  induction calls with
  | nil =>
    intro p n hp hn
    simp [runCalls, countAddTrace, hp, hn]
  | cons c cs ih =>
    intro p n hp hn
    cases c with
    | addTrace playerId =>
      show (runCalls (p.addTrace playerId) cs).traceLength = _
      by_cases hlt : n < 512
      · have h1 : (p.addTrace playerId).traceLength = ((n + 1 : Nat) : Int) := by
          rw [Potato.addTrace_traceLength_lt p playerId (by omega), hp]
          push_cast
          rfl
        rw [ih _ (n + 1) h1 (by omega)]
        simp only [countAddTrace]
        congr 2
        omega
      · have h1 : p.addTrace playerId = p :=
          Potato.addTrace_full p playerId (by omega)
        rw [h1, ih p n hp hn]
        simp only [countAddTrace]
        congr 1
        omega
    | decrementHops =>
      show (runCalls p.decrementHops cs).traceLength = _
      rw [ih _ n (by rw [Potato.decrementHops_traceLength, hp]) hn]
      simp [countAddTrace]

/-! ## Claims about the potato -/

/-- C5. Trace bound: from a potato built by the constructor `Potato(H)`, after
any prefix of any finite sequence of `addTrace` / `decrementHops` calls, the
reported trace length lies between 0 and 512 and equals the smaller of 512 and
the number of `addTrace` calls made so far. -/
theorem trace_length_bounded (H : Int) (calls : List PotatoCall) (k : Nat) :
    0 ≤ (runCalls (Potato.new H) (calls.take k)).getTraceLength
    ∧ (runCalls (Potato.new H) (calls.take k)).getTraceLength ≤ 512
    ∧ (runCalls (Potato.new H) (calls.take k)).getTraceLength
        = ((min (countAddTrace (calls.take k)) 512 : Nat) : Int) := by
  have h := runCalls_traceLength (calls.take k) (Potato.new H) 0 rfl (by omega)
  simp only [Nat.zero_add] at h
  unfold Potato.getTraceLength
  rw [h]
  refine ⟨by omega, ?_, rfl⟩
  have : min (countAddTrace (calls.take k)) 512 ≤ 512 := Nat.min_le_right _ _
  exact_mod_cast this

/-! ## Facts about the relay operations of one player -/

theorem scanReady_first (r : Readiness) (record : Potato) (n : Nat) :
    ∀ (i k : Nat), k < n → r.pollin (i + k) = true →
      (∀ j, j < k → r.pollin (i + j) = false) →
      r.incoming (i + k) = some record →
      scanReady r i n = some (.ok record) := by
  induction n with
  | zero => intro i k hk; omega
  | succ n ih =>
    intro i k hk hready hfirst hrec
    cases k with
    | zero =>
      simp only [Nat.add_zero] at hready hrec
      simp [scanReady, hready, hrec]
    | succ k =>
      have h0 : r.pollin i = false := by simpa using hfirst 0 (by omega)
      simp only [scanReady, h0]
      have e : i + (k + 1) = (i + 1) + k := by omega
      rw [e] at hready hrec
      apply ih (i + 1) k (by omega) hready _ hrec
      intro j hj
      have := hfirst (j + 1) (by omega)
      rwa [show i + (j + 1) = i + 1 + j by omega] at this

theorem scanReady_arrival (via n : Nat) (record : Potato) (h : via < n) :
    scanReady (arrival via record) 0 n = some (.ok record) := by
  apply scanReady_first (arrival via record) record n 0 via h
  · simp [arrival]
  · intro j hj
    simp [arrival]
    omega
  · simp [arrival]

theorem receivePotato_arrival (via : Nat) (record : Potato) (h : via < 3) :
    receivePotato (arrival via record) = .ok record := by
  unfold receivePotato
  rw [scanReady_arrival via 3 record h]
  simp [arrival]

theorem take_set_self {α : Type} (l : List α) (n : Nat) (a : α) :
    (l.set n a).take n = l.take n := by
  apply List.ext_getElem?
  intro i
  rw [List.getElem?_take, List.getElem?_take]
  split
  · rw [List.getElem?_set_ne (by omega)]
  · rfl

theorem Potato.addTrace_visited (p : Potato) (playerId : Int)
    (h0 : 0 ≤ p.traceLength) (hlt : p.traceLength < 512) (hlen : p.trace.length = 512) :
    (p.addTrace playerId).visited = p.visited ++ [playerId] := by
  obtain ⟨n, hn⟩ := Int.eq_ofNat_of_zero_le h0
  have hn512 : n < 512 := by omega
  unfold Potato.visited Potato.addTrace
  rw [if_pos hlt]
  simp only [hn]
  have e1 : ((n : Int) + 1).toNat = n + 1 := by omega
  rw [e1, Int.toNat_ofNat, List.take_succ, take_set_self,
    List.getElem?_set_self (by omega)]
  rfl

theorem middleGame_arrival (pl : Player) (via : Nat) (record : Potato) (rnd : Nat)
    (h : via < 3) :
    middleGame pl (arrival via record) rnd = .ok (passPotato pl record rnd) := by
  unfold middleGame
  rw [receivePotato_arrival via record h]

theorem passPotato_invalid (pl : Player) (potato : Potato) (rnd : Nat)
    (hneg : potato.getHops < 0) (hne : potato.getHops ≠ -2) :
    passPotato pl potato rnd
      = { code := -1, potato := potato, sent := [], printed := [.invalidPotato] } := by
  unfold passPotato
  rw [if_neg hne, if_pos hneg]

theorem passPotato_final (pl : Player) (potato : Potato) (rnd : Nat)
    (h : potato.getHops = 0) :
    passPotato pl potato rnd
      = { code := 0, potato := potato.addTrace pl.my_id,
          sent := [(.ringmaster, potato.addTrace pl.my_id)], printed := [.imIt] } := by
  unfold passPotato
  rw [if_neg (by omega), if_neg (by omega), if_pos h]

theorem playerLoop_shutdown_only (pl : Player) (evs : List (Readiness × Nat)) :
    ∀ k, (playerLoop pl evs).2 = .shutdown k →
      ∃ r rnd res, (r, rnd) ∈ evs ∧ middleGame pl r rnd = .ok res ∧ res.code = -2 := by
  induction evs with
  | nil => intro k h; simp [playerLoop] at h
  | cons ev rest ih =>
    intro k h
    obtain ⟨r, rnd⟩ := ev
    unfold playerLoop at h
    cases hm : middleGame pl r rnd with
    | error e => simp [hm] at h
    | ok res =>
      simp only [hm] at h
      by_cases h1 : res.code = -1
      · rw [if_pos h1] at h
        obtain ⟨r', rnd', res', hmem, hres⟩ := ih k h
        exact ⟨r', rnd', res', List.mem_cons_of_mem _ hmem, hres⟩
      · rw [if_neg h1] at h
        by_cases h2 : res.code = -2
        · exact ⟨r, rnd, res, List.mem_cons_self _ _, hm, h2⟩
        · rw [if_neg h2] at h
          obtain ⟨r', rnd', res', hmem, hres⟩ := ih k h
          exact ⟨r', rnd', res', List.mem_cons_of_mem _ hmem, hres⟩

theorem passPotato_forward (pl : Player) (potato : Potato) (rnd : Nat)
    (h : 0 < potato.getHops) :
    passPotato pl potato rnd
      = { code := 1, potato := potato.decrementHops.addTrace pl.my_id,
          sent := [(if pl.numPlayers = 2 then Conn.rightPlayer
                    else if rnd % 2 = 0 then Conn.rightPlayer else Conn.leftPlayer,
                    potato.decrementHops.addTrace pl.my_id)],
          printed := [.sendingPotatoTo
            (if pl.numPlayers = 2 then pl.neighborId 0
              else if rnd % 2 = 0 then pl.neighborId 0 else pl.neighborId 1)] } := by
  unfold passPotato
  rw [if_neg (by omega), if_neg (by omega), if_neg (by omega)]
  by_cases h2 : pl.numPlayers = 2
  · simp [h2]
  · simp [h2]

/-- C6. The shutdown sentinel is never relayed or traced: on a potato whose
hop count is -2, `passPotato` returns -2, sends no record on any connection
and leaves the potato as it was; and `sendShutdownSignal` writes to each of the
player sockets `0 .. numPlayers - 1` one record, whose hop count is -2 and
whose trace length is 0. -/
theorem shutdown_sentinel_not_relayed (pl : Player) (potato : Potato) (rnd : Nat)
    (rm : Ringmaster) (h : potato.getHops = -2) :
    (passPotato pl potato rnd).code = -2
    ∧ (passPotato pl potato rnd).sent = []
    ∧ (passPotato pl potato rnd).potato = potato
    ∧ (sendShutdownSignal rm).map Prod.fst = List.range rm.numPlayers
    ∧ ∀ m ∈ sendShutdownSignal rm, m.2.getHops = -2 ∧ m.2.getTraceLength = 0 := by
  refine ⟨?_, ?_, ?_, ?_, ?_⟩
  · unfold passPotato; rw [if_pos h]
  · unfold passPotato; rw [if_pos h]
  · unfold passPotato; rw [if_pos h]
  · simp [sendShutdownSignal, Function.comp_def]
  · intro m hm
    simp only [sendShutdownSignal, List.mem_map] at hm
    obtain ⟨i, _, rfl⟩ := hm
    exact ⟨rfl, rfl⟩

/-- Witness for C6: player 2 of three is handed the sentinel `Potato(-2)`. -/
theorem shutdown_sentinel_not_relayed_witness :
    (passPotato ⟨2, 3, []⟩ (Potato.new (-2)) 7).code = -2
    ∧ (passPotato ⟨2, 3, []⟩ (Potato.new (-2)) 7).sent = []
    ∧ (passPotato ⟨2, 3, []⟩ (Potato.new (-2)) 7).potato = Potato.new (-2)
    ∧ (sendShutdownSignal ⟨4000, 3, []⟩).map Prod.fst = List.range 3
    ∧ ∀ m ∈ sendShutdownSignal ⟨4000, 3, []⟩, m.2.getHops = -2 ∧ m.2.getTraceLength = 0 :=
  shutdown_sentinel_not_relayed ⟨2, 3, []⟩ (Potato.new (-2)) 7 ⟨4000, 3, []⟩ (by decide)

/-- C7. An invalid potato is discarded and does not end the relay loop: on a
potato whose hop count is negative and not -2, `passPotato` returns -1, sends
nothing and leaves the potato as it was; the main loop of the player, when
such a record arrives on one of its three connections, goes on with the next
poll outcome; and the loop ends by `break` only if some call of `middleGame`
returned -2. -/
theorem invalid_potato_discarded (pl : Player) (potato : Potato) (rnd via : Nat)
    (rest : List (Readiness × Nat))
    (hneg : potato.getHops < 0) (hne : potato.getHops ≠ -2) (hvia : via < 3) :
    (passPotato pl potato rnd).code = -1
    ∧ (passPotato pl potato rnd).sent = []
    ∧ (passPotato pl potato rnd).potato = potato
    ∧ playerLoop pl ((arrival via potato, rnd) :: rest) = playerLoop pl rest
    ∧ ∀ evs k, (playerLoop pl evs).2 = .shutdown k →
        ∃ r rnd res, (r, rnd) ∈ evs ∧ middleGame pl r rnd = .ok res ∧ res.code = -2 := by
  have hp := passPotato_invalid pl potato rnd hneg hne
  refine ⟨by rw [hp], by rw [hp], by rw [hp], ?_, fun evs => playerLoop_shutdown_only pl evs⟩
  rw [playerLoop, middleGame_arrival pl via potato rnd hvia, hp]
  simp

/-- Witness for C7: player 2 of three reads the error record `Potato(-1)`
from its left neighbour, followed by a shutdown sentinel from the Coordinator. -/
theorem invalid_potato_discarded_witness :
    (passPotato ⟨2, 3, []⟩ (Potato.new (-1)) 7).code = -1
    ∧ (passPotato ⟨2, 3, []⟩ (Potato.new (-1)) 7).sent = []
    ∧ (passPotato ⟨2, 3, []⟩ (Potato.new (-1)) 7).potato = Potato.new (-1)
    ∧ playerLoop ⟨2, 3, []⟩ ((arrival 1 (Potato.new (-1)), 7) :: [(arrival 0 (Potato.new (-2)), 5)])
        = playerLoop ⟨2, 3, []⟩ [(arrival 0 (Potato.new (-2)), 5)]
    ∧ ∀ evs k, (playerLoop ⟨2, 3, []⟩ evs).2 = .shutdown k →
        ∃ r rnd res, (r, rnd) ∈ evs ∧ middleGame ⟨2, 3, []⟩ r rnd = .ok res ∧ res.code = -2 :=
  invalid_potato_discarded ⟨2, 3, []⟩ (Potato.new (-1)) 7 1 [(arrival 0 (Potato.new (-2)), 5)]
    (by decide) (by decide) (by decide)

/-- C8, as stated, fails: player 1 of three, handed the fresh potato
`Potato(0)`, sends back a record whose trace length is 1 and whose first
trace slot holds its identity, not the potato it was given. -/
theorem final_holder_record_differs :
    (passPotato ⟨1, 3, []⟩ (Potato.new 0) 0).sent
        = [(Conn.ringmaster, (Potato.new 0).addTrace 1)]
    ∧ ((Potato.new 0).addTrace 1).getTraceLength = 1
    ∧ (Potato.new 0).getTraceLength = 0
    ∧ (passPotato ⟨1, 3, []⟩ (Potato.new 0) 0).sent ≠ [(Conn.ringmaster, Potato.new 0)] := by
  decide

/-- C8, amended. The final holder appends itself: on a potato with hop count 0
(512 trace slots, trace length at least 0), `passPotato` returns 0 and sends
exactly one record, to the Coordinator and to no neighbour; the record has hop
count 0; when the trace length was below 512 the record has the identity of
the player appended to the trace and a trace length one larger, and when the
trace length was 512 or more the record equals the potato given. -/
theorem final_holder_appends_itself (pl : Player) (potato : Potato) (rnd : Nat)
    (h : potato.getHops = 0) (h0 : 0 ≤ potato.traceLength)
    (hlen : potato.trace.length = 512) :
    (passPotato pl potato rnd).code = 0
    ∧ (∃ record, (passPotato pl potato rnd).sent = [(Conn.ringmaster, record)]
        ∧ record.getHops = 0
        ∧ (potato.traceLength < 512 →
            record.getTraceLength = potato.getTraceLength + 1
            ∧ record.visited = potato.visited ++ [(pl.my_id : Int)])
        ∧ (512 ≤ potato.traceLength → record = potato)) := by
  rw [passPotato_final pl potato rnd h]
  refine ⟨rfl, potato.addTrace pl.my_id, rfl, ?_, ?_, ?_⟩
  · unfold Potato.getHops at *
    rw [Potato.addTrace_hops, h]
  · intro hlt
    exact ⟨Potato.addTrace_traceLength_lt potato _ hlt,
      Potato.addTrace_visited potato _ h0 hlt hlen⟩
  · intro hge
    exact Potato.addTrace_full potato _ (by omega)

/-- Witness for C8 amended: player 1 of three is handed `Potato(0)`. -/
theorem final_holder_appends_itself_witness :
    (passPotato ⟨1, 3, []⟩ (Potato.new 0) 0).code = 0
    ∧ (∃ record, (passPotato ⟨1, 3, []⟩ (Potato.new 0) 0).sent = [(Conn.ringmaster, record)]
        ∧ record.getHops = 0
        ∧ ((Potato.new 0).traceLength < 512 →
            record.getTraceLength = (Potato.new 0).getTraceLength + 1
            ∧ record.visited = (Potato.new 0).visited ++ [((1 : Nat) : Int)])
        ∧ (512 ≤ (Potato.new 0).traceLength → record = Potato.new 0)) :=
  final_holder_appends_itself ⟨1, 3, []⟩ (Potato.new 0) 0 (by decide) (by decide) (by decide)

theorem rightPeer_lt (n i : Nat) (hn : 0 < n) : rightPeer n i < n :=
  Nat.mod_lt _ hn

theorem leftPeer_lt (n i : Nat) (hi : i < n) : leftPeer n i < n := by
  unfold leftPeer
  cases h : (List.range n).find? fun j => rightPeer n j == i with
  | none => simpa using hi
  | some j =>
    have hmem := List.mem_of_find?_eq_some h
    simpa using hmem

theorem relay_final (ring : Nat → Player) (n : Nat) (rnd : Nat → Nat)
    (fuel step holder via : Nat) (record : Potato) (hvia : via < 3)
    (h : record.getHops = 0) :
    relay ring n rnd (fuel + 1) step holder via record
      = ([(holder, Conn.ringmaster, record.addTrace (ring holder).my_id)],
          some (holder, record.addTrace (ring holder).my_id)) := by
  rw [relay, middleGame_arrival _ via record _ hvia, passPotato_final _ record _ h]

theorem relay_forward (ring : Nat → Player) (n : Nat) (rnd : Nat → Nat)
    (fuel step holder via : Nat) (record : Potato) (hvia : via < 3)
    (h : 0 < record.getHops) :
    ∃ conn next via2, via2 < 3 ∧ (holder < n → next < n) ∧
      relay ring n rnd (fuel + 1) step holder via record
        = ((holder, conn, record.decrementHops.addTrace (ring holder).my_id)
              :: (relay ring n rnd fuel (step + 1) next via2
                    (record.decrementHops.addTrace (ring holder).my_id)).1,
            (relay ring n rnd fuel (step + 1) next via2
                    (record.decrementHops.addTrace (ring holder).my_id)).2) := by
  by_cases hr : (ring holder).numPlayers = 2 ∨ rnd step % 2 = 0
  · refine ⟨Conn.rightPlayer, rightPeer n holder, 1, by omega,
      fun hh => rightPeer_lt n holder (by omega), ?_⟩
    rw [relay, middleGame_arrival _ via record _ hvia, passPotato_forward _ record _ h]
    rcases hr with h2 | h0
    · simp [h2]
    · by_cases h2 : (ring holder).numPlayers = 2 <;> simp [h2, h0]
  · have h2 : ¬ (ring holder).numPlayers = 2 := fun e => hr (Or.inl e)
    have h0 : ¬ rnd step % 2 = 0 := fun e => hr (Or.inr e)
    refine ⟨Conn.leftPlayer, leftPeer n holder, 2, by omega,
      fun hh => leftPeer_lt n holder hh, ?_⟩
    rw [relay, middleGame_arrival _ via record _ hvia, passPotato_forward _ record _ h]
    simp [h2, h0]

theorem Potato.decrementHops_hops_of_pos (p : Potato) (h : 0 < p.hops) :
    p.decrementHops.hops = p.hops - 1 := by
  unfold Potato.decrementHops
  rw [if_pos h]

theorem Potato.addTrace_traceLength_min (p : Potato) (playerId : Int) (k : Nat)
    (hk : p.traceLength = (k : Int)) (hk512 : k ≤ 512) :
    (p.addTrace playerId).traceLength = ((min (k + 1) 512 : Nat) : Int) := by
  by_cases hlt : k < 512
  · rw [Potato.addTrace_traceLength_lt p playerId (by omega), hk,
      Nat.min_eq_left (by omega)]
    push_cast
    rfl
  · rw [Potato.addTrace_full p playerId (by omega), hk, Nat.min_eq_right (by omega)]
    congr 1
    omega

/-- A record with hop count `h` that enters the ring comes back to the
Coordinator after `h + 1` calls of `passPotato`, with hop count 0 and `h + 1`
more trace entries (up to the capacity); the records written on the way show
the hop counts `countdown h`. -/
theorem relay_returns (ring : Nat → Player) (n : Nat) (rnd : Nat → Nat) :
    ∀ (h fuel step holder via : Nat) (record : Potato) (k : Nat),
      via < 3 → holder < n → record.hops = (h : Int) → h < fuel →
      record.traceLength = (k : Int) → k ≤ 512 →
      ∃ sender final,
        (relay ring n rnd fuel step holder via record).2 = some (sender, final)
        ∧ sender < n
        ∧ final.hops = 0
        ∧ final.traceLength = ((min (k + h + 1) 512 : Nat) : Int)
        ∧ (relay ring n rnd fuel step holder via record).1.map (fun m => m.2.2.getHops)
            = countdown h := by
  intro h
  induction h with
  | zero =>
    intro fuel step holder via record k hvia hholder hh hfuel hk hk512
    obtain ⟨f, rfl⟩ : ∃ f, fuel = f + 1 := ⟨fuel - 1, by omega⟩
    rw [relay_final ring n rnd f step holder via record hvia (by simpa [Potato.getHops] using hh)]
    refine ⟨holder, _, rfl, hholder, ?_, ?_, ?_⟩
    · rw [Potato.addTrace_hops, hh]; rfl
    · exact Potato.addTrace_traceLength_min record _ k hk hk512
    · simp [countdown, Potato.getHops, Potato.addTrace_hops, hh]
  | succ h ih =>
    intro fuel step holder via record k hvia hholder hh hfuel hk hk512
    obtain ⟨f, rfl⟩ : ∃ f, fuel = f + 1 := ⟨fuel - 1, by omega⟩
    have hpos : 0 < record.getHops := by unfold Potato.getHops; omega
    obtain ⟨conn, next, via2, hvia2, hnext, hrel⟩ :=
      relay_forward ring n rnd f step holder via record hvia hpos
    have hh2 : (record.decrementHops.addTrace (ring holder).my_id).hops = (h : Int) := by
      rw [Potato.addTrace_hops, Potato.decrementHops_hops_of_pos record hpos, hh]
      push_cast
      omega
    have hk2 : (record.decrementHops.addTrace (ring holder).my_id).traceLength
        = ((min (k + 1) 512 : Nat) : Int) :=
      Potato.addTrace_traceLength_min _ _ k
        (by rw [Potato.decrementHops_traceLength, hk]) hk512
    obtain ⟨sender, final, hres, hs, hf0, hftl, hlog⟩ :=
      ih f (step + 1) next via2 _ (min (k + 1) 512) hvia2 (hnext hholder) hh2 (by omega) hk2
        (Nat.min_le_right _ _)
    rw [hrel]
    refine ⟨sender, final, hres, hs, hf0, ?_, ?_⟩
    · rw [hftl]
      congr 1
      omega
    · simp only [List.map_cons, hlog, countdown, List.cons.injEq, and_true]
      exact hh2

theorem countDecrements_countdown (h : Nat) :
    countDecrements ((h : Int) :: countdown h) = h := by
  induction h with
  | zero => simp [countdown, countDecrements]
  | succ h ih =>
    rw [countdown, countDecrements, ih]
    simp
    omega

theorem countdown_nonneg (h : Nat) : ∀ x ∈ countdown h, (0 : Int) ≤ x := by
  induction h with
  | zero => simp [countdown]
  | succ h ih =>
    intro x hx
    simp only [countdown, List.mem_cons] at hx
    rcases hx with rfl | hx
    · omega
    · exact ih x hx

theorem countdown_length (h : Nat) : (countdown h).length = h + 1 := by
  induction h with
  | zero => rfl
  | succ h ih => simp [countdown, ih]

theorem waitForPotato_arrival (rm : Ringmaster) (sender : Nat) (record : Potato)
    (h : sender < rm.numPlayers) :
    waitForPotato rm (arrival sender record) = .ok record := by
  unfold waitForPotato
  rw [scanReady_arrival sender rm.numPlayers record h]
  simp [arrival]

theorem sendPotato_sent (rm : Ringmaster) (potato : Potato) (rnd : Nat)
    (h : rm.playerInfos ≠ []) :
    (sendPotato rm potato rnd).sent = [(rnd % rm.numPlayers, potato.decrementHops)] := by
  unfold sendPotato
  simp [h]

theorem playGame_zero (rm : Ringmaster) (ring : Nat → Player) (rnd : Nat → Nat) (fuel : Nat)
    (hN : 2 ≤ rm.numPlayers) :
    playGame rm ring 0 rnd fuel = some (Potato.new 0) := by
  unfold playGame startGame
  rw [if_neg (by omega)]
  simp

theorem playGame_pos (rm : Ringmaster) (ring : Nat → Player) (H : Int) (rnd : Nat → Nat)
    (fuel : Nat) (hN : 2 ≤ rm.numPlayers) (hinfos : rm.playerInfos.length = rm.numPlayers)
    (hH0 : 0 < H) (hH : H ≤ 512) (hfuel : H ≤ (fuel : Int)) :
    ∃ p, playGame rm ring H rnd fuel = some p ∧ p.getHops = 0 ∧ p.getTraceLength = H := by
  obtain ⟨h, rfl⟩ : ∃ h : Nat, H = ((h + 1 : Nat) : Int) := ⟨(H - 1).toNat, by omega⟩
  have hne : rm.playerInfos ≠ [] := by
    intro e
    rw [e] at hinfos
    simp at hinfos
    omega
  have hc1 : ¬ (rm.numPlayers ≤ 1 ∨ ((h + 1 : Nat) : Int) < 0 ∨ ((h + 1 : Nat) : Int) > 512) := by
    omega
  have hc2 : ¬ (((h + 1 : Nat) : Int) ≤ 0) := by omega
  have hh512 : h + 1 ≤ 512 := by omega
  have hdec : (createPotato ((h + 1 : Nat) : Int)).decrementHops.hops = (h : Int) := by
    rw [Potato.decrementHops_hops_of_pos _ (by simp [createPotato, Potato.new])]
    simp [createPotato, Potato.new]
  obtain ⟨sender, final, hres, hs, hf0, hftl, -⟩ :=
    relay_returns ring rm.numPlayers rnd h fuel 1 (rnd 0 % rm.numPlayers) 0
      (createPotato ((h + 1 : Nat) : Int)).decrementHops 0 (by omega)
      (Nat.mod_lt _ (by omega)) hdec (by omega)
      (Potato.decrementHops_traceLength _) (by omega)
  refine ⟨final, ?_, hf0, ?_⟩
  · unfold playGame startGame
    rw [if_neg hc1, if_neg hc2]
    simp only [if_neg (show ¬ ((1 : Int) = 0) by decide)]
    rw [sendPotato_sent rm _ _ hne]
    simp only [hres, waitForPotato_arrival rm sender final hs]
  · unfold Potato.getTraceLength
    rw [hftl, Nat.zero_add, Nat.min_eq_left hh512]

theorem relayFrom_returns (rm : Ringmaster) (ring : Nat → Player) (H : Int)
    (rnd : Nat → Nat) (fuel h : Nat)
    (hN : 2 ≤ rm.numPlayers) (hinfos : rm.playerInfos.length = rm.numPlayers)
    (hh : (createPotato H).decrementHops.hops = (h : Int)) (hfuel : h < fuel) :
    (∃ sender final, (relayFrom rm ring (createPotato H) rnd fuel).2 = some (sender, final)
        ∧ final.getHops = 0)
    ∧ (relayFrom rm ring (createPotato H) rnd fuel).1 = (h : Int) :: countdown h := by
  have hne : rm.playerInfos ≠ [] := by
    intro e
    rw [e] at hinfos
    simp at hinfos
    omega
  obtain ⟨sender, final, hres, -, hf0, -, hlog⟩ :=
    relay_returns ring rm.numPlayers rnd h fuel 1 (rnd 0 % rm.numPlayers) 0
      (createPotato H).decrementHops 0 (by omega)
      (Nat.mod_lt _ (by omega)) hh hfuel
      (Potato.decrementHops_traceLength _) (by omega)
  unfold relayFrom
  rw [sendPotato_sent rm _ _ hne]
  simp only [hres, hlog]
  exact ⟨⟨sender, final, rfl, hf0⟩, by rw [Potato.getHops, hh]⟩

/-! ## Claims about the whole game -/

/-- C1, as stated, fails: with three players and a hop budget of 4 (random
values 0, 1, 2, ...), the potato the Coordinator ends the game with has hop
count 0 and a trace of length 4, not 5. -/
theorem game_of_four_hops_has_four_entries :
    ∃ p, playGame threePlayers (setUpRing threePlayers) 4 (fun k => k) 10 = some p
      ∧ p.getHops = 0
      ∧ p.getTraceLength = 4
      ∧ p.visited = [1, 3, 1, 3]
      ∧ p.getTraceLength ≠ 4 + 1 := by
  decide

/-- C1, amended. End-to-end trace length: for every ring of at least two
players, every hop budget `H` with `0 ≤ H ≤ 512` and every sequence of random
values, the potato the Coordinator ends the game with has hop count 0 and
trace length exactly `H` (any bound of at least `H` on the number of relay
steps is enough for the game to end). -/
theorem game_ends_with_trace_length (rm : Ringmaster) (ring : Nat → Player) (H : Int)
    (rnd : Nat → Nat) (fuel : Nat)
    (hN : 2 ≤ rm.numPlayers) (hinfos : rm.playerInfos.length = rm.numPlayers)
    (hH0 : 0 ≤ H) (hH : H ≤ 512) (hfuel : H ≤ (fuel : Int)) :
    ∃ p, playGame rm ring H rnd fuel = some p ∧ p.getHops = 0 ∧ p.getTraceLength = H := by
  by_cases hz : H = 0
  · subst hz
    exact ⟨Potato.new 0, playGame_zero rm ring rnd fuel hN, rfl, rfl⟩
  · exact playGame_pos rm ring H rnd fuel hN hinfos (by omega) hH hfuel

/-- Witness for C1 amended: three players, hop budget 4. -/
theorem game_ends_with_trace_length_witness :
    ∃ p, playGame threePlayers (setUpRing threePlayers) 4 (fun k => k) 4 = some p
      ∧ p.getHops = 0 ∧ p.getTraceLength = 4 :=
  game_ends_with_trace_length threePlayers (setUpRing threePlayers) 4 (fun k => k) 4
    (by decide) (by decide) (by decide) (by decide) (by decide)

/-- C2. Hop budget accounting: for every ring of at least two players, every
hop budget `H ≥ 0` and every sequence of random values, the relay started by
`sendPotato` on `createPotato(H)` ends with a holder returning the potato to
the Coordinator with hop count 0 (any bound above `H` on the number of
`passPotato` calls is enough); along the records written the hop count goes
down by one exactly `H` times, it is at least 0 on every record, and the
number of records is one (the Coordinator's) plus `max H 1` (one per
`passPotato` call). -/
theorem hop_budget_accounting (rm : Ringmaster) (ring : Nat → Player) (H : Int)
    (rnd : Nat → Nat) (fuel : Nat)
    (hN : 2 ≤ rm.numPlayers) (hinfos : rm.playerInfos.length = rm.numPlayers)
    (hH0 : 0 ≤ H) (hfuel : H < (fuel : Int)) :
    (∃ sender final, (relayFrom rm ring (createPotato H) rnd fuel).2 = some (sender, final)
        ∧ final.getHops = 0)
    ∧ countDecrements (H :: (relayFrom rm ring (createPotato H) rnd fuel).1) = H.toNat
    ∧ (∀ x ∈ (relayFrom rm ring (createPotato H) rnd fuel).1, (0 : Int) ≤ x)
    ∧ (relayFrom rm ring (createPotato H) rnd fuel).1.length = max H.toNat 1 + 1 := by
  by_cases hz : H = 0
  · subst hz
    obtain ⟨hret, hlog⟩ := relayFrom_returns rm ring 0 rnd fuel 0 hN hinfos rfl (by omega)
    refine ⟨hret, ?_, ?_, ?_⟩
    · rw [hlog]; rfl
    · rw [hlog]; intro x hx; simp [countdown] at hx; omega
    · rw [hlog]; rfl
  · obtain ⟨h, rfl⟩ : ∃ h : Nat, H = ((h + 1 : Nat) : Int) := ⟨(H - 1).toNat, by omega⟩
    have hdec : (createPotato ((h + 1 : Nat) : Int)).decrementHops.hops = (h : Int) := by
      rw [Potato.decrementHops_hops_of_pos _ (by simp [createPotato, Potato.new])]
      simp [createPotato, Potato.new]
    obtain ⟨hret, hlog⟩ :=
      relayFrom_returns rm ring _ rnd fuel h hN hinfos hdec (by omega)
    refine ⟨hret, ?_, ?_, ?_⟩
    · rw [hlog, countDecrements, countDecrements_countdown]
      simp
      omega
    · rw [hlog]
      intro x hx
      rcases List.mem_cons.mp hx with rfl | hx
      · omega
      · exact countdown_nonneg h x hx
    · rw [hlog, List.length_cons, countdown_length]
      simp

/-- Witness for C2: three players, hop budget 4, at most 5 relay steps. -/
theorem hop_budget_accounting_witness :
    (∃ sender final,
        (relayFrom threePlayers (setUpRing threePlayers) (createPotato 4) (fun k => k) 5).2
          = some (sender, final)
        ∧ final.getHops = 0)
    ∧ countDecrements
        (4 :: (relayFrom threePlayers (setUpRing threePlayers) (createPotato 4) (fun k => k) 5).1)
        = (4 : Int).toNat
    ∧ (∀ x ∈ (relayFrom threePlayers (setUpRing threePlayers) (createPotato 4) (fun k => k) 5).1,
        (0 : Int) ≤ x)
    ∧ (relayFrom threePlayers (setUpRing threePlayers) (createPotato 4) (fun k => k) 5).1.length
        = max (4 : Int).toNat 1 + 1 :=
  hop_budget_accounting threePlayers (setUpRing threePlayers) 4 (fun k => k) 5
    (by decide) (by decide) (by decide) (by decide)

/-! ## Facts about decimal text -/

theorem digit_char (k : Nat) (hk : k < 10) :
    (Char.ofNat (48 + k)).isDigit = true ∧ (Char.ofNat (48 + k)).toNat - 48 = k := by
  interval_cases k <;> exact ⟨by decide, by decide⟩

theorem isDigit_toNat (c : Char) (h : c.isDigit = true) : 48 ≤ c.toNat ∧ c.toNat ≤ 57 := by
  simp only [Char.isDigit, Bool.and_eq_true, decide_eq_true_eq] at h
  have h1 : (48 : UInt32).toNat ≤ c.val.toNat := h.1
  have h2 : c.val.toNat ≤ (57 : UInt32).toNat := h.2
  exact ⟨h1, h2⟩

theorem decimalCore_append (fuel : Nat) :
    ∀ (n : Nat) (acc : List Char), decimalCore fuel n acc = decimalCore fuel n [] ++ acc := by
  induction fuel with
  | zero => intro n acc; rfl
  | succ fuel ih =>
    intro n acc
    unfold decimalCore
    split
    · rfl
    · rw [ih (n / 10) (_ :: acc), ih (n / 10) [_]]
      simp

theorem decimalCore_digits (fuel : Nat) :
    ∀ (n : Nat), ∀ c ∈ decimalCore fuel n [], c.isDigit = true := by
  induction fuel with
  | zero => intro n c hc; simp [decimalCore] at hc
  | succ fuel ih =>
    intro n c hc
    unfold decimalCore at hc
    have hd := (digit_char (n % 10) (Nat.mod_lt _ (by omega))).1
    split at hc
    · simp only [List.mem_singleton] at hc
      rw [hc]; exact hd
    · rw [decimalCore_append] at hc
      simp only [List.mem_append, List.mem_singleton] at hc
      rcases hc with hc | hc
      · exact ih _ c hc
      · rw [hc]; exact hd

theorem decimalCore_head (fuel : Nat) :
    ∀ (n : Nat), n < fuel → ∃ c rest, decimalCore fuel n [] = c :: rest := by
  induction fuel with
  | zero => intro n h; omega
  | succ fuel ih =>
    intro n h
    unfold decimalCore
    split
    · exact ⟨_, _, rfl⟩
    · rename_i hq
      obtain ⟨c, rest, e⟩ := ih (n / 10) (by omega)
      rw [decimalCore_append, e]
      exact ⟨c, rest ++ _, rfl⟩

theorem digitsValue_decimalCore (fuel : Nat) :
    ∀ (n : Nat) (acc : List Char), n < fuel →
      digitsValue (decimalCore fuel n acc) 0 = digitsValue acc n := by
  induction fuel with
  | zero => intro n acc h; omega
  | succ fuel ih =>
    intro n acc h
    have hd := digit_char (n % 10) (Nat.mod_lt _ (by omega))
    unfold decimalCore
    split
    · rename_i hq
      rw [digitsValue, if_pos hd.1, hd.2]
      congr 1
      omega
    · rename_i hq
      rw [ih (n / 10) _ (by omega), digitsValue, if_pos hd.1, hd.2]
      congr 1
      omega

theorem decimalCore_length (fuel : Nat) :
    ∀ (n d : Nat), n < 10 ^ (d + 1) → (decimalCore fuel n []).length ≤ d + 1 := by
  induction fuel with
  | zero => intro n d h; simp [decimalCore]
  | succ fuel ih =>
    intro n d h
    unfold decimalCore
    split
    · simp
    · rename_i hq
      rw [decimalCore_append]
      cases d with
      | zero => omega
      | succ d =>
        have := ih (n / 10) d (by rw [Nat.pow_succ] at h; omega)
        simp
        omega

theorem digitsValue_stop (tail : List Char) (n : Nat)
    (htail : ∀ c, tail.head? = some c → c.isDigit = false) : digitsValue tail n = n := by
  cases tail with
  | nil => rfl
  | cons c cs =>
    have := htail c rfl
    simp [digitsValue, this]

theorem to_string_natCast (n : Nat) : to_string (n : Int) = decimalCore (n + 1) n [] := by
  unfold to_string
  rw [if_neg (by omega)]
  simp

theorem digit_not_special (c : Char) (h : c.isDigit = true) :
    isSpace c = false ∧ c ≠ '-' ∧ c ≠ '+' ∧ c ≠ ':' ∧ c ≠ '\n' := by
  have hb := isDigit_toNat c h
  refine ⟨?_, ?_, ?_, ?_, ?_⟩
  · simp only [isSpace, Bool.or_eq_false_iff, decide_eq_false_iff_not, Bool.and_eq_false_iff]
    omega
  all_goals
    intro e
    rw [e] at hb
    revert hb
    decide

theorem stoi_to_string (n : Nat) (tail : List Char) (hn : n ≤ 2147483647)
    (htail : ∀ c, tail.head? = some c → c.isDigit = false) :
    stoi (to_string (n : Int) ++ tail) = some (n : Int) := by
  rw [to_string_natCast]
  obtain ⟨c, rest, e⟩ := decimalCore_head (n + 1) n (by omega)
  have hc : c.isDigit = true := decimalCore_digits (n + 1) n c (by rw [e]; simp)
  obtain ⟨hs, hm, hp, -, -⟩ := digit_not_special c hc
  have hv : digitsValue (c :: (rest ++ tail)) 0 = n := by
    rw [← List.cons_append, ← e, ← decimalCore_append,
      digitsValue_decimalCore (n + 1) n tail (by omega), digitsValue_stop tail n htail]
  unfold stoi
  simp only [e, List.cons_append, List.dropWhile_cons, hs, List.head?_cons]
  simp [hm, hp, hc, hv]
  omega

theorem findChar_append (c : Char) (xs ys : List Char) (h : ∀ x ∈ xs, x ≠ c) :
    findChar c (xs ++ c :: ys) = some xs.length := by
  induction xs with
  | nil => simp [findChar]
  | cons x xs ih =>
    have hx : x ≠ c := h x (List.mem_cons_self _ _)
    have := ih (fun y hy => h y (List.mem_cons_of_mem _ hy))
    simp [findChar, hx, this]

theorem to_string_no_special (n : Nat) :
    ∀ x ∈ to_string (n : Int), x ≠ ':' ∧ x ≠ '\n' := by
  intro x hx
  rw [to_string_natCast] at hx
  have := digit_not_special x (decimalCore_digits _ _ x hx)
  exact ⟨this.2.2.2.1, this.2.2.2.2⟩

theorem drop_length_succ_append (xs ys : List Char) (c : Char) :
    (xs ++ c :: ys).drop (xs.length + 1) = ys := by
  induction xs with
  | nil => rfl
  | cons x xs ih => simp [ih]

theorem take_length_append (xs ys : List Char) : (xs ++ ys).take xs.length = xs := by
  induction xs with
  | nil => rfl
  | cons x xs ih => simp [ih]

theorem wrapInt32_eq (x : Int) (hlo : -2147483648 ≤ x) (hhi : x ≤ 2147483647) :
    wrapInt32 x = x := by
  unfold wrapInt32
  omega

/-- `parseString` reads back a line `id:address:port` written by
`getNeighborInfo`, also when a newline follows the port. -/
theorem parseString_line (k port : Nat) (addr tail : List Char)
    (hk : k < 2147483647) (hport : port ≤ 65535)
    (haddr : ∀ x ∈ addr, x ≠ ':')
    (htail : ∀ c, tail.head? = some c → c.isDigit = false) :
    parseString (to_string (k : Int) ++ [':'] ++ addr ++ [':'] ++ to_string (port : Int) ++ tail)
      = .ok { id := (k : Int) + 1, address := addr, port := port } := by
  have hline : to_string (k : Int) ++ [':'] ++ addr ++ [':'] ++ to_string (port : Int) ++ tail
      = to_string (k : Int) ++ ':' :: (addr ++ ':' :: (to_string (port : Int) ++ tail)) := by
    simp
  rw [hline]
  have h1 : findChar ':' (to_string (k : Int) ++ ':' :: (addr ++ ':' :: (to_string (port : Int) ++ tail)))
      = some (to_string (k : Int)).length :=
    findChar_append ':' _ _ (fun x hx => (to_string_no_special k x hx).1)
  have h2 : stoi (substr (to_string (k : Int) ++ ':' :: (addr ++ ':' :: (to_string (port : Int) ++ tail)))
      0 (to_string (k : Int)).length) = some (k : Int) := by
    unfold substr
    rw [List.drop_zero, take_length_append]
    have := stoi_to_string k [] (by omega) (by simp)
    simpa using this
  have h3 : findCharFrom ':' (to_string (k : Int) ++ ':' :: (addr ++ ':' :: (to_string (port : Int) ++ tail)))
      ((to_string (k : Int)).length + 1) = some (addr.length + ((to_string (k : Int)).length + 1)) := by
    unfold findCharFrom
    rw [drop_length_succ_append, findChar_append ':' _ _ haddr]
    rfl
  have h4 : (to_string (k : Int) ++ ':' :: (addr ++ ':' :: (to_string (port : Int) ++ tail))).drop
      (addr.length + ((to_string (k : Int)).length + 1) + 1) = to_string (port : Int) ++ tail := by
    have e : addr.length + ((to_string (k : Int)).length + 1) + 1
        = (to_string (k : Int)).length + 1 + (addr.length + 1) := by omega
    rw [e, ← List.drop_drop, drop_length_succ_append, drop_length_succ_append]
  have h5 : substr (to_string (k : Int) ++ ':' :: (addr ++ ':' :: (to_string (port : Int) ++ tail)))
      ((to_string (k : Int)).length + 1)
      (addr.length + ((to_string (k : Int)).length + 1) - (to_string (k : Int)).length - 1) = addr := by
    unfold substr
    have e : addr.length + ((to_string (k : Int)).length + 1) - (to_string (k : Int)).length - 1
        = addr.length := by omega
    rw [e, drop_length_succ_append, take_length_append]
  unfold parseString
  simp only [h1, h2, h3, h4, h5, stoi_to_string port tail (by omega) htail]
  rw [if_neg (by omega), wrapInt32_eq _ (by omega) (by omega)]
  simp

/-! ## Facts about the set-up of the ring -/

theorem ntohs_htons (x : Nat) : ntohs (htons x) = x % 65536 := by
  simp only [ntohs, htons, List.getD_cons_zero, List.getD_cons_succ]
  omega

theorem recvAll_htons (x : Nat) (rest : List Nat) :
    recvAll (htons x ++ rest) 2 = .ok (htons x, rest) := by
  simp [recvAll, htons]

theorem receiveMyId_htons (x : Nat) (rest : List Nat) :
    receiveMyId (htons x ++ rest) = .ok ((x % 65536 + 1) % 65536, rest) := by
  rw [receiveMyId, recvAll_htons]
  simp only [ntohs_htons]

theorem receiveTotalNumberOfPlayers_htons (x : Nat) (rest : List Nat) :
    receiveTotalNumberOfPlayers (htons x ++ rest) = .ok (x % 65536, rest) := by
  rw [receiveTotalNumberOfPlayers, recvAll_htons]
  simp only [ntohs_htons]

theorem receiveInfoString_text (text : List Char) (h : text.length < 65536) :
    receiveInfoString (htons text.length ++ text.map Char.toNat) = .ok (text, []) := by
  rw [receiveInfoString, recvAll_htons]
  simp only [ntohs_htons, Nat.mod_eq_of_lt h]
  simp [recvAll, Function.comp_def]

theorem dottedAddress_spec (address : List Char) (h : dottedAddress address = true) :
    address.length ≤ 15 ∧ ∀ x ∈ address, x ≠ ':' ∧ x ≠ '\n' := by
  simp only [dottedAddress, Bool.and_eq_true, decide_eq_true_eq, List.all_eq_true,
    Bool.or_eq_true, beq_iff_eq] at h
  refine ⟨h.1, fun x hx => ?_⟩
  rcases h.2 x hx with hd | hd
  · have := digit_not_special x hd
    exact ⟨this.2.2.2.1, this.2.2.2.2⟩
  · rw [hd]
    exact ⟨by decide, by decide⟩

theorem to_string_length (n : Nat) (h : n < 100000) : (to_string (n : Int)).length ≤ 5 := by
  rw [to_string_natCast]
  exact decimalCore_length _ n 4 (by omega)

theorem getNeighborInfo_ready (rm : Ringmaster) (h : RingReady rm) (j : Nat)
    (hj : j < rm.numPlayers) :
    getNeighborInfo (rm.infoAt j)
        = to_string (j : Int) ++ [':'] ++ (rm.infoAt j).address ++ [':']
            ++ to_string ((rm.infoAt j).port : Int)
    ∧ (getNeighborInfo (rm.infoAt j)).length ≤ 27
    ∧ ∀ x ∈ getNeighborInfo (rm.infoAt j), x ≠ '\n' := by
  have hid := h.ids j hj
  have hport := h.ports j hj
  have haddr := dottedAddress_spec _ (h.addresses j hj)
  have hb := h.bound
  have e : getNeighborInfo (rm.infoAt j)
        = to_string (j : Int) ++ [':'] ++ (rm.infoAt j).address ++ [':']
            ++ to_string ((rm.infoAt j).port : Int) := by
    rw [getNeighborInfo, hid]
  refine ⟨e, ?_, ?_⟩
  · rw [e]
    have h1 := to_string_length j (by omega)
    have h2 := to_string_length (rm.infoAt j).port (by omega)
    simp only [List.length_append, List.length_singleton]
    omega
  · rw [e]
    intro x hx
    simp only [List.mem_append, List.mem_singleton] at hx
    rcases hx with (((hx | hx) | hx) | hx) | hx
    · exact (to_string_no_special j x hx).2
    · rw [hx]; decide
    · exact (haddr.2 x hx).2
    · rw [hx]; decide
    · exact (to_string_no_special _ x hx).2

theorem parseString_ready (rm : Ringmaster) (h : RingReady rm) (j : Nat)
    (hj : j < rm.numPlayers) (tail : List Char)
    (htail : ∀ c, tail.head? = some c → c.isDigit = false) :
    parseString (getNeighborInfo (rm.infoAt j) ++ tail) = .ok (decoded (rm.infoAt j)) := by
  have hb := h.bound
  have hport := h.ports j hj
  rw [(getNeighborInfo_ready rm h j hj).1,
    parseString_line j (rm.infoAt j).port _ tail (by omega) (by omega)
      (fun x hx => ((dottedAddress_spec _ (h.addresses j hj)).2 x hx).1) htail,
    decoded, h.ids j hj]

theorem rightIndex_eq (n k : Nat) (hk : k < n) (hn : n < 65536) :
    rightIndex n k = (k + 1) % n := by
  unfold rightIndex
  rw [show (k + 1) % 18446744073709551616 = k + 1 by omega]

theorem leftIndex_eq (n k : Nat) (hk : k < n) (hn : n < 65536) :
    leftIndex n k = (k + n - 1) % n := by
  unfold leftIndex
  rw [show ((k + 18446744073709551615) % 18446744073709551616 + n) % 18446744073709551616
    = k + n - 1 by omega]

theorem rightIndex_lt (n k : Nat) (hn : 0 < n) : rightIndex n k < n := Nat.mod_lt _ hn

theorem leftIndex_lt (n k : Nat) (hn : 0 < n) : leftIndex n k < n := Nat.mod_lt _ hn

theorem neighborText_ready (rm : Ringmaster) (h : RingReady rm) (hN : 2 ≤ rm.numPlayers)
    (k : Nat) :
    (neighborText rm k).length < 65536
    ∧ findChar '\n' (neighborText rm k)
        = some (getNeighborInfo (rm.infoAt (rightIndex rm.numPlayers k))).length
    ∧ substr (neighborText rm k) 0
          (getNeighborInfo (rm.infoAt (rightIndex rm.numPlayers k))).length
        = getNeighborInfo (rm.infoAt (rightIndex rm.numPlayers k))
    ∧ (rm.numPlayers > 2 →
        (neighborText rm k).drop
            ((getNeighborInfo (rm.infoAt (rightIndex rm.numPlayers k))).length + 1)
          = getNeighborInfo (rm.infoAt (leftIndex rm.numPlayers k)) ++ ['\n']) := by
  have hr := getNeighborInfo_ready rm h _ (rightIndex_lt rm.numPlayers k (by omega))
  have hl := getNeighborInfo_ready rm h _ (leftIndex_lt rm.numPlayers k (by omega))
  by_cases h2 : rm.numPlayers > 2
  · have e : neighborText rm k
        = getNeighborInfo (rm.infoAt (rightIndex rm.numPlayers k))
          ++ '\n' :: (getNeighborInfo (rm.infoAt (leftIndex rm.numPlayers k)) ++ ['\n']) := by
      simp [neighborText, h2]
    rw [e]
    refine ⟨?_, findChar_append '\n' _ _ hr.2.2, ?_, fun _ => drop_length_succ_append _ _ _⟩
    · simp only [List.length_append, List.length_cons, List.length_nil]
      omega
    · rw [substr, List.drop_zero, take_length_append]
  · have e : neighborText rm k
        = getNeighborInfo (rm.infoAt (rightIndex rm.numPlayers k)) ++ '\n' :: [] := by
      simp [neighborText, h2]
    rw [e]
    refine ⟨?_, findChar_append '\n' _ _ hr.2.2, ?_, fun h3 => absurd h3 h2⟩
    · simp only [List.length_append, List.length_cons, List.length_nil]
      omega
    · rw [substr, List.drop_zero, take_length_append]

/-- A player that reads what `sendInfoToPlayers` wrote to the socket with
index `k` ends up with identity `k + 1`, the player count, and the decoded
descriptors of `playerInfos[rightIndex]` and (for more than two players)
`playerInfos[leftIndex]`. -/
theorem playerAt_ready (rm : Ringmaster) (h : RingReady rm) (hN : 2 ≤ rm.numPlayers)
    (k : Nat) (hk : k < rm.numPlayers) :
    playerAt rm k = .ok
      { my_id := k + 1, numPlayers := rm.numPlayers,
        neighborInfos :=
          if rm.numPlayers > 2 then
            [decoded (rm.infoAt (rightIndex rm.numPlayers k)),
             decoded (rm.infoAt (leftIndex rm.numPlayers k))]
          else [decoded (rm.infoAt (rightIndex rm.numPlayers k))] } := by
  have hb := h.bound
  obtain ⟨hlen, hfind, hsub, hdrop⟩ := neighborText_ready rm h hN k
  have hstream : (sendInfoToPlayers rm).getD k [] = bytesForPlayer rm k := by
    unfold sendInfoToPlayers
    rw [if_neg (by omega)]
    simp [List.getD, List.getElem?_range, h.size, hk]
  have hown : sendPlayerOwnInfo (rm.infoAt k) = htons k := by
    rw [sendPlayerOwnInfo, h.ids k hk]
    congr 1
    omega
  have hbytes : bytesForPlayer rm k
      = htons k ++ (htons rm.numPlayers
          ++ (htons (neighborText rm k).length ++ (neighborText rm k).map Char.toNat)) := by
    rw [bytesForPlayer, hown, sendTotalNumberOfPlayers]
    simp
  have hright := parseString_ready rm h _ (rightIndex_lt rm.numPlayers k (by omega)) []
    (by simp)
  rw [List.append_nil] at hright
  have hleft := parseString_ready rm h _ (leftIndex_lt rm.numPlayers k (by omega)) ['\n']
    (by simp)
  unfold playerAt
  rw [hstream, hbytes, receiveInfoFromRingmaster, receiveMyId_htons]
  simp only [receiveTotalNumberOfPlayers_htons, receiveInfoString_text _ hlen, hfind, hsub,
    hright]
  rw [Nat.mod_eq_of_lt hb, Nat.mod_eq_of_lt (show k < 65536 by omega),
    Nat.mod_eq_of_lt (show k + 1 < 65536 by omega)]
  by_cases h2 : rm.numPlayers > 2
  · rw [if_pos h2, if_pos h2, hdrop h2]
    simp only [hleft]
  · rw [if_neg h2, if_neg h2]

theorem acceptLoop_recorded (remaining : Nat) :
    ∀ (i : Nat) (arrivals : List Accepted) (infos : List RingInfo),
      remaining ≤ arrivals.length → (∀ a ∈ arrivals, 2 ≤ a.sent.length) →
      acceptLoop remaining i arrivals infos
        = .ok (infos ++ recorded i (arrivals.take remaining)) := by
  induction remaining with
  | zero => intro i arrivals infos _ _; simp [acceptLoop, recorded]
  | succ remaining ih =>
    intro i arrivals infos hlen hsent
    cases arrivals with
    | nil => simp at hlen
    | cons a rest =>
      have ha : 2 ≤ a.sent.length := hsent a (List.mem_cons_self _ _)
      have hrest := ih (i + 1) rest
        (infos ++ [{ id := (i : Int), address := a.address, port := ntohs (a.sent.take 2) }])
        (by simpa using hlen) (fun b hb => hsent b (List.mem_cons_of_mem _ hb))
      rw [acceptLoop]
      simp only [recvAll, if_pos ha, hrest, List.take_succ_cons, recorded]
      simp

theorem recorded_length (arrivals : List Accepted) :
    ∀ i, (recorded i arrivals).length = arrivals.length := by
  induction arrivals with
  | nil => intro i; rfl
  | cons a rest ih => intro i; simp [recorded, ih]

theorem recorded_getD (arrivals : List Accepted) :
    ∀ (i k : Nat) (d : RingInfo), k < arrivals.length →
      ∃ a ∈ arrivals, (recorded i arrivals).getD k d
        = { id := ((i + k : Nat) : Int), address := a.address, port := ntohs (a.sent.take 2) } := by
  induction arrivals with
  | nil => intro i k d h; simp at h
  | cons a rest ih =>
    intro i k d h
    cases k with
    | zero => exact ⟨a, List.mem_cons_self _ _, by simp [recorded]⟩
    | succ k =>
      obtain ⟨b, hb, e⟩ := ih (i + 1) k d (by simpa using h)
      refine ⟨b, List.mem_cons_of_mem _ hb, ?_⟩
      simp only [recorded, List.getD_cons_succ, e]
      congr 2
      omega

theorem ntohs_lt (bytes : List Nat) : ntohs bytes < 65536 := by
  unfold ntohs
  omega

theorem initializePlayers_recorded (port n : Int) (arrivals : List Accepted)
    (hlen : (Ringmaster.new port n).numPlayers ≤ arrivals.length)
    (hsent : ∀ a ∈ arrivals, 2 ≤ a.sent.length) :
    ∃ rm, initializePlayers (Ringmaster.new port n) arrivals = .ok rm
      ∧ rm.numPlayers = (Ringmaster.new port n).numPlayers
      ∧ rm.playerInfos = recorded 0 (arrivals.take rm.numPlayers) := by
  unfold initializePlayers
  rw [acceptLoop_recorded _ 0 arrivals _ hlen hsent]
  exact ⟨_, rfl, rfl, by simp [Ringmaster.new]⟩

theorem infoAt_recorded (rm : Ringmaster) (arrivals : List Accepted)
    (hrm : rm.playerInfos = recorded 0 (arrivals.take rm.numPlayers))
    (hlen : rm.numPlayers ≤ arrivals.length) (k : Nat) (hk : k < rm.numPlayers) :
    ∃ a ∈ arrivals, rm.infoAt k
        = { id := (k : Int), address := a.address, port := ntohs (a.sent.take 2) } := by
  have hsize : (arrivals.take rm.numPlayers).length = rm.numPlayers := by
    rw [List.length_take]; omega
  obtain ⟨a, ha, e⟩ := recorded_getD (arrivals.take rm.numPlayers) 0 k
    { id := 0, address := [], port := 0 } (by omega)
  refine ⟨a, List.mem_of_mem_take ha, ?_⟩
  rw [Ringmaster.infoAt, hrm, e, Nat.zero_add]

theorem recorded_ready (rm : Ringmaster) (arrivals : List Accepted)
    (hrm : rm.playerInfos = recorded 0 (arrivals.take rm.numPlayers))
    (hb : rm.numPlayers < 65536) (hlen : rm.numPlayers ≤ arrivals.length)
    (haddr : ∀ a ∈ arrivals, dottedAddress a.address = true) :
    RingReady rm := by
  have hsize : (arrivals.take rm.numPlayers).length = rm.numPlayers := by
    rw [List.length_take]; omega
  refine ⟨by rw [hrm, recorded_length, hsize], hb, ?_, ?_, ?_⟩
  · intro k hk
    obtain ⟨a, -, e⟩ := infoAt_recorded rm arrivals hrm hlen k hk
    rw [e]
  · intro k hk
    obtain ⟨a, -, e⟩ := infoAt_recorded rm arrivals hrm hlen k hk
    rw [e]
    exact ntohs_lt _
  · intro k hk
    obtain ⟨a, ha, e⟩ := infoAt_recorded rm arrivals hrm hlen k hk
    rw [e]
    exact haddr a ha

theorem new_numPlayers_lt (port n : Int) : (Ringmaster.new port n).numPlayers < 65536 := by
  simp only [Ringmaster.new]
  omega

theorem identityOf_recorded (rm : Ringmaster) (arrivals : List Accepted)
    (hrm : rm.playerInfos = recorded 0 (arrivals.take rm.numPlayers))
    (hb : rm.numPlayers < 65536) (hlen : rm.numPlayers ≤ arrivals.length) (k : Nat)
    (hk : k < rm.numPlayers) :
    identityOf rm k = some (k + 1) := by
  have hsize : rm.playerInfos.length = rm.numPlayers := by
    rw [hrm, recorded_length, List.length_take]; omega
  obtain ⟨a, -, e⟩ := infoAt_recorded rm arrivals hrm hlen k hk
  have hown : ∀ rest, receiveMyId (sendPlayerOwnInfo (rm.infoAt k) ++ rest)
      = .ok (k + 1, rest) := by
    intro rest
    rw [e, sendPlayerOwnInfo]
    simp only
    rw [show ((k : Int) % 65536).toNat = k by omega, receiveMyId_htons,
      Nat.mod_eq_of_lt (show k < 65536 by omega),
      Nat.mod_eq_of_lt (show k + 1 < 65536 by omega)]
  unfold identityOf sendInfoToPlayers
  by_cases h1 : rm.numPlayers = 1
  · have hk0 : k = 0 := by omega
    subst hk0
    simp only [if_pos h1, List.getD_cons_zero]
    rw [hown]
  · simp only [if_neg h1, hsize]
    have hget : ((List.range rm.numPlayers).map (bytesForPlayer rm)).getD k []
        = bytesForPlayer rm k := by
      simp [List.getD, List.getElem?_range, hk]
    rw [hget, bytesForPlayer]
    simp only [List.append_assoc]
    rw [hown]

theorem mod_two_range (a n : Nat) (h : a < 2 * n) :
    a % n = if a < n then a else a - n := by
  split
  · rename_i hlt
    exact Nat.mod_eq_of_lt hlt
  · rename_i hge
    rw [Nat.mod_eq_sub_mod (by omega), Nat.mod_eq_of_lt (by omega)]

theorem leftPeer_eq (n k : Nat) (hk : k < n) (hn : n < 65536) :
    leftPeer n k = (k + n - 1) % n := by
  have hfind : (List.range n).find? (fun j => rightPeer n j == k) = some ((k + n - 1) % n) := by
    rw [List.find?_range_eq_some]
    have hm := mod_two_range (k + n - 1) n (by omega)
    refine ⟨?_, ?_, ?_⟩
    · have hlt : (k + n - 1) % n < n := Nat.mod_lt _ (by omega)
      simp only [rightPeer, beq_iff_eq]
      rw [rightIndex_eq n _ hlt hn, mod_two_range _ n (by omega), hm]
      split <;> split <;> omega
    · simp only [List.mem_range]
      exact Nat.mod_lt _ (by omega)
    · intro j hj
      have hjn : j < n := lt_trans hj (Nat.mod_lt _ (by omega))
      simp only [rightPeer, Bool.not_eq_eq_eq_not, Bool.not_true, beq_eq_false_iff_ne, ne_eq]
      rw [rightIndex_eq n j hjn hn, mod_two_range _ n (by omega)]
      rw [hm] at hj
      split at hj <;> split <;> omega
  rw [leftPeer, hfind]
  rfl

theorem neighborId_ready (rm : Ringmaster) (h : RingReady rm) (hN : 2 ≤ rm.numPlayers)
    (k : Nat) (hk : k < rm.numPlayers) :
    ∃ pl, playerAt rm k = .ok pl ∧ pl.my_id = k + 1 ∧ pl.numPlayers = rm.numPlayers
      ∧ pl.neighborId 0 = ((k + 1) % rm.numPlayers : Nat) + 1
      ∧ (2 < rm.numPlayers → pl.neighborId 1 = ((k + rm.numPlayers - 1) % rm.numPlayers : Nat) + 1) := by
  have hb := h.bound
  refine ⟨_, playerAt_ready rm h hN k hk, rfl, rfl, ?_, ?_⟩
  · have hr := h.ids _ (rightIndex_lt rm.numPlayers k (by omega))
    rw [rightIndex_eq _ k hk hb] at hr
    by_cases h2 : rm.numPlayers > 2
    · simp [Player.neighborId, h2, decoded, rightIndex_eq _ k hk hb, hr]
    · simp [Player.neighborId, h2, decoded, rightIndex_eq _ k hk hb, hr]
  · intro h2
    have hl := h.ids _ (leftIndex_lt rm.numPlayers k (by omega))
    rw [leftIndex_eq _ k hk hb] at hl
    simp [Player.neighborId, h2, decoded, leftIndex_eq _ k hk hb, hl]

theorem setup_ready (port n : Int) (arrivals : List Accepted)
    (hlen : (Ringmaster.new port n).numPlayers ≤ arrivals.length)
    (hsent : ∀ a ∈ arrivals, 2 ≤ a.sent.length)
    (haddr : ∀ a ∈ arrivals, dottedAddress a.address = true) :
    ∃ rm, initializePlayers (Ringmaster.new port n) arrivals = .ok rm
      ∧ rm.numPlayers = (Ringmaster.new port n).numPlayers ∧ RingReady rm := by
  obtain ⟨rm, hinit, hnum, hrm⟩ := initializePlayers_recorded port n arrivals hlen hsent
  have hb : rm.numPlayers < 65536 := by rw [hnum]; exact new_numPlayers_lt port n
  exact ⟨rm, hinit, hnum, recorded_ready rm arrivals hrm hb (by rw [hnum]; exact hlen) haddr⟩

/-! ## Claims about the set-up of the ring -/

/-- C4. Identity assignment: when the Coordinator (created for any player
count, which the constructor stores as a `uint16_t`) runs `initializePlayers`
on at least `numPlayers` inbound connections, each sending its two port bytes,
the call succeeds and records the connections in arrival order; the player on
the socket with index `k` (the `k`-th arrival, counted from 0) decodes in
`receiveMyId` the identity `k + 1`; so the identities are pairwise distinct
and are exactly the numbers `1 .. numPlayers`. -/
theorem identities_by_arrival (port n : Int) (arrivals : List Accepted)
    (hlen : (Ringmaster.new port n).numPlayers ≤ arrivals.length)
    (hsent : ∀ a ∈ arrivals, 2 ≤ a.sent.length) :
    ∃ rm, initializePlayers (Ringmaster.new port n) arrivals = .ok rm
      ∧ rm.numPlayers = (Ringmaster.new port n).numPlayers
      ∧ rm.playerInfos = recorded 0 (arrivals.take rm.numPlayers)
      ∧ (∀ k, k < rm.numPlayers → identityOf rm k = some (k + 1))
      ∧ (∀ j k, j < rm.numPlayers → k < rm.numPlayers →
          identityOf rm j = identityOf rm k → j = k)
      ∧ (∀ i, (1 ≤ i ∧ i ≤ rm.numPlayers) ↔
          ∃ k, k < rm.numPlayers ∧ identityOf rm k = some i) := by
  obtain ⟨rm, hinit, hnum, hrm⟩ := initializePlayers_recorded port n arrivals hlen hsent
  have hb : rm.numPlayers < 65536 := by rw [hnum]; exact new_numPlayers_lt port n
  have hid : ∀ k, k < rm.numPlayers → identityOf rm k = some (k + 1) :=
    fun k hk => identityOf_recorded rm arrivals hrm hb (by rw [hnum]; exact hlen) k hk
  refine ⟨rm, hinit, hnum, hrm, hid, ?_, ?_⟩
  · intro j k hj hk e
    rw [hid j hj, hid k hk] at e
    simpa using e
  · intro i
    constructor
    · intro hi
      exact ⟨i - 1, by omega, by rw [hid (i - 1) (by omega)]; congr 1; omega⟩
    · rintro ⟨k, hk, e⟩
      rw [hid k hk] at e
      have : k + 1 = i := by simpa using e
      omega

/-- Witness for C4: a Coordinator created for three players accepts the three
example connections. -/
theorem identities_by_arrival_witness :
    ∃ rm, initializePlayers (Ringmaster.new 4000 3) threeArrivals = .ok rm
      ∧ rm.numPlayers = (Ringmaster.new 4000 3).numPlayers
      ∧ rm.playerInfos = recorded 0 (threeArrivals.take rm.numPlayers)
      ∧ (∀ k, k < rm.numPlayers → identityOf rm k = some (k + 1))
      ∧ (∀ j k, j < rm.numPlayers → k < rm.numPlayers →
          identityOf rm j = identityOf rm k → j = k)
      ∧ (∀ i, (1 ≤ i ∧ i ≤ rm.numPlayers) ↔
          ∃ k, k < rm.numPlayers ∧ identityOf rm k = some i) :=
  identities_by_arrival 4000 3 threeArrivals (by decide) (by decide)

/-- C3. Ring adjacency: with more than two players (connections from
dotted-decimal addresses, accepted by `initializePlayers`), the player with
identity `i` in `1 .. N` decodes from what `sendInfoToPlayers` wrote to it the
right-neighbour identity `(i mod N) + 1` and the left-neighbour identity
`((i - 2 + N) mod N) + 1`; the player holding that left identity decodes `i`
as its right neighbour, and the player holding that right identity decodes `i`
as its left neighbour. -/
theorem ring_adjacency (port n : Int) (arrivals : List Accepted) (i : Nat)
    (hN : 2 < (Ringmaster.new port n).numPlayers)
    (hlen : (Ringmaster.new port n).numPlayers ≤ arrivals.length)
    (hsent : ∀ a ∈ arrivals, 2 ≤ a.sent.length)
    (haddr : ∀ a ∈ arrivals, dottedAddress a.address = true)
    (hi1 : 1 ≤ i) (hiN : i ≤ (Ringmaster.new port n).numPlayers) :
    ∃ rm pl pl_left pl_right,
      initializePlayers (Ringmaster.new port n) arrivals = .ok rm
      ∧ rm.numPlayers = (Ringmaster.new port n).numPlayers
      ∧ playerAt rm (i - 1) = .ok pl ∧ pl.my_id = i
      ∧ pl.neighborId 0 = (i : Int) % (rm.numPlayers : Int) + 1
      ∧ pl.neighborId 1 = ((i : Int) - 2 + (rm.numPlayers : Int)) % (rm.numPlayers : Int) + 1
      ∧ playerAt rm ((pl.neighborId 1).toNat - 1) = .ok pl_left
      ∧ (pl_left.my_id : Int) = pl.neighborId 1
      ∧ pl_left.neighborId 0 = (i : Int)
      ∧ playerAt rm ((pl.neighborId 0).toNat - 1) = .ok pl_right
      ∧ (pl_right.my_id : Int) = pl.neighborId 0
      ∧ pl_right.neighborId 1 = (i : Int) := by
  obtain ⟨rm, hinit, hnum, hready⟩ := setup_ready port n arrivals hlen hsent haddr
  rw [← hnum] at hN hiN
  have hb := hready.bound
  obtain ⟨pl, hpl, hid, -, hr, hl⟩ := neighborId_ready rm hready (by omega) (i - 1) (by omega)
  have hl := hl hN
  rw [show i - 1 + 1 = i by omega] at hr hid
  rw [show i - 1 + rm.numPlayers - 1 = i + rm.numPlayers - 2 by omega] at hl
  have hlt_l : (i + rm.numPlayers - 2) % rm.numPlayers < rm.numPlayers := Nat.mod_lt _ (by omega)
  have hlt_r : i % rm.numPlayers < rm.numPlayers := Nat.mod_lt _ (by omega)
  obtain ⟨pll, hpll, hidl, -, hrl, -⟩ :=
    neighborId_ready rm hready (by omega) ((i + rm.numPlayers - 2) % rm.numPlayers) hlt_l
  obtain ⟨plr, hplr, hidr, -, -, hlr⟩ :=
    neighborId_ready rm hready (by omega) (i % rm.numPlayers) hlt_r
  have hlr := hlr hN
  have e1 : ((i + rm.numPlayers - 2) % rm.numPlayers + 1) % rm.numPlayers + 1 = i := by
    rw [mod_two_range (i + rm.numPlayers - 2) _ (by omega)]
    split
    · rw [mod_two_range _ _ (by omega)]
      split <;> omega
    · rw [mod_two_range _ _ (by omega)]
      split <;> omega
  have e2 : (i % rm.numPlayers + rm.numPlayers - 1) % rm.numPlayers + 1 = i := by
    rw [mod_two_range i _ (by omega)]
    split
    · rw [mod_two_range _ _ (by omega)]
      split <;> omega
    · rw [mod_two_range _ _ (by omega)]
      split <;> omega
  refine ⟨rm, pl, pll, plr, hinit, hnum, hpl, hid, ?_, ?_, ?_, ?_, ?_, ?_, ?_, ?_⟩
  · rw [hr, Int.natCast_mod]
  · rw [hl, Int.natCast_mod]
    congr 2
    omega
  · rw [hl]
    simpa using hpll
  · rw [hl, hidl]
    push_cast
    rfl
  · rw [hrl]
    exact_mod_cast e1
  · rw [hr]
    simpa using hplr
  · rw [hr, hidr]
    push_cast
    rfl
  · rw [hlr]
    exact_mod_cast e2

/-- Witness for C3: the player with identity 1 among the three example
connections. -/
theorem ring_adjacency_witness :
    ∃ rm pl pl_left pl_right,
      initializePlayers (Ringmaster.new 4000 3) threeArrivals = .ok rm
      ∧ rm.numPlayers = (Ringmaster.new 4000 3).numPlayers
      ∧ playerAt rm (1 - 1) = .ok pl ∧ pl.my_id = 1
      ∧ pl.neighborId 0 = ((1 : Nat) : Int) % (rm.numPlayers : Int) + 1
      ∧ pl.neighborId 1
          = (((1 : Nat) : Int) - 2 + (rm.numPlayers : Int)) % (rm.numPlayers : Int) + 1
      ∧ playerAt rm ((pl.neighborId 1).toNat - 1) = .ok pl_left
      ∧ (pl_left.my_id : Int) = pl.neighborId 1
      ∧ pl_left.neighborId 0 = ((1 : Nat) : Int)
      ∧ playerAt rm ((pl.neighborId 0).toNat - 1) = .ok pl_right
      ∧ (pl_right.my_id : Int) = pl.neighborId 0
      ∧ pl_right.neighborId 1 = ((1 : Nat) : Int) :=
  ring_adjacency 4000 3 threeArrivals 1 (by decide) (by decide) (by decide) (by decide)
    (by decide) (by decide)

/-- C9. Forwarding step: in a ring of `N ≥ 2` players set up by the
Coordinator, the player with identity `i`, handed a potato with hop count
`h > 0` and a trace length from 0 to 511, returns 1 from `passPotato` and sends
exactly one record, with hop count `h - 1` and with `i` appended to the trace;
the record goes out on the right-neighbour connection when `N = 2`, and when
`N > 2` on the right one if the random value is even and on the left one if it
is odd, never to the Coordinator; and the identity it prints is the identity
of the player at the far end of the connection it used. -/
theorem forwarding_step (port n : Int) (arrivals : List Accepted) (i : Nat)
    (potato : Potato) (rnd : Nat)
    (hN : 2 ≤ (Ringmaster.new port n).numPlayers)
    (hlen : (Ringmaster.new port n).numPlayers ≤ arrivals.length)
    (hsent : ∀ a ∈ arrivals, 2 ≤ a.sent.length)
    (haddr : ∀ a ∈ arrivals, dottedAddress a.address = true)
    (hi1 : 1 ≤ i) (hiN : i ≤ (Ringmaster.new port n).numPlayers)
    (hh : 0 < potato.getHops) (h0 : 0 ≤ potato.traceLength)
    (hlt : potato.traceLength < 512) (hslots : potato.trace.length = 512) :
    ∃ rm pl dest record peer,
      initializePlayers (Ringmaster.new port n) arrivals = .ok rm
      ∧ rm.numPlayers = (Ringmaster.new port n).numPlayers
      ∧ playerAt rm (i - 1) = .ok pl ∧ pl.my_id = i
      ∧ (passPotato pl potato rnd).code = 1
      ∧ (passPotato pl potato rnd).sent = [(dest, record)]
      ∧ record.getHops = potato.getHops - 1
      ∧ record.getTraceLength = potato.getTraceLength + 1
      ∧ record.visited = potato.visited ++ [(i : Int)]
      ∧ dest ≠ Conn.ringmaster
      ∧ (rm.numPlayers = 2 → dest = Conn.rightPlayer)
      ∧ (rm.numPlayers > 2 → rnd % 2 = 0 → dest = Conn.rightPlayer)
      ∧ (rm.numPlayers > 2 → rnd % 2 = 1 → dest = Conn.leftPlayer)
      ∧ playerAt rm (if dest = Conn.rightPlayer then rightPeer rm.numPlayers (i - 1)
          else leftPeer rm.numPlayers (i - 1)) = .ok peer
      ∧ (passPotato pl potato rnd).printed = [Printed.sendingPotatoTo (peer.my_id : Int)] := by
  obtain ⟨rm, hinit, hnum, hready⟩ := setup_ready port n arrivals hlen hsent haddr
  rw [← hnum] at hN hiN
  have hb := hready.bound
  have hk : i - 1 < rm.numPlayers := by omega
  obtain ⟨pl, hpl, hid, hplN, hr, hl⟩ := neighborId_ready rm hready hN (i - 1) hk
  rw [show i - 1 + 1 = i by omega] at hr hid
  have hlt_r : i % rm.numPlayers < rm.numPlayers := Nat.mod_lt _ (by omega)
  have hlt_l : (i - 1 + rm.numPlayers - 1) % rm.numPlayers < rm.numPlayers :=
    Nat.mod_lt _ (by omega)
  obtain ⟨plr, hplr, hidr, -⟩ := neighborId_ready rm hready hN (i % rm.numPlayers) hlt_r
  obtain ⟨pll, hpll, hidl, -⟩ :=
    neighborId_ready rm hready hN ((i - 1 + rm.numPlayers - 1) % rm.numPlayers) hlt_l
  have hrp : rightPeer rm.numPlayers (i - 1) = i % rm.numPlayers := by
    rw [rightPeer, rightIndex_eq _ _ hk hb, show i - 1 + 1 = i by omega]
  have hlp : leftPeer rm.numPlayers (i - 1) = (i - 1 + rm.numPlayers - 1) % rm.numPlayers :=
    leftPeer_eq _ _ hk hb
  have hrec_hops : (potato.decrementHops.addTrace pl.my_id).getHops = potato.getHops - 1 := by
    unfold Potato.getHops at *
    rw [Potato.addTrace_hops, Potato.decrementHops_hops_of_pos potato hh]
  have hrec_len : (potato.decrementHops.addTrace pl.my_id).getTraceLength
      = potato.getTraceLength + 1 := by
    unfold Potato.getTraceLength
    rw [Potato.addTrace_traceLength_lt _ _ (by rw [Potato.decrementHops_traceLength]; exact hlt),
      Potato.decrementHops_traceLength]
  have hrec_vis : (potato.decrementHops.addTrace pl.my_id).visited
      = potato.visited ++ [(i : Int)] := by
    rw [Potato.addTrace_visited _ _ (by rw [Potato.decrementHops_traceLength]; exact h0)
      (by rw [Potato.decrementHops_traceLength]; exact hlt)
      (by rw [Potato.decrementHops_trace]; exact hslots), hid]
    unfold Potato.visited
    rw [Potato.decrementHops_trace, Potato.decrementHops_traceLength]
  have hfw := passPotato_forward pl potato rnd hh
  by_cases hright : rm.numPlayers = 2 ∨ rnd % 2 = 0
  · refine ⟨rm, pl, Conn.rightPlayer, _, plr, hinit, hnum, hpl, hid, by rw [hfw], ?_,
      hrec_hops, hrec_len, hrec_vis, by decide, fun _ => rfl, fun _ _ => rfl, ?_, ?_, ?_⟩
    · rw [hfw, hplN]
      rcases hright with h2 | h0
      · simp [h2]
      · by_cases h2 : rm.numPlayers = 2 <;> simp [h2, h0]
    · intro h2 h1
      omega
    · rw [if_pos rfl, hrp]
      exact hplr
    · rw [hfw, hplN, hidr, hr]
      rcases hright with h2 | h0
      · simp [h2]
      · by_cases h2 : rm.numPlayers = 2 <;> simp [h2, h0]
  · have h2 : ¬ rm.numPlayers = 2 := fun e => hright (Or.inl e)
    have hodd : ¬ rnd % 2 = 0 := fun e => hright (Or.inr e)
    refine ⟨rm, pl, Conn.leftPlayer, _, pll, hinit, hnum, hpl, hid, by rw [hfw], ?_,
      hrec_hops, hrec_len, hrec_vis, by decide, fun e => absurd e h2,
      fun _ e => absurd e hodd, fun _ _ => rfl, ?_, ?_⟩
    · rw [hfw, hplN]
      simp [h2, hodd]
    · rw [if_neg (by decide), hlp]
      exact hpll
    · rw [hfw, hplN, hidl, hl (by omega)]
      simp [h2, hodd]

/-- Witness for C9: the player with identity 1 among the three example
connections forwards `Potato(3)` on an odd random value. -/
theorem forwarding_step_witness :
    ∃ rm pl dest record peer,
      initializePlayers (Ringmaster.new 4000 3) threeArrivals = .ok rm
      ∧ rm.numPlayers = (Ringmaster.new 4000 3).numPlayers
      ∧ playerAt rm (1 - 1) = .ok pl ∧ pl.my_id = 1
      ∧ (passPotato pl (Potato.new 3) 7).code = 1
      ∧ (passPotato pl (Potato.new 3) 7).sent = [(dest, record)]
      ∧ record.getHops = (Potato.new 3).getHops - 1
      ∧ record.getTraceLength = (Potato.new 3).getTraceLength + 1
      ∧ record.visited = (Potato.new 3).visited ++ [((1 : Nat) : Int)]
      ∧ dest ≠ Conn.ringmaster
      ∧ (rm.numPlayers = 2 → dest = Conn.rightPlayer)
      ∧ (rm.numPlayers > 2 → 7 % 2 = 0 → dest = Conn.rightPlayer)
      ∧ (rm.numPlayers > 2 → 7 % 2 = 1 → dest = Conn.leftPlayer)
      ∧ playerAt rm (if dest = Conn.rightPlayer then rightPeer rm.numPlayers (1 - 1)
          else leftPeer rm.numPlayers (1 - 1)) = .ok peer
      ∧ (passPotato pl (Potato.new 3) 7).printed = [Printed.sendingPotatoTo (peer.my_id : Int)] :=
  forwarding_step 4000 3 threeArrivals 1 (Potato.new 3) 7 (by decide) (by decide) (by decide)
    (by decide) (by decide) (by decide) (by decide) (by decide) (by decide) (by decide)

/-! ## Claims about the methods of the potato and `sendPotato` -/

/-- C18. `addTrace` appends at the end: on a potato with 512 trace slots and
a trace length `L` with `0 ≤ L < 512`, after `addTrace(p)` the trace length is
`L + 1`, the slot with index `L` holds `p`, every other slot (so every entry
at an index `0 .. L - 1`) is as before, the entries in use are the old ones
followed by `p`, and the hop count is as before; on a potato with trace length
512, `addTrace(p)` leaves the potato as it was. -/
theorem addTrace_appends (p : Potato) (playerId : Int)
    (h0 : 0 ≤ p.traceLength) (hslots : p.trace.length = 512) :
    (p.traceLength < 512 →
      (p.addTrace playerId).getTraceLength = p.getTraceLength + 1
      ∧ (p.addTrace playerId).getTrace[p.traceLength.toNat]? = some playerId
      ∧ (∀ j, j ≠ p.traceLength.toNat →
          (p.addTrace playerId).getTrace[j]? = p.getTrace[j]?)
      ∧ (p.addTrace playerId).visited = p.visited ++ [playerId]
      ∧ (p.addTrace playerId).getHops = p.getHops)
    ∧ (p.traceLength = 512 → p.addTrace playerId = p) := by
  refine ⟨fun hlt => ⟨Potato.addTrace_traceLength_lt p playerId hlt, ?_, ?_,
    Potato.addTrace_visited p playerId h0 hlt hslots, Potato.addTrace_hops p playerId⟩,
    fun h512 => Potato.addTrace_full p playerId (by omega)⟩
  · unfold Potato.getTrace Potato.addTrace
    rw [if_pos hlt]
    exact List.getElem?_set_self (by omega)
  · intro j hj
    unfold Potato.getTrace Potato.addTrace
    rw [if_pos hlt]
    exact List.getElem?_set_ne (Ne.symm hj)

/-- Witness for C18: the fresh potato `Potato(3)` and player 2. -/
theorem addTrace_appends_witness :
    ((Potato.new 3).traceLength < 512 →
      ((Potato.new 3).addTrace 2).getTraceLength = (Potato.new 3).getTraceLength + 1
      ∧ ((Potato.new 3).addTrace 2).getTrace[(Potato.new 3).traceLength.toNat]? = some 2
      ∧ (∀ j, j ≠ (Potato.new 3).traceLength.toNat →
          ((Potato.new 3).addTrace 2).getTrace[j]? = (Potato.new 3).getTrace[j]?)
      ∧ ((Potato.new 3).addTrace 2).visited = (Potato.new 3).visited ++ [2]
      ∧ ((Potato.new 3).addTrace 2).getHops = (Potato.new 3).getHops)
    ∧ ((Potato.new 3).traceLength = 512 → (Potato.new 3).addTrace 2 = Potato.new 3) :=
  addTrace_appends (Potato.new 3) 2 (by decide) (by decide)

/-- C19. `decrementHops`: on a potato with hop count `h > 0` the hop count
becomes `h - 1`; on a potato with hop count 0 or negative (the sentinels -1 and
-2 among them) the potato stays as it was; in both cases the trace and the
trace length are as before. -/
theorem decrementHops_spec (p : Potato) :
    (0 < p.getHops → p.decrementHops.getHops = p.getHops - 1)
    ∧ (p.getHops ≤ 0 → p.decrementHops = p)
    ∧ (Potato.new (-1)).decrementHops = Potato.new (-1)
    ∧ (Potato.new (-2)).decrementHops = Potato.new (-2)
    ∧ p.decrementHops.getTrace = p.getTrace
    ∧ p.decrementHops.getTraceLength = p.getTraceLength := by
  refine ⟨fun h => Potato.decrementHops_hops_of_pos p h, fun h => ?_, by decide, by decide,
    Potato.decrementHops_trace p, Potato.decrementHops_traceLength p⟩
  unfold Potato.decrementHops
  rw [if_neg (by unfold Potato.getHops at h; omega)]

/-- C20. `createPotato`: for every integer `H`, `createPotato(H)` is the
potato `Potato(H)`: its `getHops` is `H`, its trace length is 0, and its trace
has 512 slots, all 0. -/
theorem createPotato_fresh (H : Int) :
    createPotato H = Potato.new H
    ∧ (createPotato H).getHops = H
    ∧ (createPotato H).getTraceLength = 0
    ∧ (createPotato H).getTrace.length = 512
    ∧ (∀ x ∈ (createPotato H).getTrace, x = 0)
    ∧ (createPotato H).visited = [] := by
  refine ⟨rfl, rfl, rfl, ?_, ?_, rfl⟩
  · simp [createPotato, Potato.new, Potato.getTrace, traceCapacity]
  · intro x hx
    simp only [createPotato, Potato.new, Potato.getTrace] at hx
    exact List.eq_of_mem_replicate hx

/-- C11. The result of `sendPotato`: in every state of the Coordinator (it
never holds more sockets than `numPlayers`) and for every potato with a
positive hop count, `sendPotato` returns -1 exactly when there is no player
socket, and then writes nothing; otherwise it writes exactly one record, to
the socket with an index below `numPlayers`, returns that index, and the
record has a hop count one less than the potato had and the same trace and
trace length. -/
theorem sendPotato_result (rm : Ringmaster) (potato : Potato) (rnd : Nat)
    (hh : 0 < potato.getHops) (hsockets : rm.playerInfos.length ≤ rm.numPlayers) :
    ((sendPotato rm potato rnd).code = -1 ↔ rm.playerInfos = [])
    ∧ (rm.playerInfos = [] → (sendPotato rm potato rnd).sent = [])
    ∧ (rm.playerInfos ≠ [] →
        ∃ index record, index < rm.numPlayers
          ∧ (sendPotato rm potato rnd).sent = [(index, record)]
          ∧ (sendPotato rm potato rnd).code = (index : Int)
          ∧ record.getHops = potato.getHops - 1
          ∧ record.getTrace = potato.getTrace
          ∧ record.getTraceLength = potato.getTraceLength) := by
  refine ⟨?_, ?_, ?_⟩
  · by_cases he : rm.playerInfos = []
    · simp [sendPotato, he]
    · simp only [sendPotato, List.isEmpty_iff, he, if_false, iff_false]
      omega
  · intro he
    simp [sendPotato, he]
  · intro he
    have hpos : 0 < rm.numPlayers := by
      have : 0 < rm.playerInfos.length := List.length_pos.mpr he
      omega
    refine ⟨rnd % rm.numPlayers, potato.decrementHops, Nat.mod_lt _ hpos, ?_, ?_,
      Potato.decrementHops_hops_of_pos potato hh, Potato.decrementHops_trace potato,
      Potato.decrementHops_traceLength potato⟩
    · simp [sendPotato, he]
    · simp [sendPotato, he]

/-- Witness for C11: the Coordinator of the three example players releases
`Potato(4)` with the random value 7. -/
theorem sendPotato_result_witness :
    ((sendPotato threePlayers (Potato.new 4) 7).code = -1 ↔ threePlayers.playerInfos = [])
    ∧ (threePlayers.playerInfos = [] → (sendPotato threePlayers (Potato.new 4) 7).sent = [])
    ∧ (threePlayers.playerInfos ≠ [] →
        ∃ index record, index < threePlayers.numPlayers
          ∧ (sendPotato threePlayers (Potato.new 4) 7).sent = [(index, record)]
          ∧ (sendPotato threePlayers (Potato.new 4) 7).code = (index : Int)
          ∧ record.getHops = (Potato.new 4).getHops - 1
          ∧ record.getTrace = (Potato.new 4).getTrace
          ∧ record.getTraceLength = (Potato.new 4).getTraceLength) :=
  sendPotato_result threePlayers (Potato.new 4) 7 (by decide) (by decide)

/-! ## Claims about the end of the game -/

/-- C16. Zero hop budget: with at least two players and a hop budget of 0,
`startGame` returns 0 and writes no potato record; the program then calls
`endGame` with game information 0, which is the shutdown handshake `tidyUp`,
whatever the ring does and without any wait for a potato; the potato records
the Coordinator writes are exactly one sentinel `Potato(-2)` per player
socket; and a player that reads the sentinel sends no record and leaves its
loop. -/
theorem zero_hop_budget (rm : Ringmaster) (ring : Nat → Player) (rnd : Nat → Nat)
    (fuel : Nat) (pl : Player) (r : Nat) (rest : List (Readiness × Nat))
    (hN : 2 ≤ rm.numPlayers) :
    startGame rm 0 (rnd 0) = (0, [])
    ∧ ringmasterMain rm ring 0 rnd fuel = some (endGame rm (Potato.new 0) 0)
    ∧ endGame rm (Potato.new 0) 0 = tidyUp rm "Game over. Shutting down...".toList
    ∧ (∀ socket record,
        CoordAction.sendRecord socket record ∈ endGame rm (Potato.new 0) 0 ↔
          socket < rm.numPlayers ∧ record = Potato.new (-2))
    ∧ (Potato.new (-2)).getHops = -2
    ∧ playerLoop pl ((arrival 0 (Potato.new (-2)), r) :: rest) = ([], .shutdown rest.length) := by
  have hstart : startGame rm 0 (rnd 0) = (0, []) := by simp [startGame]
  refine ⟨hstart, ?_, ?_, ?_, rfl, ?_⟩
  · unfold ringmasterMain
    rw [if_neg (by omega), hstart]
    simp
  · simp [endGame]
  · intro socket record
    simp only [endGame, if_pos, tidyUp, sendShutdownSignal, sendFinalMessage, List.mem_append,
      List.mem_map, List.mem_range, List.mem_flatMap, List.mem_cons, List.mem_singleton,
      List.not_mem_nil, or_false, exists_exists_and_eq_and, CoordAction.sendRecord.injEq,
      reduceCtorEq, and_false, exists_false]
    constructor
    · rintro ⟨i, hi, rfl, rfl⟩
      exact ⟨hi, rfl⟩
    · rintro ⟨hs, rfl⟩
      exact ⟨socket, hs, rfl, rfl⟩
  · rw [playerLoop, middleGame_arrival pl 0 _ r (by omega)]
    have hp : passPotato pl (Potato.new (-2)) r
        = { code := -2, potato := Potato.new (-2), sent := [], printed := [] } := by
      unfold passPotato
      rw [if_pos (show (Potato.new (-2)).getHops = -2 from rfl)]
    rw [hp]
    simp

/-- Witness for C16: the three example players and a hop budget of 0. -/
theorem zero_hop_budget_witness :
    startGame threePlayers 0 ((fun k => k) 0) = (0, [])
    ∧ ringmasterMain threePlayers (setUpRing threePlayers) 0 (fun k => k) 0
        = some (endGame threePlayers (Potato.new 0) 0)
    ∧ endGame threePlayers (Potato.new 0) 0
        = tidyUp threePlayers "Game over. Shutting down...".toList
    ∧ (∀ socket record,
        CoordAction.sendRecord socket record ∈ endGame threePlayers (Potato.new 0) 0 ↔
          socket < threePlayers.numPlayers ∧ record = Potato.new (-2))
    ∧ (Potato.new (-2)).getHops = -2
    ∧ playerLoop (setUpRing threePlayers 1) ((arrival 0 (Potato.new (-2)), 5) :: [])
        = ([], .shutdown ([] : List (Readiness × Nat)).length) :=
  zero_hop_budget threePlayers (setUpRing threePlayers) (fun k => k) 0
    (setUpRing threePlayers 1) 5 [] (by decide)

/-! ## Facts and claims about the entries of the trace -/

theorem Potato.addTrace_visited_mem (p : Potato) (playerId : Int)
    (h0 : 0 ≤ p.traceLength) (hslots : p.trace.length = 512) :
    ∀ x ∈ (p.addTrace playerId).visited, x ∈ p.visited ∨ x = playerId := by
  intro x hx
  by_cases hlt : p.traceLength < 512
  · rw [Potato.addTrace_visited p playerId h0 hlt hslots] at hx
    simpa using hx
  · rw [Potato.addTrace_full p playerId hlt] at hx
    exact Or.inl hx

theorem Potato.decrementHops_visited (p : Potato) : p.decrementHops.visited = p.visited := by
  unfold Potato.visited
  rw [Potato.decrementHops_trace, Potato.decrementHops_traceLength]

/-- The entries in use of the record that comes back from the relay are
entries in use of the record that entered it or identities of ring players at
positions below `n`. -/
theorem relay_visited (ring : Nat → Player) (n : Nat) (rnd : Nat → Nat) (lo hi : Int)
    (hring : ∀ j, j < n → lo ≤ ((ring j).my_id : Int) ∧ ((ring j).my_id : Int) ≤ hi) :
    ∀ (h fuel step holder via : Nat) (record : Potato) (k : Nat),
      via < 3 → holder < n → record.hops = (h : Int) → h < fuel →
      record.traceLength = (k : Int) → k ≤ 512 → record.trace.length = 512 →
      (∀ x ∈ record.visited, lo ≤ x ∧ x ≤ hi) →
      ∃ sender final,
        (relay ring n rnd fuel step holder via record).2 = some (sender, final)
        ∧ final.trace.length = 512
        ∧ (∀ x ∈ final.visited, lo ≤ x ∧ x ≤ hi) := by
  intro h
  induction h with
  | zero =>
    intro fuel step holder via record k hvia hholder hh hfuel hk hk512 hslots hvis
    obtain ⟨f, rfl⟩ : ∃ f, fuel = f + 1 := ⟨fuel - 1, by omega⟩
    rw [relay_final ring n rnd f step holder via record hvia (by simpa [Potato.getHops] using hh)]
    refine ⟨holder, _, rfl, by rw [Potato.addTrace_trace_length, hslots], ?_⟩
    intro x hx
    rcases Potato.addTrace_visited_mem record _ (by omega) hslots x hx with hx | hx
    · exact hvis x hx
    · rw [hx]; exact hring holder hholder
  | succ h ih =>
    intro fuel step holder via record k hvia hholder hh hfuel hk hk512 hslots hvis
    obtain ⟨f, rfl⟩ : ∃ f, fuel = f + 1 := ⟨fuel - 1, by omega⟩
    have hpos : 0 < record.getHops := by unfold Potato.getHops; omega
    obtain ⟨conn, next, via2, hvia2, hnext, hrel⟩ :=
      relay_forward ring n rnd f step holder via record hvia hpos
    have hh2 : (record.decrementHops.addTrace (ring holder).my_id).hops = (h : Int) := by
      rw [Potato.addTrace_hops, Potato.decrementHops_hops_of_pos record hpos, hh]
      push_cast
      omega
    have hk2 : (record.decrementHops.addTrace (ring holder).my_id).traceLength
        = ((min (k + 1) 512 : Nat) : Int) :=
      Potato.addTrace_traceLength_min _ _ k
        (by rw [Potato.decrementHops_traceLength, hk]) hk512
    have hslots2 : (record.decrementHops.addTrace (ring holder).my_id).trace.length = 512 := by
      rw [Potato.addTrace_trace_length, Potato.decrementHops_trace, hslots]
    have hvis2 : ∀ x ∈ (record.decrementHops.addTrace (ring holder).my_id).visited,
        lo ≤ x ∧ x ≤ hi := by
      intro x hx
      rcases Potato.addTrace_visited_mem record.decrementHops _
        (by rw [Potato.decrementHops_traceLength]; omega)
        (by rw [Potato.decrementHops_trace, hslots]) x hx with hx | hx
      · rw [Potato.decrementHops_visited] at hx
        exact hvis x hx
      · rw [hx]; exact hring holder hholder
    obtain ⟨sender, final, hres, hfs, hfv⟩ :=
      ih f (step + 1) next via2 _ (min (k + 1) 512) hvia2 (hnext hholder) hh2 (by omega) hk2
        (Nat.min_le_right _ _) hslots2 hvis2
    rw [hrel]
    exact ⟨sender, final, hres, hfs, hfv⟩

theorem setUpRing_my_id (rm : Ringmaster) (h : RingReady rm) (hN : 2 ≤ rm.numPlayers)
    (j : Nat) (hj : j < rm.numPlayers) : (setUpRing rm j).my_id = j + 1 := by
  unfold setUpRing
  rw [playerAt_ready rm h hN j hj]

theorem visited_getElem (p : Potato) (j : Nat) (hj : (j : Int) < p.traceLength)
    (hslots : p.trace.length = 512) (h512 : p.traceLength ≤ 512) :
    ∃ x, p.getTrace[j]? = some x ∧ x ∈ p.visited := by
  have hjl : j < p.trace.length := by omega
  refine ⟨p.trace[j], List.getElem?_eq_getElem hjl, ?_⟩
  unfold Potato.visited
  rw [List.mem_take_iff_getElem]
  exact ⟨j, by rw [hslots]; omega, rfl⟩

/-- C17. Trace entries are identities: in a ring of `N ≥ 2` players set up by
the Coordinator, for every hop budget `H ≥ 1` and every sequence of random
values, the relay started by `sendPotato` on `createPotato(H)` returns a potato
to the Coordinator (any bound of at least `H` on the number of `passPotato`
calls is enough), and every entry of its trace at an index below its trace
length is a player identity between 1 and `N`. -/
theorem trace_entries_are_identities (port n : Int) (arrivals : List Accepted) (H : Int)
    (rnd : Nat → Nat) (fuel : Nat)
    (hN : 2 ≤ (Ringmaster.new port n).numPlayers)
    (hlen : (Ringmaster.new port n).numPlayers ≤ arrivals.length)
    (hsent : ∀ a ∈ arrivals, 2 ≤ a.sent.length)
    (haddr : ∀ a ∈ arrivals, dottedAddress a.address = true)
    (hH : 1 ≤ H) (hfuel : H ≤ (fuel : Int)) :
    ∃ rm sender final,
      initializePlayers (Ringmaster.new port n) arrivals = .ok rm
      ∧ rm.numPlayers = (Ringmaster.new port n).numPlayers
      ∧ (relayFrom rm (setUpRing rm) (createPotato H) rnd fuel).2 = some (sender, final)
      ∧ ∀ j : Nat, (j : Int) < final.getTraceLength →
          ∃ x, final.getTrace[j]? = some x ∧ 1 ≤ x ∧ x ≤ (rm.numPlayers : Int) := by
  obtain ⟨rm, hinit, hnum, hready⟩ := setup_ready port n arrivals hlen hsent haddr
  rw [← hnum] at hN
  have hne : rm.playerInfos ≠ [] := by
    intro e
    have := hready.size
    rw [e] at this
    simp at this
    omega
  have hring : ∀ j, j < rm.numPlayers →
      (1 : Int) ≤ ((setUpRing rm j).my_id : Int)
        ∧ ((setUpRing rm j).my_id : Int) ≤ (rm.numPlayers : Int) := by
    intro j hj
    rw [setUpRing_my_id rm hready hN j hj]
    omega
  obtain ⟨h, rfl⟩ : ∃ h : Nat, H = ((h + 1 : Nat) : Int) := ⟨(H - 1).toNat, by omega⟩
  have hdec : (createPotato ((h + 1 : Nat) : Int)).decrementHops.hops = (h : Int) := by
    rw [Potato.decrementHops_hops_of_pos _ (by simp [createPotato, Potato.new])]
    simp [createPotato, Potato.new]
  have hslots : (createPotato ((h + 1 : Nat) : Int)).decrementHops.trace.length = 512 := by
    rw [Potato.decrementHops_trace]
    simp [createPotato, Potato.new, traceCapacity]
  have hvis : ∀ x ∈ (createPotato ((h + 1 : Nat) : Int)).decrementHops.visited,
      (1 : Int) ≤ x ∧ x ≤ (rm.numPlayers : Int) := by
    intro x hx
    rw [Potato.decrementHops_visited] at hx
    simp [createPotato, Potato.new, Potato.visited] at hx
  obtain ⟨sender, final, hres, hfslots, hfvis⟩ :=
    relay_visited (setUpRing rm) rm.numPlayers rnd 1 rm.numPlayers hring h fuel 1
      (rnd 0 % rm.numPlayers) 0 _ 0 (by omega) (Nat.mod_lt _ (by omega)) hdec (by omega)
      (Potato.decrementHops_traceLength _) (by omega) hslots hvis
  obtain ⟨sender2, final2, hres2, -, -, hftl, -⟩ :=
    relay_returns (setUpRing rm) rm.numPlayers rnd h fuel 1 (rnd 0 % rm.numPlayers) 0
      (createPotato ((h + 1 : Nat) : Int)).decrementHops 0 (by omega)
      (Nat.mod_lt _ (by omega)) hdec (by omega)
      (Potato.decrementHops_traceLength _) (by omega)
  rw [hres] at hres2
  obtain ⟨-, rfl⟩ : sender = sender2 ∧ final = final2 := by simpa using hres2
  have h512 : final.traceLength ≤ 512 := by
    rw [hftl]
    have : min (0 + h + 1) 512 ≤ 512 := Nat.min_le_right _ _
    exact_mod_cast this
  refine ⟨rm, sender, final, hinit, hnum, ?_, ?_⟩
  · unfold relayFrom
    rw [sendPotato_sent rm _ _ hne]
    exact hres
  · intro j hj
    obtain ⟨x, hx, hmem⟩ := visited_getElem final j hj hfslots h512
    exact ⟨x, hx, hfvis x hmem⟩

/-- Witness for C17: the three example connections and a hop budget of 4. -/
theorem trace_entries_are_identities_witness :
    ∃ rm sender final,
      initializePlayers (Ringmaster.new 4000 3) threeArrivals = .ok rm
      ∧ rm.numPlayers = (Ringmaster.new 4000 3).numPlayers
      ∧ (relayFrom rm (setUpRing rm) (createPotato 4) (fun k => k) 4).2 = some (sender, final)
      ∧ ∀ j : Nat, (j : Int) < final.getTraceLength →
          ∃ x, final.getTrace[j]? = some x ∧ 1 ≤ x ∧ x ≤ (rm.numPlayers : Int) :=
  trace_entries_are_identities 4000 3 threeArrivals 4 (fun k => k) 4 (by decide) (by decide)
    (by decide) (by decide) (by decide) (by decide)

/-! ## Facts about the neighbour block for any stored address -/

theorem RingReady.listed (rm : Ringmaster) (h : RingReady rm) : RingListed rm :=
  ⟨h.size, h.bound, h.ids, h.ports, fun k hk =>
    ⟨by have := (dottedAddress_spec _ (h.addresses k hk)).1; omega,
      (dottedAddress_spec _ (h.addresses k hk)).2⟩⟩

theorem getNeighborInfo_listed (rm : Ringmaster) (h : RingListed rm) (j : Nat)
    (hj : j < rm.numPlayers) :
    getNeighborInfo (rm.infoAt j)
        = to_string (j : Int) ++ [':'] ++ (rm.infoAt j).address ++ [':']
            ++ to_string ((rm.infoAt j).port : Int)
    ∧ (getNeighborInfo (rm.infoAt j)).length ≤ 57
    ∧ ∀ x ∈ getNeighborInfo (rm.infoAt j), x ≠ '\n' := by
  have hid := h.ids j hj
  have hport := h.ports j hj
  have haddr := h.addresses j hj
  have hb := h.bound
  have e : getNeighborInfo (rm.infoAt j)
        = to_string (j : Int) ++ [':'] ++ (rm.infoAt j).address ++ [':']
            ++ to_string ((rm.infoAt j).port : Int) := by
    rw [getNeighborInfo, hid]
  refine ⟨e, ?_, ?_⟩
  · rw [e]
    have h1 := to_string_length j (by omega)
    have h2 := to_string_length (rm.infoAt j).port (by omega)
    simp only [List.length_append, List.length_singleton]
    omega
  · rw [e]
    intro x hx
    simp only [List.mem_append, List.mem_singleton] at hx
    rcases hx with (((hx | hx) | hx) | hx) | hx
    · exact (to_string_no_special j x hx).2
    · rw [hx]; decide
    · exact (haddr.2 x hx).2
    · rw [hx]; decide
    · exact (to_string_no_special _ x hx).2

theorem parseString_listed (rm : Ringmaster) (h : RingListed rm) (j : Nat)
    (hj : j < rm.numPlayers) (tail : List Char)
    (htail : ∀ c, tail.head? = some c → c.isDigit = false) :
    parseString (getNeighborInfo (rm.infoAt j) ++ tail)
      = .ok { id := (j : Int) + 1, address := (rm.infoAt j).address,
              port := (rm.infoAt j).port } := by
  have hb := h.bound
  have hport := h.ports j hj
  rw [(getNeighborInfo_listed rm h j hj).1,
    parseString_line j (rm.infoAt j).port _ tail (by omega) (by omega)
      (fun x hx => ((h.addresses j hj).2 x hx).1) htail]

theorem neighborText_listed (rm : Ringmaster) (h : RingListed rm) (hN : 2 ≤ rm.numPlayers)
    (k : Nat) :
    (neighborText rm k).length < 65536
    ∧ findChar '\n' (neighborText rm k)
        = some (getNeighborInfo (rm.infoAt (rightIndex rm.numPlayers k))).length
    ∧ substr (neighborText rm k) 0
          (getNeighborInfo (rm.infoAt (rightIndex rm.numPlayers k))).length
        = getNeighborInfo (rm.infoAt (rightIndex rm.numPlayers k))
    ∧ (rm.numPlayers > 2 →
        (neighborText rm k).drop
            ((getNeighborInfo (rm.infoAt (rightIndex rm.numPlayers k))).length + 1)
          = getNeighborInfo (rm.infoAt (leftIndex rm.numPlayers k)) ++ ['\n']) := by
  have hr := getNeighborInfo_listed rm h _ (rightIndex_lt rm.numPlayers k (by omega))
  have hl := getNeighborInfo_listed rm h _ (leftIndex_lt rm.numPlayers k (by omega))
  by_cases h2 : rm.numPlayers > 2
  · have e : neighborText rm k
        = getNeighborInfo (rm.infoAt (rightIndex rm.numPlayers k))
          ++ '\n' :: (getNeighborInfo (rm.infoAt (leftIndex rm.numPlayers k)) ++ ['\n']) := by
      simp [neighborText, h2]
    rw [e]
    refine ⟨?_, findChar_append '\n' _ _ hr.2.2, ?_, fun _ => drop_length_succ_append _ _ _⟩
    · simp only [List.length_append, List.length_cons, List.length_nil]
      omega
    · rw [substr, List.drop_zero, take_length_append]
  · have e : neighborText rm k
        = getNeighborInfo (rm.infoAt (rightIndex rm.numPlayers k)) ++ '\n' :: [] := by
      simp [neighborText, h2]
    rw [e]
    refine ⟨?_, findChar_append '\n' _ _ hr.2.2, ?_, fun h3 => absurd h3 h2⟩
    · simp only [List.length_append, List.length_cons, List.length_nil]
      omega
    · rw [substr, List.drop_zero, take_length_append]

theorem stream_listed (rm : Ringmaster) (h : RingListed rm) (hN : 2 ≤ rm.numPlayers)
    (k : Nat) (hk : k < rm.numPlayers) :
    (sendInfoToPlayers rm).getD k [] = bytesForPlayer rm k
    ∧ bytesForPlayer rm k
      = htons k ++ (htons rm.numPlayers
          ++ (htons (neighborText rm k).length ++ (neighborText rm k).map Char.toNat)) := by
  have hb := h.bound
  have hown : sendPlayerOwnInfo (rm.infoAt k) = htons k := by
    rw [sendPlayerOwnInfo, h.ids k hk]
    congr 1
    omega
  constructor
  · unfold sendInfoToPlayers
    rw [if_neg (by omega)]
    simp [List.getD, List.getElem?_range, h.size, hk]
  · rw [bytesForPlayer, hown, sendTotalNumberOfPlayers]
    simp

theorem receiveInfo_listed (rm : Ringmaster) (h : RingListed rm) (hN : 2 ≤ rm.numPlayers)
    (k : Nat) (hk : k < rm.numPlayers) :
    receiveInfoFromRingmaster ((sendInfoToPlayers rm).getD k []) = .ok
      { my_id := k + 1, numPlayers := rm.numPlayers,
        neighborInfos :=
          if rm.numPlayers > 2 then
            [{ id := (rightIndex rm.numPlayers k : Int) + 1,
               address := (rm.infoAt (rightIndex rm.numPlayers k)).address,
               port := (rm.infoAt (rightIndex rm.numPlayers k)).port },
             { id := (leftIndex rm.numPlayers k : Int) + 1,
               address := (rm.infoAt (leftIndex rm.numPlayers k)).address,
               port := (rm.infoAt (leftIndex rm.numPlayers k)).port }]
          else
            [{ id := (rightIndex rm.numPlayers k : Int) + 1,
               address := (rm.infoAt (rightIndex rm.numPlayers k)).address,
               port := (rm.infoAt (rightIndex rm.numPlayers k)).port }] } := by
  have hb := h.bound
  obtain ⟨hlen, hfind, hsub, hdrop⟩ := neighborText_listed rm h hN k
  obtain ⟨hstream, hbytes⟩ := stream_listed rm h hN k hk
  have hright := parseString_listed rm h _ (rightIndex_lt rm.numPlayers k (by omega)) []
    (by simp)
  rw [List.append_nil] at hright
  have hleft := parseString_listed rm h _ (leftIndex_lt rm.numPlayers k (by omega)) ['\n']
    (by simp)
  rw [hstream, hbytes, receiveInfoFromRingmaster, receiveMyId_htons]
  simp only [receiveTotalNumberOfPlayers_htons, receiveInfoString_text _ hlen, hfind, hsub,
    hright]
  rw [Nat.mod_eq_of_lt hb, Nat.mod_eq_of_lt (show k < 65536 by omega),
    Nat.mod_eq_of_lt (show k + 1 < 65536 by omega)]
  by_cases h2 : rm.numPlayers > 2
  · rw [if_pos h2, if_pos h2, hdrop h2]
    simp only [hleft]
  · rw [if_neg h2, if_neg h2]

/-! ## Claims about the neighbour block -/

/-- C13. The shape of the neighbour block: in a Coordinator state with one
descriptor per player (ids by index, 16-bit ports, addresses of at most 45
characters without colon or newline), every descriptor line is
`id:address:port`; with `N ≥ 2` players the bytes written to the player with
index `i` are its id, the player count, a 16-bit length that reads back as the
byte length of the text, and the text; the text is the line of the player with
index `(i + 1) mod N` and a newline when `N = 2`, and that line, a newline, the
line of the player with index `(i + N - 1) mod N` and a newline when `N > 2`;
with `N = 1` only the id and the player count (4 bytes) are written. -/
theorem neighbor_block_shape (rm : Ringmaster) (h : RingListed rm) (i : Nat)
    (hi : i < rm.numPlayers) :
    (∀ j, j < rm.numPlayers →
      getNeighborInfo (rm.infoAt j)
        = to_string (j : Int) ++ [':'] ++ (rm.infoAt j).address ++ [':']
            ++ to_string ((rm.infoAt j).port : Int))
    ∧ (2 ≤ rm.numPlayers →
        (sendInfoToPlayers rm).getD i []
          = sendPlayerOwnInfo (rm.infoAt i) ++ sendTotalNumberOfPlayers rm
            ++ htons (neighborText rm i).length ++ (neighborText rm i).map Char.toNat
        ∧ ntohs (htons (neighborText rm i).length)
            = ((neighborText rm i).map Char.toNat).length
        ∧ (rm.numPlayers = 2 →
            neighborText rm i
              = getNeighborInfo (rm.infoAt ((i + 1) % rm.numPlayers)) ++ ['\n'])
        ∧ (rm.numPlayers > 2 →
            neighborText rm i
              = getNeighborInfo (rm.infoAt ((i + 1) % rm.numPlayers)) ++ ['\n']
                ++ getNeighborInfo (rm.infoAt ((i + rm.numPlayers - 1) % rm.numPlayers))
                ++ ['\n']))
    ∧ (rm.numPlayers = 1 →
        sendInfoToPlayers rm = [sendPlayerOwnInfo (rm.infoAt 0) ++ sendTotalNumberOfPlayers rm]
        ∧ ((sendInfoToPlayers rm).getD i []).length = 4) := by
  have hb := h.bound
  refine ⟨fun j hj => (getNeighborInfo_listed rm h j hj).1, fun hN => ⟨?_, ?_, ?_, ?_⟩,
    fun h1 => ?_⟩
  · rw [(stream_listed rm h hN i hi).1, bytesForPlayer]
  · rw [ntohs_htons, Nat.mod_eq_of_lt (neighborText_listed rm h hN i).1, List.length_map]
  · intro h2
    simp only [neighborText, rightIndex_eq _ i hi hb]
    simp [h2]
  · intro h2
    simp only [neighborText, rightIndex_eq _ i hi hb, leftIndex_eq _ i hi hb]
    simp [h2]
  · have hi0 : i = 0 := by omega
    subst hi0
    simp [sendInfoToPlayers, h1, sendPlayerOwnInfo, sendTotalNumberOfPlayers, htons]

/-- Witness for C13: the player with index 0 among the three example players. -/
theorem neighbor_block_shape_witness :
    (∀ j, j < threePlayers.numPlayers →
      getNeighborInfo (threePlayers.infoAt j)
        = to_string (j : Int) ++ [':'] ++ (threePlayers.infoAt j).address ++ [':']
            ++ to_string ((threePlayers.infoAt j).port : Int))
    ∧ (2 ≤ threePlayers.numPlayers →
        (sendInfoToPlayers threePlayers).getD 0 []
          = sendPlayerOwnInfo (threePlayers.infoAt 0) ++ sendTotalNumberOfPlayers threePlayers
            ++ htons (neighborText threePlayers 0).length
            ++ (neighborText threePlayers 0).map Char.toNat
        ∧ ntohs (htons (neighborText threePlayers 0).length)
            = ((neighborText threePlayers 0).map Char.toNat).length
        ∧ (threePlayers.numPlayers = 2 →
            neighborText threePlayers 0
              = getNeighborInfo (threePlayers.infoAt ((0 + 1) % threePlayers.numPlayers))
                ++ ['\n'])
        ∧ (threePlayers.numPlayers > 2 →
            neighborText threePlayers 0
              = getNeighborInfo (threePlayers.infoAt ((0 + 1) % threePlayers.numPlayers))
                ++ ['\n']
                ++ getNeighborInfo (threePlayers.infoAt
                    ((0 + threePlayers.numPlayers - 1) % threePlayers.numPlayers))
                ++ ['\n']))
    ∧ (threePlayers.numPlayers = 1 →
        sendInfoToPlayers threePlayers
          = [sendPlayerOwnInfo (threePlayers.infoAt 0) ++ sendTotalNumberOfPlayers threePlayers]
        ∧ ((sendInfoToPlayers threePlayers).getD 0 []).length = 4) :=
  neighbor_block_shape threePlayers
    ⟨by decide, by decide, by decide, by decide, by decide⟩ 0 (by decide)

/-- C14. The neighbour block round trip: in a Coordinator state with one
descriptor per player (ids by index, 16-bit ports, addresses of at most 45
characters without colon or newline) and `N ≥ 2` players,
`receiveInfoFromRingmaster` on the bytes that `sendInfoToPlayers` writes to
the player with index `i` succeeds; its neighbour list is `[right]` when
`N = 2` and `[right, left]` when `N > 2`, where `right` and `left` carry the
address and port of the players with index `(i + 1) mod N` and
`(i + N - 1) mod N` unchanged and that index plus one as id; and `parseString`
reads the left line although its text still ends in the newline. -/
theorem neighbor_block_round_trip (rm : Ringmaster) (h : RingListed rm) (i : Nat)
    (hN : 2 ≤ rm.numPlayers) (hi : i < rm.numPlayers) :
    ∃ pl, receiveInfoFromRingmaster ((sendInfoToPlayers rm).getD i []) = .ok pl
      ∧ (rm.numPlayers = 2 →
          pl.neighborInfos
            = [{ id := (((i + 1) % rm.numPlayers : Nat) : Int) + 1,
                 address := (rm.infoAt ((i + 1) % rm.numPlayers)).address,
                 port := (rm.infoAt ((i + 1) % rm.numPlayers)).port }])
      ∧ (rm.numPlayers > 2 →
          pl.neighborInfos
            = [{ id := (((i + 1) % rm.numPlayers : Nat) : Int) + 1,
                 address := (rm.infoAt ((i + 1) % rm.numPlayers)).address,
                 port := (rm.infoAt ((i + 1) % rm.numPlayers)).port },
               { id := (((i + rm.numPlayers - 1) % rm.numPlayers : Nat) : Int) + 1,
                 address := (rm.infoAt ((i + rm.numPlayers - 1) % rm.numPlayers)).address,
                 port := (rm.infoAt ((i + rm.numPlayers - 1) % rm.numPlayers)).port }])
      ∧ parseString
          (getNeighborInfo (rm.infoAt ((i + rm.numPlayers - 1) % rm.numPlayers)) ++ ['\n'])
          = .ok { id := (((i + rm.numPlayers - 1) % rm.numPlayers : Nat) : Int) + 1,
                  address := (rm.infoAt ((i + rm.numPlayers - 1) % rm.numPlayers)).address,
                  port := (rm.infoAt ((i + rm.numPlayers - 1) % rm.numPlayers)).port } := by
  have hb := h.bound
  refine ⟨_, receiveInfo_listed rm h hN i hi, ?_, ?_, ?_⟩
  · intro h2
    simp only [rightIndex_eq _ i hi hb]
    simp [h2]
  · intro h2
    simp only [rightIndex_eq _ i hi hb, leftIndex_eq _ i hi hb]
    simp [h2]
  · exact parseString_listed rm h _ (Nat.mod_lt _ (by omega)) ['\n'] (by simp)

/-- Witness for C14: the player with index 0 among the three example players. -/
theorem neighbor_block_round_trip_witness :
    ∃ pl, receiveInfoFromRingmaster ((sendInfoToPlayers threePlayers).getD 0 []) = .ok pl
      ∧ (threePlayers.numPlayers = 2 →
          pl.neighborInfos
            = [{ id := (((0 + 1) % threePlayers.numPlayers : Nat) : Int) + 1,
                 address := (threePlayers.infoAt ((0 + 1) % threePlayers.numPlayers)).address,
                 port := (threePlayers.infoAt ((0 + 1) % threePlayers.numPlayers)).port }])
      ∧ (threePlayers.numPlayers > 2 →
          pl.neighborInfos
            = [{ id := (((0 + 1) % threePlayers.numPlayers : Nat) : Int) + 1,
                 address := (threePlayers.infoAt ((0 + 1) % threePlayers.numPlayers)).address,
                 port := (threePlayers.infoAt ((0 + 1) % threePlayers.numPlayers)).port },
               { id := (((0 + threePlayers.numPlayers - 1) % threePlayers.numPlayers : Nat) : Int)
                   + 1,
                 address := (threePlayers.infoAt
                   ((0 + threePlayers.numPlayers - 1) % threePlayers.numPlayers)).address,
                 port := (threePlayers.infoAt
                   ((0 + threePlayers.numPlayers - 1) % threePlayers.numPlayers)).port }])
      ∧ parseString
          (getNeighborInfo (threePlayers.infoAt
            ((0 + threePlayers.numPlayers - 1) % threePlayers.numPlayers)) ++ ['\n'])
          = .ok { id := (((0 + threePlayers.numPlayers - 1) % threePlayers.numPlayers : Nat) : Int)
                    + 1,
                  address := (threePlayers.infoAt
                    ((0 + threePlayers.numPlayers - 1) % threePlayers.numPlayers)).address,
                  port := (threePlayers.infoAt
                    ((0 + threePlayers.numPlayers - 1) % threePlayers.numPlayers)).port } :=
  neighbor_block_round_trip threePlayers
    ⟨by decide, by decide, by decide, by decide, by decide⟩ 0 (by decide) (by decide)

/-! ## Facts and claims about malformed descriptors -/

theorem findChar_none (c : Char) (xs : List Char) (h : ∀ x ∈ xs, x ≠ c) :
    findChar c xs = none := by
  induction xs with
  | nil => rfl
  | cons x xs ih =>
    have hx : x ≠ c := h x (List.mem_cons_self _ _)
    have := ih (fun y hy => h y (List.mem_cons_of_mem _ hy))
    simp [findChar, hx, this]

/-- `parseString` on a text with at least two colons: the part before the
first colon goes to `stoi` as the id, the part after the second colon as the
port. -/
theorem parseString_parts (idPart addr portPart : List Char)
    (hid : ∀ x ∈ idPart, x ≠ ':') (haddr : ∀ x ∈ addr, x ≠ ':') :
    parseString (idPart ++ ':' :: (addr ++ ':' :: portPart))
      = match stoi idPart with
        | none => .error "Invalid player ID in neighbor information"
        | some id =>
          match stoi portPart with
          | none => .error "Invalid port number in neighbor information"
          | some port =>
            if port < 0 ∨ port > 65535 then
              .error "Invalid port number in neighbor information"
            else .ok { id := wrapInt32 (id + 1), address := addr, port := port.toNat } := by
  have h1 : findChar ':' (idPart ++ ':' :: (addr ++ ':' :: portPart)) = some idPart.length :=
    findChar_append ':' _ _ hid
  have h2 : substr (idPart ++ ':' :: (addr ++ ':' :: portPart)) 0 idPart.length = idPart := by
    unfold substr
    rw [List.drop_zero, take_length_append]
  have h3 : findCharFrom ':' (idPart ++ ':' :: (addr ++ ':' :: portPart)) (idPart.length + 1)
      = some (addr.length + (idPart.length + 1)) := by
    unfold findCharFrom
    rw [drop_length_succ_append, findChar_append ':' _ _ haddr]
    rfl
  have h4 : (idPart ++ ':' :: (addr ++ ':' :: portPart)).drop
      (addr.length + (idPart.length + 1) + 1) = portPart := by
    have e : addr.length + (idPart.length + 1) + 1 = idPart.length + 1 + (addr.length + 1) := by
      omega
    rw [e, ← List.drop_drop, drop_length_succ_append, drop_length_succ_append]
  have h5 : substr (idPart ++ ':' :: (addr ++ ':' :: portPart)) (idPart.length + 1)
      (addr.length + (idPart.length + 1) - idPart.length - 1) = addr := by
    unfold substr
    have e : addr.length + (idPart.length + 1) - idPart.length - 1 = addr.length := by omega
    rw [e, drop_length_succ_append, take_length_append]
  unfold parseString
  simp only [h1, h2, h3, h4, h5]

/-- C15, as stated, fails: `parseString` returns a descriptor without any
error for a text with no colon (the default descriptor, id -1) and for a text
with a single colon (the id plus one, no address, port 0). -/
theorem parseString_accepts_missing_separators :
    parseString "10.0.0.1".toList = .ok { id := -1, address := [], port := 0 }
    ∧ parseString "7:10.0.0.1".toList = .ok { id := 8, address := [], port := 0 } :=
  ⟨rfl, rfl⟩

/-- C15, amended. Format errors at the parser: `parseString` raises an error
and returns no descriptor when the text has a colon and the part before the
first colon is not readable by `stoi`, whatever follows that colon, and when
the text has two colons, a readable id, and a port part after the second colon
that is not readable by `stoi` or lies outside `0 .. 65535`; a text without any
colon gives the default descriptor (id -1, empty address, port 0) and a text
with one colon and a readable id gives that id plus one, in 32-bit `int`
arithmetic (2147483647 becomes -2147483648), with empty address and port 0,
both without error; and `receiveInfoFromRingmaster` raises an error when the
block it has read contains no newline. -/
theorem format_errors (plain idBad idPart addr portBad portPart rest anyRest : List Char)
    (id port : Int) (stream rest1 rest2 rest3 : List Nat) (my_id numPlayers : Nat)
    (info : List Char)
    (hplain : ∀ x ∈ plain, x ≠ ':')
    (hidBad : ∀ x ∈ idBad, x ≠ ':') (hidPart : ∀ x ∈ idPart, x ≠ ':')
    (haddr : ∀ x ∈ addr, x ≠ ':') (hrest : ∀ x ∈ rest, x ≠ ':')
    (hbad : stoi idBad = none) (hid : stoi idPart = some id)
    (hportBad : stoi portBad = none)
    (hport : stoi portPart = some port) (hrange : port < 0 ∨ 65535 < port)
    (h1 : receiveMyId stream = .ok (my_id, rest1))
    (h2 : receiveTotalNumberOfPlayers rest1 = .ok (numPlayers, rest2))
    (h3 : receiveInfoString rest2 = .ok (info, rest3)) (hnl : ∀ x ∈ info, x ≠ '\n') :
    parseString plain = .ok { id := -1, address := [], port := 0 }
    ∧ parseString (idPart ++ ':' :: rest)
        = .ok { id := wrapInt32 (id + 1), address := [], port := 0 }
    ∧ parseString "2147483647:".toList = .ok { id := -2147483648, address := [], port := 0 }
    ∧ parseString (idBad ++ ':' :: anyRest)
        = .error "Invalid player ID in neighbor information"
    ∧ parseString (idPart ++ ':' :: (addr ++ ':' :: portBad))
        = .error "Invalid port number in neighbor information"
    ∧ parseString (idPart ++ ':' :: (addr ++ ':' :: portPart))
        = .error "Invalid port number in neighbor information"
    ∧ receiveInfoFromRingmaster stream = .error "Invalid neighbor information format" := by
  have hfirst : ∀ part tail : List Char, (∀ x ∈ part, x ≠ ':') →
      findChar ':' (part ++ ':' :: tail) = some part.length
      ∧ substr (part ++ ':' :: tail) 0 part.length = part := by
    intro part tail hpart
    refine ⟨findChar_append ':' _ _ hpart, ?_⟩
    unfold substr
    rw [List.drop_zero, take_length_append]
  have hsecond : findCharFrom ':' (idPart ++ ':' :: rest) (idPart.length + 1) = none := by
    unfold findCharFrom
    rw [drop_length_succ_append, findChar_none ':' rest hrest]
    rfl
  refine ⟨?_, ?_, rfl, ?_, ?_, ?_, ?_⟩
  · unfold parseString
    rw [findChar_none ':' plain hplain]
  · obtain ⟨e1, e2⟩ := hfirst idPart rest hidPart
    unfold parseString
    simp only [e1, e2, hsecond, hid]
  · obtain ⟨e1, e2⟩ := hfirst idBad anyRest hidBad
    unfold parseString
    simp only [e1, e2, hbad]
  · rw [parseString_parts idPart addr portBad hidPart haddr, hid, hportBad]
  · rw [parseString_parts idPart addr portPart hidPart haddr, hid, hport]
    simp only
    rw [if_pos (by omega)]
  · unfold receiveInfoFromRingmaster
    simp only [h1, h2, h3, findChar_none '\n' info hnl]

/-- Witness for C15 amended: texts built from the parts `x`, `7`, `10.0.0.1`,
`p` and `70000`, the text `x:10.0.0.1:5001`, and a block `xy` without newline
sent to player 2 of three. -/
theorem format_errors_witness :
    parseString "10.0.0.1".toList = .ok { id := -1, address := [], port := 0 }
    ∧ parseString ("7".toList ++ ':' :: "abc".toList)
        = .ok { id := wrapInt32 (7 + 1), address := [], port := 0 }
    ∧ parseString "2147483647:".toList = .ok { id := -2147483648, address := [], port := 0 }
    ∧ parseString ("x".toList ++ ':' :: "10.0.0.1:5001".toList)
        = .error "Invalid player ID in neighbor information"
    ∧ parseString ("7".toList ++ ':' :: ("10.0.0.1".toList ++ ':' :: "p".toList))
        = .error "Invalid port number in neighbor information"
    ∧ parseString ("7".toList ++ ':' :: ("10.0.0.1".toList ++ ':' :: "70000".toList))
        = .error "Invalid port number in neighbor information"
    ∧ receiveInfoFromRingmaster [0, 1, 0, 3, 0, 2, 120, 121]
        = .error "Invalid neighbor information format" :=
  format_errors "10.0.0.1".toList "x".toList "7".toList "10.0.0.1".toList "p".toList
    "70000".toList "abc".toList "10.0.0.1:5001".toList 7 70000
    [0, 1, 0, 3, 0, 2, 120, 121] [0, 3, 0, 2, 120, 121] [0, 2, 120, 121] [] 2 3 "xy".toList
    (by decide) (by decide) (by decide) (by decide) (by decide)
    (by decide) (by decide) (by decide) (by decide) (by decide)
    rfl rfl rfl (by decide)

/-! ## Facts about the wait for acknowledgements -/

theorem ackStateOf_congr (n : Nat) (c d : Nat → Bool) (h : ∀ j, j < n → c j = d j) :
    ackStateOf n c = ackStateOf n d := by
  unfold ackStateOf
  congr 1
  · apply List.map_congr_left
    intro j hj
    rw [h j (List.mem_range.mp hj)]
  · congr 1
    apply List.filter_congr
    intro j hj
    exact h j (List.mem_range.mp hj)

theorem ackStateOf_getD (n : Nat) (c : Nat → Bool) (i : Nat) (hi : i < n) :
    (ackStateOf n c).fds.getD i (-1) = if c i then (-1 : Int) else (i : Int) := by
  simp [ackStateOf, List.getElem?_range hi]

theorem ackStateOf_set (n : Nat) (c : Nat → Bool) (i : Nat) :
    (ackStateOf n c).fds.set i (-1) = (ackStateOf n (fun j => c j || j == i)).fds := by
  unfold ackStateOf
  apply List.ext_getElem?
  intro k
  simp only [List.getElem?_set, List.length_map, List.length_range, List.getElem?_map]
  by_cases hk : k < n
  · rw [List.getElem?_range hk]
    by_cases hik : i = k
    · subst hik
      simp [hk]
    · have hki : ¬ k = i := fun e => hik e.symm
      simp [hik, hki]
  · have hnone : (List.range n)[k]? = none := by
      rw [List.getElem?_eq_none_iff]
      simpa using hk
    rw [hnone]
    by_cases hik : i = k
    · subst hik
      simp [hk]
    · simp [hik]

theorem filter_mark_length (c : Nat → Bool) (i : Nat) (hc : c i = false) :
    ∀ n, i < n →
      ((List.range n).filter fun j => c j || j == i).length
        = ((List.range n).filter c).length + 1 := by
  intro n
  induction n with
  | zero => intro h; omega
  | succ n ih =>
    intro h
    rw [List.range_succ, List.filter_append, List.filter_append, List.length_append,
      List.length_append]
    by_cases hin : i = n
    · subst hin
      have hsame : (List.range i).filter (fun j => c j || j == i) = (List.range i).filter c := by
        apply List.filter_congr
        intro j hj
        have : j ≠ i := by
          have := List.mem_range.mp hj
          omega
        simp [this]
      rw [hsame]
      simp [hc]
    · have hlt : i < n := by omega
      have hni : ¬ n = i := fun e => hin e.symm
      have hlast : [n].filter (fun j => c j || j == i) = [n].filter c := by
        apply List.filter_congr
        intro j hj
        have hjn : j = n := by simpa using hj
        subst hjn
        simp [hni]
      rw [ih hlt, hlast]
      omega

theorem ackStateOf_mark (n : Nat) (c : Nat → Bool) (i : Nat) (hi : i < n) (hc : c i = false) :
    ({ fds := (ackStateOf n c).fds.set i (-1),
       closedPlayers := (ackStateOf n c).closedPlayers + 1 } : AckState)
      = ackStateOf n (fun j => c j || j == i) := by
  rw [ackStateOf_set]
  unfold ackStateOf
  simp only [AckState.mk.injEq, true_and]
  exact (filter_mark_length c i hc n hi).symm

theorem ackScan_step (p : AckPoll) (N : Nat) (hret : 0 ≤ p.returned)
    (hbytes : ∀ i, p.bytesRead i ≠ none) (c : Nat → Bool) (n i : Nat) (hi : i < N) :
    ackScan p i (n + 1) (ackStateOf N (fun j => c j || (decide (j < i) && zeroRead p j)))
      = ackScan p (i + 1) n
          (ackStateOf N (fun j => c j || (decide (j < i + 1) && zeroRead p j))) := by
  have hget := ackStateOf_getD N (fun j => c j || (decide (j < i) && zeroRead p j)) i hi
  simp only [Nat.lt_irrefl, decide_False, Bool.false_and, Bool.or_false] at hget
  have hsame : c i = true ∨ zeroRead p i = false →
      (fun j => c j || (decide (j < i + 1) && zeroRead p j))
        = (fun j => c j || (decide (j < i) && zeroRead p j)) := by
    intro h
    funext j
    by_cases hj : j = i
    · subst hj
      rcases h with h | h
      · simp [h]
      · simp [h]
    · have : (j < i + 1) = (j < i) := by
        apply propext
        constructor <;> intro <;> omega
      simp only [this]
  rw [ackScan, hget]
  by_cases hci : c i = true
  · rw [hsame (Or.inl hci)]
    simp [hci]
  · have hcf : c i = false := by simpa using hci
    by_cases hpoll : p.pollin i = true
    · cases hb : p.bytesRead i with
      | none => exact absurd hb (hbytes i)
      | some b =>
        by_cases hb0 : b = 0
        · subst hb0
          have hz : zeroRead p i = true := by simp [zeroRead, hret, hpoll, hb]
          have hmark := ackStateOf_mark N (fun j => c j || (decide (j < i) && zeroRead p j)) i hi
            (by simp [hcf])
          have hnext : (fun j => c j || (decide (j < i + 1) && zeroRead p j))
              = (fun j => (c j || (decide (j < i) && zeroRead p j)) || j == i) := by
            funext j
            by_cases hj : j = i
            · subst hj
              simp [hz]
            · have : (j < i + 1) = (j < i) := by
                apply propext
                constructor <;> intro <;> omega
              simp [this, hj]
          rw [hnext, ← hmark]
          simp [hcf, hpoll]
        · have hz : zeroRead p i = false := by simp [zeroRead, hb, hb0]
          rw [hsame (Or.inr hz)]
          simp [hcf, hpoll, hb0]
    · have hz : zeroRead p i = false := by simp [zeroRead, hpoll]
      rw [hsame (Or.inr hz)]
      simp [hpoll]

/-- One pass over the sockets marks exactly the still open sockets that have
a zero-length read in this poll outcome. -/
theorem ackScan_spec (p : AckPoll) (N : Nat) (hret : 0 ≤ p.returned)
    (hbytes : ∀ i, p.bytesRead i ≠ none) (c : Nat → Bool) :
    ∀ n i, i + n = N →
      ackScan p i n (ackStateOf N (fun j => c j || (decide (j < i) && zeroRead p j)))
        = .ok (ackStateOf N (fun j => c j || zeroRead p j)) := by
  intro n
  induction n with
  | zero =>
    intro i hi
    rw [ackScan]
    congr 1
    apply ackStateOf_congr
    intro j hj
    have : j < i := by omega
    simp [this]
  | succ n ih =>
    intro i hi
    rw [ackScan_step p N hret hbytes c n i (by omega)]
    exact ih (i + 1) (by omega)

theorem ackScan_round (p : AckPoll) (N : Nat) (hret : 0 ≤ p.returned)
    (hbytes : ∀ i, p.bytesRead i ≠ none) (c : Nat → Bool) :
    ackScan p 0 N (ackStateOf N c) = .ok (ackStateOf N (fun j => c j || zeroRead p j)) := by
  have h := ackScan_spec p N hret hbytes c N 0 (by omega)
  simpa using h

theorem closedBy_append (xs ys : List AckPoll) (i : Nat) :
    closedBy (xs ++ ys) i = (closedBy xs i || closedBy ys i) := by
  simp [closedBy, List.any_append]

theorem closedPlayers_lt_iff (n : Nat) (c : Nat → Bool) :
    (ackStateOf n c).closedPlayers < n ↔ (List.range n).all c = false := by
  have hle : ((List.range n).filter c).length ≤ (List.range n).length :=
    List.length_filter_le c _
  have heq := @List.filter_length_eq_length Nat c (List.range n)
  rw [List.length_range] at hle heq
  simp only [ackStateOf]
  constructor
  · intro hlt
    by_contra hall
    have hall2 : (List.range n).all c = true := by simpa using hall
    rw [List.all_eq_true] at hall2
    have := heq.mpr (fun a ha => hall2 a ha)
    omega
  · intro hall
    by_contra hge
    have hlen : ((List.range n).filter c).length = n := by omega
    have := heq.mp hlen
    have hall2 : (List.range n).all c = true := by
      rw [List.all_eq_true]
      exact this
    rw [hall2] at hall
    exact Bool.noConfusion hall

theorem allClosed_mono (n : Nat) (xs ys : List AckPoll) (h : allClosed n xs = true) :
    allClosed n (xs ++ ys) = true := by
  unfold allClosed at *
  rw [List.all_eq_true] at *
  intro i hi
  rw [closedBy_append, h i hi]
  rfl

/-- One pass of the `while` loop that is entered: a failed `poll` with
`EINTR` changes nothing, a successful one marks the sockets with a zero-length
read. -/
theorem ackLoop_step (n : Nat) (p : AckPoll) (rest pre : List AckPoll)
    (hopen : allClosed n pre = false)
    (hintr : p.returned < 0 → p.eintr = true) (hbytes : ∀ i, p.bytesRead i ≠ none) :
    ackLoop n (p :: rest) (ackStateOf n (closedBy pre))
      = ackLoop n rest (ackStateOf n (closedBy (pre ++ [p]))) := by
  have hlt : (ackStateOf n (closedBy pre)).closedPlayers < n :=
    (closedPlayers_lt_iff n _).mpr hopen
  rw [ackLoop, if_pos hlt]
  by_cases hneg : p.returned < 0
  · rw [if_pos hneg, if_pos (hintr hneg)]
    have hfun : closedBy (pre ++ [p]) = closedBy pre := by
      funext i
      rw [closedBy_append]
      have : zeroRead p i = false := by
        simp only [zeroRead, Bool.and_eq_false_iff, decide_eq_false_iff_not]
        exact Or.inl (Or.inl (by omega))
      simp [closedBy, this]
    rw [hfun]
  · rw [if_neg hneg, ackScan_round p n (by omega) hbytes]
    have hfun : closedBy (pre ++ [p]) = fun j => closedBy pre j || zeroRead p j := by
      funext i
      rw [closedBy_append]
      simp [closedBy]
    rw [hfun]

/-- The wait, started after the poll outcomes `pre`, returns at the first
point where every socket has had a zero-length read, and is still blocked when
the outcomes run out before that. -/
theorem ackLoop_spec (n : Nat) :
    ∀ (rounds pre : List AckPoll),
      (∀ p ∈ rounds, (p.returned < 0 → p.eintr = true) ∧ ∀ i, p.bytesRead i ≠ none) →
      (∀ m, m ≤ rounds.length → allClosed n (pre ++ rounds.take m) = true →
          (∀ k, k < m → allClosed n (pre ++ rounds.take k) = false) →
          ackLoop n rounds (ackStateOf n (closedBy pre))
            = (ackStateOf n (closedBy (pre ++ rounds.take m)),
                .returned (rounds.length - m)))
      ∧ (allClosed n (pre ++ rounds) = false →
          ackLoop n rounds (ackStateOf n (closedBy pre))
            = (ackStateOf n (closedBy (pre ++ rounds)), .stillWaiting)) := by
  intro rounds
  induction rounds with
  | nil =>
    intro pre _
    constructor
    · intro m hm hall _
      have hm0 : m = 0 := by simpa using hm
      subst hm0
      simp only [List.take_nil, List.append_nil] at hall ⊢
      have hnot : ¬ (ackStateOf n (closedBy pre)).closedPlayers < n := by
        intro hlt
        have := (closedPlayers_lt_iff n _).mp hlt
        unfold allClosed at hall
        rw [hall] at this
        exact Bool.noConfusion this
      rw [ackLoop, if_neg hnot]
      rfl
    · intro hopen
      rw [List.append_nil] at hopen ⊢
      rw [ackLoop, if_pos ((closedPlayers_lt_iff n _).mpr hopen)]
  | cons p rest ih =>
    intro pre hclean
    have hp := hclean p (List.mem_cons_self _ _)
    have hrest : ∀ q ∈ rest, (q.returned < 0 → q.eintr = true) ∧ ∀ i, q.bytesRead i ≠ none :=
      fun q hq => hclean q (List.mem_cons_of_mem _ hq)
    obtain ⟨iha, ihb⟩ := ih (pre ++ [p]) hrest
    constructor
    · intro m hm hall hmin
      cases m with
      | zero =>
        simp only [List.take_zero, List.append_nil] at hall ⊢
        have hnot : ¬ (ackStateOf n (closedBy pre)).closedPlayers < n := by
          intro hlt
          have := (closedPlayers_lt_iff n _).mp hlt
          unfold allClosed at hall
          rw [hall] at this
          exact Bool.noConfusion this
        rw [ackLoop, if_neg hnot]
        rfl
      | succ m =>
        have hopen : allClosed n pre = false := by
          have := hmin 0 (by omega)
          simpa using this
        rw [ackLoop_step n p rest pre hopen hp.1 hp.2]
        have e : ∀ k, pre ++ (p :: rest).take (k + 1) = (pre ++ [p]) ++ rest.take k := by
          intro k
          simp
        rw [e m] at hall ⊢
        have := iha m (by simpa using hm) hall (fun k hk => by
          rw [← e k]
          exact hmin (k + 1) (by omega))
        rw [this]
        simp
    · intro hopenAll
      have hopen : allClosed n pre = false := by
        by_contra hc
        have hc2 : allClosed n pre = true := by simpa using hc
        have := allClosed_mono n pre (p :: rest) hc2
        rw [this] at hopenAll
        exact Bool.noConfusion hopenAll
      rw [ackLoop_step n p rest pre hopen hp.1 hp.2]
      have e : pre ++ p :: rest = (pre ++ [p]) ++ rest := by simp
      rw [e] at hopenAll ⊢
      exact ihb hopenAll

theorem waitForAcks_start (rm : Ringmaster) (rounds : List AckPoll) :
    waitForPlayersToAcknowledgeShutdown rm rounds
      = ackLoop rm.numPlayers rounds (ackStateOf rm.numPlayers (closedBy [])) := by
  have hc : closedBy [] = fun _ => false := by
    funext i
    rfl
  have hfilter : ∀ n : Nat, (List.range n).filter (fun _ => false) = [] := by
    intro n
    rw [List.filter_eq_nil_iff]
    intro a _ h
    exact Bool.noConfusion h
  unfold waitForPlayersToAcknowledgeShutdown
  rw [hc]
  simp only [ackStateOf, Bool.false_eq_true, if_false, hfilter, List.length_nil]
  rfl

/-! ## Claims about the wait for acknowledgements -/

/-- C12, as stated, fails: with two players, after each player has produced
its first readiness event, a `ShutdownAck` message read as 2 bytes, no player
is counted and the wait has not returned; it returns once each connection has
given a zero-length read. -/
theorem acknowledgement_message_not_counted :
    waitForPlayersToAcknowledgeShutdown twoPlayers [ackEvent 0 2, ackEvent 1 2]
        = ({ fds := [0, 1], closedPlayers := 0 }, .stillWaiting)
    ∧ waitForPlayersToAcknowledgeShutdown twoPlayers
          [ackEvent 0 2, ackEvent 1 2, ackEvent 0 0, ackEvent 1 0]
        = ({ fds := [-1, -1], closedPlayers := 2 }, .returned 0) := by
  decide

/-- C12, amended. Acknowledgement counting: for every player count and every
sequence of poll outcomes without a `poll` error other than `EINTR` and
without a failing `recv`, one pass over the sockets marks and counts exactly
the sockets that were still open and give a zero-length read (a closed
connection) in that pass, so a read of a `ShutdownAck` message, of 2 bytes or
any positive length, is consumed without counting the player; the wait
returns at the first poll outcome after which every one of the sockets has
given a zero-length read, and it is still blocked when the outcomes end
before that. -/
theorem closed_connections_counted (rm : Ringmaster) (rounds : List AckPoll) (m : Nat)
    (hclean : ∀ p ∈ rounds, (p.returned < 0 → p.eintr = true) ∧ ∀ i, p.bytesRead i ≠ none)
    (hm : m ≤ rounds.length) :
    (∀ p ∈ rounds, ∀ closed : Nat → Bool, 0 ≤ p.returned →
        ackScan p 0 rm.numPlayers (ackStateOf rm.numPlayers closed)
          = .ok (ackStateOf rm.numPlayers (fun j => closed j || zeroRead p j)))
    ∧ (allClosed rm.numPlayers (rounds.take m) = true →
        (∀ k, k < m → allClosed rm.numPlayers (rounds.take k) = false) →
        waitForPlayersToAcknowledgeShutdown rm rounds
          = (ackStateOf rm.numPlayers (closedBy (rounds.take m)),
              .returned (rounds.length - m)))
    ∧ (allClosed rm.numPlayers rounds = false →
        waitForPlayersToAcknowledgeShutdown rm rounds
          = (ackStateOf rm.numPlayers (closedBy rounds), .stillWaiting)) := by
  obtain ⟨ha, hb⟩ := ackLoop_spec rm.numPlayers rounds [] hclean
  refine ⟨fun p hp closed hret => ackScan_round p rm.numPlayers hret (hclean p hp).2 closed,
    fun hall hmin => ?_, fun hopen => ?_⟩
  · rw [waitForAcks_start]
    have := ha m hm (by simpa using hall) (fun k hk => by simpa using hmin k hk)
    simpa using this
  · rw [waitForAcks_start]
    have := hb (by simpa using hopen)
    simpa using this

/-- Witness for C12 amended: two players; each sends its acknowledgement and
then closes; a further poll outcome is never consumed. -/
theorem closed_connections_counted_witness :
    (∀ p ∈ [ackEvent 0 2, ackEvent 1 2, ackEvent 0 0, ackEvent 1 0, ackEvent 1 0],
        ∀ closed : Nat → Bool, 0 ≤ p.returned →
        ackScan p 0 twoPlayers.numPlayers (ackStateOf twoPlayers.numPlayers closed)
          = .ok (ackStateOf twoPlayers.numPlayers (fun j => closed j || zeroRead p j)))
    ∧ (allClosed twoPlayers.numPlayers
          ([ackEvent 0 2, ackEvent 1 2, ackEvent 0 0, ackEvent 1 0, ackEvent 1 0].take 4) = true →
        (∀ k, k < 4 → allClosed twoPlayers.numPlayers
          ([ackEvent 0 2, ackEvent 1 2, ackEvent 0 0, ackEvent 1 0, ackEvent 1 0].take k)
            = false) →
        waitForPlayersToAcknowledgeShutdown twoPlayers
            [ackEvent 0 2, ackEvent 1 2, ackEvent 0 0, ackEvent 1 0, ackEvent 1 0]
          = (ackStateOf twoPlayers.numPlayers
              (closedBy ([ackEvent 0 2, ackEvent 1 2, ackEvent 0 0, ackEvent 1 0,
                ackEvent 1 0].take 4)),
              .returned ([ackEvent 0 2, ackEvent 1 2, ackEvent 0 0, ackEvent 1 0,
                ackEvent 1 0].length - 4)))
    ∧ (allClosed twoPlayers.numPlayers
          [ackEvent 0 2, ackEvent 1 2, ackEvent 0 0, ackEvent 1 0, ackEvent 1 0] = false →
        waitForPlayersToAcknowledgeShutdown twoPlayers
            [ackEvent 0 2, ackEvent 1 2, ackEvent 0 0, ackEvent 1 0, ackEvent 1 0]
          = (ackStateOf twoPlayers.numPlayers
              (closedBy [ackEvent 0 2, ackEvent 1 2, ackEvent 0 0, ackEvent 1 0, ackEvent 1 0]),
              .stillWaiting)) :=
  closed_connections_counted twoPlayers
    [ackEvent 0 2, ackEvent 1 2, ackEvent 0 0, ackEvent 1 0, ackEvent 1 0] 4
    (by
      intro p hp
      simp only [List.mem_cons, List.mem_singleton, List.not_mem_nil, or_false] at hp
      rcases hp with rfl | rfl | rfl | rfl | rfl <;>
        exact ⟨fun h => absurd h (by decide), fun i => by simp [ackEvent]⟩)
    (by decide)

/-! ## Claims about neighbour indices and the end of the game -/

/-- C22. Neighbour indices stay in range under unsigned wrap-around: for every
player count `N` with `1 ≤ N ≤ 65535` and every loop index `i < N`, the 64-bit
unsigned values of `(i + 1) % N` and `(i - 1 + N) % N` in `sendInfoToPlayers`
are `(i + 1) mod N` and `(i + N - 1) mod N`; both are below `N`; the left index
is `N - 1` for `i = 0` and `i - 1` otherwise; so in a Coordinator state with
`N` descriptors both `playerInfos` lookups hit an element. -/
theorem neighbor_indices_in_range (rm : Ringmaster) (i : Nat)
    (hN1 : 1 ≤ rm.numPlayers) (hN : rm.numPlayers ≤ 65535) (hi : i < rm.numPlayers)
    (hsize : rm.playerInfos.length = rm.numPlayers) :
    rightIndex rm.numPlayers i = (i + 1) % rm.numPlayers
    ∧ leftIndex rm.numPlayers i = (i + rm.numPlayers - 1) % rm.numPlayers
    ∧ rightIndex rm.numPlayers i < rm.numPlayers
    ∧ leftIndex rm.numPlayers i < rm.numPlayers
    ∧ leftIndex rm.numPlayers i = (if i = 0 then rm.numPlayers - 1 else i - 1)
    ∧ (∃ info, rm.playerInfos[rightIndex rm.numPlayers i]? = some info
        ∧ rm.infoAt (rightIndex rm.numPlayers i) = info)
    ∧ (∃ info, rm.playerInfos[leftIndex rm.numPlayers i]? = some info
        ∧ rm.infoAt (leftIndex rm.numPlayers i) = info) := by
  have hr := rightIndex_eq rm.numPlayers i hi (by omega)
  have hl := leftIndex_eq rm.numPlayers i hi (by omega)
  have hrlt := rightIndex_lt rm.numPlayers i (by omega)
  have hllt := leftIndex_lt rm.numPlayers i (by omega)
  have hlookup : ∀ k, k < rm.numPlayers →
      ∃ info, rm.playerInfos[k]? = some info ∧ rm.infoAt k = info := by
    intro k hk
    have hk2 : k < rm.playerInfos.length := by omega
    refine ⟨rm.playerInfos[k], List.getElem?_eq_getElem hk2, ?_⟩
    simp [Ringmaster.infoAt, List.getElem?_eq_getElem hk2]
  refine ⟨hr, hl, hrlt, hllt, ?_, hlookup _ hrlt, hlookup _ hllt⟩
  rw [hl, mod_two_range _ _ (by omega)]
  split <;> split <;> omega

/-- Witness for C22: loop index 0 with the three example players. -/
theorem neighbor_indices_in_range_witness :
    rightIndex threePlayers.numPlayers 0 = (0 + 1) % threePlayers.numPlayers
    ∧ leftIndex threePlayers.numPlayers 0
        = (0 + threePlayers.numPlayers - 1) % threePlayers.numPlayers
    ∧ rightIndex threePlayers.numPlayers 0 < threePlayers.numPlayers
    ∧ leftIndex threePlayers.numPlayers 0 < threePlayers.numPlayers
    ∧ leftIndex threePlayers.numPlayers 0
        = (if 0 = 0 then threePlayers.numPlayers - 1 else 0 - 1)
    ∧ (∃ info, threePlayers.playerInfos[rightIndex threePlayers.numPlayers 0]? = some info
        ∧ threePlayers.infoAt (rightIndex threePlayers.numPlayers 0) = info)
    ∧ (∃ info, threePlayers.playerInfos[leftIndex threePlayers.numPlayers 0]? = some info
        ∧ threePlayers.infoAt (leftIndex threePlayers.numPlayers 0) = info) :=
  neighbor_indices_in_range threePlayers 0 (by decide) (by decide) (by decide) (by decide)

/-- C24. `endGame` on a failed final potato: with game information other
than 0 and a potato whose hop count is negative, `endGame` only writes its
error line: no trace is printed, no sentinel and no game-over message is sent,
no acknowledgement is waited for; with game information 0 it is the shutdown
handshake whatever the potato is; with game information other than 0 and a hop
count of at least 0 it prints the trace and then runs the handshake; the
handshake is one sentinel per player socket, the game-over message to every
socket, and the wait for acknowledgements; and the potato `waitForPotato`
gives after a failed `poll` is such a failed potato. -/
theorem endGame_cases (rm : Ringmaster) (failed good other : Potato) (gameInfo : Int)
    (r : Readiness)
    (hinfo : gameInfo ≠ 0) (hfailed : failed.getHops < 0) (hgood : 0 ≤ good.getHops)
    (hpoll : r.status ≤ 0) :
    endGame rm failed gameInfo = [CoordAction.reportFailure]
    ∧ (∀ a ∈ endGame rm failed gameInfo,
        a ≠ CoordAction.waitForAcknowledgements
        ∧ (∀ text, a ≠ CoordAction.print text)
        ∧ (∀ socket record, a ≠ CoordAction.sendRecord socket record)
        ∧ (∀ socket bytes, a ≠ CoordAction.sendBytes socket bytes))
    ∧ endGame rm other 0 = tidyUp rm "Game over. Shutting down...".toList
    ∧ endGame rm good gameInfo
        = CoordAction.print (printTrace good) :: tidyUp rm "Game over. Shutting down...".toList
    ∧ tidyUp rm "Game over. Shutting down...".toList
        = (List.range rm.numPlayers).map (fun i => CoordAction.sendRecord i (Potato.new (-2)))
          ++ sendFinalMessage rm "Game over. Shutting down...".toList
          ++ [CoordAction.waitForAcknowledgements]
    ∧ waitForPotato rm r = .ok (Potato.new (-1))
    ∧ endGame rm (Potato.new (-1)) gameInfo = [CoordAction.reportFailure] := by
  have hfail : ∀ q : Potato, q.getHops < 0 →
      endGame rm q gameInfo = [CoordAction.reportFailure] := by
    intro q hq
    unfold endGame
    rw [if_neg hinfo, if_pos hq]
  refine ⟨hfail failed hfailed, ?_, ?_, ?_, ?_, ?_, hfail _ (by decide)⟩
  · intro a ha
    rw [hfail failed hfailed, List.mem_singleton] at ha
    subst ha
    exact ⟨by simp, by simp, by simp, by simp⟩
  · simp [endGame]
  · unfold endGame
    rw [if_neg hinfo, if_neg (by omega)]
  · simp [tidyUp, sendShutdownSignal, Function.comp_def]
  · unfold waitForPotato
    rw [if_neg (by omega)]

/-- Witness for C24: the three example players, the failed potato
`Potato(-1)`, a returned potato with hop count 0 and game information 1. -/
theorem endGame_cases_witness :
    endGame threePlayers (Potato.new (-1)) 1 = [CoordAction.reportFailure]
    ∧ (∀ a ∈ endGame threePlayers (Potato.new (-1)) 1,
        a ≠ CoordAction.waitForAcknowledgements
        ∧ (∀ text, a ≠ CoordAction.print text)
        ∧ (∀ socket record, a ≠ CoordAction.sendRecord socket record)
        ∧ (∀ socket bytes, a ≠ CoordAction.sendBytes socket bytes))
    ∧ endGame threePlayers (Potato.new 7) 0
        = tidyUp threePlayers "Game over. Shutting down...".toList
    ∧ endGame threePlayers ((Potato.new 0).addTrace 2) 1
        = CoordAction.print (printTrace ((Potato.new 0).addTrace 2))
            :: tidyUp threePlayers "Game over. Shutting down...".toList
    ∧ tidyUp threePlayers "Game over. Shutting down...".toList
        = (List.range threePlayers.numPlayers).map
            (fun i => CoordAction.sendRecord i (Potato.new (-2)))
          ++ sendFinalMessage threePlayers "Game over. Shutting down...".toList
          ++ [CoordAction.waitForAcknowledgements]
    ∧ waitForPotato threePlayers
        { status := -1, pollin := fun _ => false, incoming := fun _ => none }
        = .ok (Potato.new (-1))
    ∧ endGame threePlayers (Potato.new (-1)) 1 = [CoordAction.reportFailure] :=
  endGame_cases threePlayers (Potato.new (-1)) ((Potato.new 0).addTrace 2) (Potato.new 7) 1
    { status := -1, pollin := fun _ => false, incoming := fun _ => none }
    (by decide) (by decide) (by decide) (by decide)

/-! ## Claims about connecting to the neighbours -/

/-- C21. Connect/accept ordering: in a ring of two players set up by the
Coordinator, the player with identity 1 first accepts a connection (kept as
`leftPlayer`) and then connects to its neighbour's descriptor (kept as
`rightPlayer`), and the player with identity 2 first connects and then
accepts, so the two first steps differ; in a ring of more than two players
every player takes exactly two steps, one outbound connection to the
descriptor of its right neighbour (identity `((i + 1) mod N) + 1` for ring
position `i`) and one accepted inbound connection kept as `leftPlayer`,
expected from the descriptor of its left neighbour (identity
`((i + N - 1) mod N) + 1`). -/
theorem connect_accept_ordering (pair ring : Ringmaster) (i : Nat)
    (hpair : RingReady pair) (hring : RingReady ring)
    (h2 : pair.numPlayers = 2) (hN : 2 < ring.numPlayers) (hi : i < ring.numPlayers) :
    ∃ first second pl,
      playerAt pair 0 = .ok first ∧ first.my_id = 1
      ∧ playerAt pair 1 = .ok second ∧ second.my_id = 2
      ∧ connectToNeighbors first
          = [.accept .leftPlayer (first.neighborInfos.getD 0 {}),
             .connect .rightPlayer (first.neighborInfos.getD 0 {})]
      ∧ connectToNeighbors second
          = [.connect .rightPlayer (second.neighborInfos.getD 0 {}),
             .accept .leftPlayer (second.neighborInfos.getD 0 {})]
      ∧ (first.neighborInfos.getD 0 {}).id = 2
      ∧ (second.neighborInfos.getD 0 {}).id = 1
      ∧ (connectToNeighbors first).head?.map NeighborAction.isConnect = some false
      ∧ (connectToNeighbors second).head?.map NeighborAction.isConnect = some true
      ∧ playerAt ring i = .ok pl ∧ pl.my_id = i + 1
      ∧ connectToNeighbors pl
          = [.connect .rightPlayer (pl.neighborInfos.getD 0 {}),
             .accept .leftPlayer (pl.neighborInfos.getD 1 {})]
      ∧ (pl.neighborInfos.getD 0 {}).id = (((i + 1) % ring.numPlayers : Nat) : Int) + 1
      ∧ (pl.neighborInfos.getD 1 {}).id
          = (((i + ring.numPlayers - 1) % ring.numPlayers : Nat) : Int) + 1
      ∧ ((connectToNeighbors pl).filter NeighborAction.isConnect).length = 1
      ∧ ((connectToNeighbors pl).filter fun a => !a.isConnect).length = 1 := by
  obtain ⟨first, hfirst, hid1, hn1, hr1, -⟩ := neighborId_ready pair hpair (by omega) 0 (by omega)
  obtain ⟨second, hsecond, hid2, hn2, hr2, -⟩ :=
    neighborId_ready pair hpair (by omega) 1 (by omega)
  obtain ⟨pl, hpl, hid, hn, hr, hl⟩ := neighborId_ready ring hring (by omega) i hi
  have hl := hl hN
  rw [h2] at hn1 hn2 hr1 hr2
  have c1 : connectToNeighbors first
      = [.accept .leftPlayer (first.neighborInfos.getD 0 {}),
         .connect .rightPlayer (first.neighborInfos.getD 0 {})] := by
    unfold connectToNeighbors
    rw [if_pos hn1, if_pos hid1]
  have c2 : connectToNeighbors second
      = [.connect .rightPlayer (second.neighborInfos.getD 0 {}),
         .accept .leftPlayer (second.neighborInfos.getD 0 {})] := by
    unfold connectToNeighbors
    rw [if_pos hn2, if_neg (by omega)]
  have c3 : connectToNeighbors pl
      = [.connect .rightPlayer (pl.neighborInfos.getD 0 {}),
         .accept .leftPlayer (pl.neighborInfos.getD 1 {})] := by
    unfold connectToNeighbors
    rw [if_neg (by omega), if_pos (by omega)]
  refine ⟨first, second, pl, hfirst, hid1, hsecond, hid2, c1, c2, ?_, ?_, ?_, ?_, hpl, hid, c3,
    hr, hl, ?_, ?_⟩
  · exact hr1
  · exact hr2
  · rw [c1]; rfl
  · rw [c2]; rfl
  · rw [c3]; rfl
  · rw [c3]; rfl

/-- Witness for C21: the two example players, and ring position 0 among the
three example players. -/
theorem connect_accept_ordering_witness :
    ∃ first second pl,
      playerAt twoPlayers 0 = .ok first ∧ first.my_id = 1
      ∧ playerAt twoPlayers 1 = .ok second ∧ second.my_id = 2
      ∧ connectToNeighbors first
          = [.accept .leftPlayer (first.neighborInfos.getD 0 {}),
             .connect .rightPlayer (first.neighborInfos.getD 0 {})]
      ∧ connectToNeighbors second
          = [.connect .rightPlayer (second.neighborInfos.getD 0 {}),
             .accept .leftPlayer (second.neighborInfos.getD 0 {})]
      ∧ (first.neighborInfos.getD 0 {}).id = 2
      ∧ (second.neighborInfos.getD 0 {}).id = 1
      ∧ (connectToNeighbors first).head?.map NeighborAction.isConnect = some false
      ∧ (connectToNeighbors second).head?.map NeighborAction.isConnect = some true
      ∧ playerAt threePlayers 0 = .ok pl ∧ pl.my_id = 0 + 1
      ∧ connectToNeighbors pl
          = [.connect .rightPlayer (pl.neighborInfos.getD 0 {}),
             .accept .leftPlayer (pl.neighborInfos.getD 1 {})]
      ∧ (pl.neighborInfos.getD 0 {}).id = (((0 + 1) % threePlayers.numPlayers : Nat) : Int) + 1
      ∧ (pl.neighborInfos.getD 1 {}).id
          = (((0 + threePlayers.numPlayers - 1) % threePlayers.numPlayers : Nat) : Int) + 1
      ∧ ((connectToNeighbors pl).filter NeighborAction.isConnect).length = 1
      ∧ ((connectToNeighbors pl).filter fun a => !a.isConnect).length = 1 :=
  connect_accept_ordering twoPlayers threePlayers 0
    ⟨by decide, by decide, by decide, by decide, by decide⟩
    ⟨by decide, by decide, by decide, by decide, by decide⟩
    (by decide) (by decide) (by decide)

/-! ## Facts about the acknowledgement counter under any poll outcomes -/

/-- A pass over the sockets that ends without an exception does on the poll
outcome `p` what it does when every failing `recv` of `p` is replaced by a read
of one byte. -/
theorem ackScan_ok_patched (p : AckPoll) :
    ∀ (n i : Nat) (st st2 : AckState), ackScan p i n st = .ok st2 →
      ackScan { p with bytesRead := fun j => some ((p.bytesRead j).getD 1) } i n st
        = .ok st2 := by
  intro n
  induction n with
  | zero =>
    intro i st st2 h
    simpa [ackScan] using h
  | succ n ih =>
    intro i st st2 h
    rw [ackScan] at h ⊢
    by_cases hcond : 0 ≤ st.fds.getD i (-1) ∧ p.pollin i = true
    · rw [if_pos hcond] at h
      rw [if_pos hcond]
      cases hb : p.bytesRead i with
      | none =>
        rw [hb] at h
        exact absurd h (by simp)
      | some b =>
        rw [hb] at h
        simp only [hb, Option.getD_some] at h ⊢
        by_cases hb0 : b ≤ 0
        · rw [if_pos hb0] at h ⊢
          exact ih _ _ _ h
        · rw [if_neg hb0] at h ⊢
          exact ih _ _ _ h
    · rw [if_neg hcond] at h
      rw [if_neg hcond]
      exact ih _ _ _ h

theorem zeroRead_patched (p : AckPoll) (j : Nat) :
    zeroRead { p with bytesRead := fun k => some ((p.bytesRead k).getD 1) } j = zeroRead p j := by
  unfold zeroRead
  cases hb : p.bytesRead j with
  | none => simp [hb]
  | some b => simp [hb]

/-- One pass over the sockets, when it ends without an exception, marks
exactly the still open sockets that have a zero-length read in this poll
outcome, whatever the other reads do. -/
theorem ackScan_round_ok (p : AckPoll) (N : Nat) (hret : 0 ≤ p.returned) (c : Nat → Bool)
    (st2 : AckState) (h : ackScan p 0 N (ackStateOf N c) = .ok st2) :
    st2 = ackStateOf N (fun j => c j || zeroRead p j) := by
  have h1 := ackScan_ok_patched p N 0 _ _ h
  have h2 := ackScan_round { p with bytesRead := fun k => some ((p.bytesRead k).getD 1) } N
    hret (fun i => by simp) c
  rw [h2] at h1
  have h3 : ackStateOf N (fun j => c j
      || zeroRead { p with bytesRead := fun k => some ((p.bytesRead k).getD 1) } j) = st2 := by
    simpa using h1
  rw [← h3]
  apply ackStateOf_congr
  intro j _
  rw [zeroRead_patched]

theorem ackStateOf_closedPlayers_le (n : Nat) (c : Nat → Bool) :
    (ackStateOf n c).closedPlayers ≤ n := by
  have := List.length_filter_le c (List.range n)
  rw [List.length_range] at this
  exact this

theorem filter_union_length (c z : Nat → Bool) (l : List Nat) :
    (l.filter fun j => c j || z j).length
      = (l.filter c).length + (l.filter fun j => !c j && z j).length := by
  induction l with
  | nil => rfl
  | cons a l ih =>
    simp only [List.filter_cons]
    cases hc : c a <;> cases hz : z a <;> simp [ih] <;> omega

theorem closedBy_skip (p : AckPoll) (xs ys : List AckPoll) (hneg : p.returned < 0) :
    closedBy (xs ++ p :: ys) = closedBy (xs ++ ys) := by
  funext i
  have hz : zeroRead p i = false := by
    simp only [zeroRead, Bool.and_eq_false_iff, decide_eq_false_iff_not]
    exact Or.inl (Or.inl (by omega))
  rw [closedBy_append, closedBy_append]
  simp [closedBy, hz]

theorem allClosed_of_not_lt (n : Nat) (pre : List AckPoll)
    (h : ¬ (ackStateOf n (closedBy pre)).closedPlayers < n) : allClosed n pre = true := by
  by_contra hc
  have hf : allClosed n pre = false := by simpa using hc
  exact h ((closedPlayers_lt_iff n _).mpr hf)

/-- Whatever the poll outcomes are, the wait ends in a state in which exactly
the sockets with a zero-length read among the outcomes it has consumed are
marked and counted; when it has returned, every socket is marked. -/
theorem ackLoop_invariant (n : Nat) :
    ∀ (rounds pre : List AckPoll),
      ∃ used, used ≤ rounds.length
        ∧ (ackLoop n rounds (ackStateOf n (closedBy pre))).1
            = ackStateOf n (closedBy (pre ++ rounds.take used))
        ∧ ∀ k, (ackLoop n rounds (ackStateOf n (closedBy pre))).2 = .returned k →
            k = rounds.length - used ∧ allClosed n (pre ++ rounds.take used) = true := by
  intro rounds
  induction rounds with
  | nil =>
    intro pre
    refine ⟨0, Nat.le_refl _, ?_, ?_⟩
    · rw [ackLoop]
      split <;> simp
    · intro k hk
      rw [ackLoop] at hk
      by_cases hlt : (ackStateOf n (closedBy pre)).closedPlayers < n
      · rw [if_pos hlt] at hk
        simp at hk
      · rw [if_neg hlt] at hk
        have hk0 : 0 = k := by simpa using hk
        exact ⟨by simp [← hk0], by simpa using allClosed_of_not_lt n pre hlt⟩
  | cons p rest ih =>
    intro pre
    by_cases hlt : (ackStateOf n (closedBy pre)).closedPlayers < n
    · by_cases hneg : p.returned < 0
      · by_cases he : p.eintr = true
        · obtain ⟨used, hused, hst, hret⟩ := ih pre
          have hloop : ackLoop n (p :: rest) (ackStateOf n (closedBy pre))
              = ackLoop n rest (ackStateOf n (closedBy pre)) := by
            rw [ackLoop, if_pos hlt, if_pos hneg, if_pos he]
          refine ⟨used + 1, by simpa using hused, ?_, ?_⟩
          · rw [hloop, hst, List.take_succ_cons, closedBy_skip p _ _ hneg]
          · intro k hk
            rw [hloop] at hk
            obtain ⟨h1, h2⟩ := hret k hk
            refine ⟨by simp only [List.length_cons]; omega, ?_⟩
            rw [List.take_succ_cons]
            unfold allClosed at h2 ⊢
            rw [closedBy_skip p _ _ hneg]
            exact h2
        · have hloop : ackLoop n (p :: rest) (ackStateOf n (closedBy pre))
              = (ackStateOf n (closedBy pre), .pollFailed rest.length) := by
            rw [ackLoop, if_pos hlt, if_pos hneg, if_neg he]
          refine ⟨0, Nat.zero_le _, by rw [hloop]; simp, ?_⟩
          intro k hk
          rw [hloop] at hk
          simp at hk
      · cases hscan : ackScan p 0 n (ackStateOf n (closedBy pre)) with
        | error e =>
          have hloop : ackLoop n (p :: rest) (ackStateOf n (closedBy pre))
              = (ackStateOf n (closedBy pre), .threw e) := by
            rw [ackLoop, if_pos hlt, if_neg hneg, hscan]
          refine ⟨0, Nat.zero_le _, by rw [hloop]; simp, ?_⟩
          intro k hk
          rw [hloop] at hk
          simp at hk
        | ok st2 =>
          have hst2 := ackScan_round_ok p n (by omega) (closedBy pre) st2 hscan
          have hfun : closedBy (pre ++ [p]) = fun j => closedBy pre j || zeroRead p j := by
            funext i
            rw [closedBy_append]
            simp [closedBy]
          rw [← hfun] at hst2
          have hloop : ackLoop n (p :: rest) (ackStateOf n (closedBy pre))
              = ackLoop n rest (ackStateOf n (closedBy (pre ++ [p]))) := by
            rw [ackLoop, if_pos hlt, if_neg hneg, hscan, hst2]
          obtain ⟨used, hused, hst, hret⟩ := ih (pre ++ [p])
          have e : pre ++ (p :: rest).take (used + 1) = (pre ++ [p]) ++ rest.take used := by
            simp
          refine ⟨used + 1, by simpa using hused, by rw [hloop, hst, e], ?_⟩
          intro k hk
          rw [hloop] at hk
          obtain ⟨h1, h2⟩ := hret k hk
          exact ⟨by simp only [List.length_cons]; omega, by rw [e]; exact h2⟩
    · have hloop : ackLoop n (p :: rest) (ackStateOf n (closedBy pre))
          = (ackStateOf n (closedBy pre), .returned (rest.length + 1)) := by
        rw [ackLoop, if_neg hlt]
      refine ⟨0, Nat.zero_le _, by rw [hloop]; simp, ?_⟩
      intro k hk
      rw [hloop] at hk
      have hk1 : rest.length + 1 = k := by simpa using hk
      exact ⟨by simp [← hk1], by simpa using allClosed_of_not_lt n pre hlt⟩

theorem allClosed_take_mono (n : Nat) (rounds : List AckPoll) (m : Nat)
    (h : allClosed n (rounds.take m) = true) : allClosed n rounds = true := by
  have := allClosed_mono n (rounds.take m) (rounds.drop m) h
  rwa [List.take_append_drop] at this

/-! ## Claims about the acknowledgement counter -/

/-- C23. The acknowledgement counter invariant: for every player count and
every sequence of poll outcomes, `waitForPlayersToAcknowledgeShutdown` ends in
a state in which exactly the sockets that gave a zero-length read among the
outcomes consumed have descriptor -1, and `closedPlayers` is the number of
those sockets, so it never exceeds the player count; one pass over the sockets
adds to the counter exactly the sockets that were not yet marked and give a
zero-length read, so a socket is counted at most once; when the function
returns every socket is marked; and with no `poll` error other than `EINTR`
and no failing `recv` it returns if and only if every one of the sockets has
given a zero-length read, at the first outcome after which that holds.  With
two players, three zero-length reads in a row on socket 0 count it once and
leave the function waiting for socket 1. -/
theorem acknowledgement_counter_invariant (rm : Ringmaster) (rounds : List AckPoll) :
    (∃ used, used ≤ rounds.length
      ∧ (waitForPlayersToAcknowledgeShutdown rm rounds).1
          = ackStateOf rm.numPlayers (closedBy (rounds.take used))
      ∧ ∀ k, (waitForPlayersToAcknowledgeShutdown rm rounds).2 = .returned k →
          k = rounds.length - used ∧ allClosed rm.numPlayers (rounds.take used) = true)
    ∧ (waitForPlayersToAcknowledgeShutdown rm rounds).1.closedPlayers ≤ rm.numPlayers
    ∧ (∀ (p : AckPoll) (c : Nat → Bool) (st2 : AckState), 0 ≤ p.returned →
        ackScan p 0 rm.numPlayers (ackStateOf rm.numPlayers c) = .ok st2 →
        st2 = ackStateOf rm.numPlayers (fun j => c j || zeroRead p j)
        ∧ st2.closedPlayers
            = (ackStateOf rm.numPlayers c).closedPlayers
              + ((List.range rm.numPlayers).filter fun j => !c j && zeroRead p j).length
        ∧ ∀ j, j < rm.numPlayers →
            (st2.fds.getD j (-1) = -1 ↔ (c j = true ∨ zeroRead p j = true)))
    ∧ ((∀ p ∈ rounds, (p.returned < 0 → p.eintr = true) ∧ ∀ i, p.bytesRead i ≠ none) →
        ((∃ k, (waitForPlayersToAcknowledgeShutdown rm rounds).2 = .returned k)
          ↔ allClosed rm.numPlayers rounds = true)
        ∧ ∀ k, (waitForPlayersToAcknowledgeShutdown rm rounds).2 = .returned k →
            ∀ j, j < rounds.length - k → allClosed rm.numPlayers (rounds.take j) = false)
    ∧ waitForPlayersToAcknowledgeShutdown twoPlayers [ackEvent 0 0, ackEvent 0 0, ackEvent 0 0]
        = ({ fds := [-1, 1], closedPlayers := 1 }, .stillWaiting) := by
  obtain ⟨used, hused, hst, hret⟩ := ackLoop_invariant rm.numPlayers rounds []
  rw [← waitForAcks_start] at hst hret
  simp only [List.nil_append] at hst hret
  refine ⟨⟨used, hused, hst, hret⟩, ?_, ?_, ?_, by decide⟩
  · rw [hst]
    exact ackStateOf_closedPlayers_le _ _
  · intro p c st2 hp hscan
    have h := ackScan_round_ok p rm.numPlayers hp c st2 hscan
    refine ⟨h, ?_, ?_⟩
    · rw [h]
      exact filter_union_length c (zeroRead p) _
    · intro j hj
      rw [h, ackStateOf_getD _ _ j hj]
      by_cases hm : (c j || zeroRead p j) = true
      · rw [if_pos hm]
        simpa using hm
      · rw [if_neg hm]
        constructor
        · intro e
          omega
        · intro e
          exact absurd (by simpa using e) hm
  · intro hclean
    obtain ⟨ha, hb⟩ := ackLoop_spec rm.numPlayers rounds [] hclean
    rw [← waitForAcks_start] at ha hb
    simp only [List.nil_append] at ha hb
    have hfirst : allClosed rm.numPlayers rounds = true →
        ∃ m, m ≤ rounds.length
          ∧ (∀ j, j < m → allClosed rm.numPlayers (rounds.take j) = false)
          ∧ (waitForPlayersToAcknowledgeShutdown rm rounds).2 = .returned (rounds.length - m) := by
      intro hall
      have hex : ∃ m, m ≤ rounds.length ∧ allClosed rm.numPlayers (rounds.take m) = true :=
        ⟨rounds.length, Nat.le_refl _, by rw [List.take_length]; exact hall⟩
      have hspec := Nat.find_spec hex
      have hmin : ∀ j, j < Nat.find hex → allClosed rm.numPlayers (rounds.take j) = false := by
        intro j hj
        have hnot := Nat.find_min hex hj
        by_contra hc
        exact hnot ⟨by omega, by simpa using hc⟩
      exact ⟨Nat.find hex, hspec.1, hmin, by rw [ha _ hspec.1 hspec.2 hmin]⟩
    refine ⟨⟨?_, ?_⟩, ?_⟩
    · rintro ⟨k, hk⟩
      exact allClosed_take_mono _ _ used (hret k hk).2
    · intro hall
      obtain ⟨m, -, -, hres⟩ := hfirst hall
      exact ⟨_, hres⟩
    · intro k hk j hj
      have hall := allClosed_take_mono _ _ used (hret k hk).2
      obtain ⟨m, hm, hmin, hres⟩ := hfirst hall
      rw [hres] at hk
      have hkm : rounds.length - m = k := by simpa using hk
      exact hmin j (by omega)

end HotPotato
